import Mathlib

/-!
# goptional: optional scalars and their JSON / BSON hooks

A shallow embedding of `optional.go` (package `goptional`).  Every optional is a
pair of a stored value and a validity flag; the methods with a pointer receiver
are embedded as functions that return the new state of the receiver next to the
Go return value.

The hooks call into two host libraries that are not part of the repository:
`encoding/json` and `gopkg.in/mgo.v2/bson`.  The part of `encoding/json` that the
hooks reach (decoding one token into an `int`, `int64`, `string` or `float64`
target, encoding such a value, a `bool` or a nil pointer) is modelled below in
the namespaces `strconv`, `utf8` and `json`, following the behaviour of the Go
standard library.  Conversion between decimal text and binary floating point
enters the hooks as the parameter `strconv.FloatConv`; `strconv.hostFloatConv`
is the model of the host conversions (parsing rounds to the nearest `float64`,
ties to even; formatting writes the shortest decimal that parses back).  The
BSON payload interpreter `bson.Raw.Unmarshal` enters as a function argument of
`SetBSON`; `bson.UnmarshalInt64` and `bson.UnmarshalString` model it on the null,
int32, int64 and string kinds.  `Bool.Set` takes a value of type `interface{}`,
modelled by `Any`; a run-time panic is the result `none`.  The bodies of the
read methods are given a second time as computations over the receiver, so that
what a method does to its receiver can be stated.
-/

/-- Go byte slices and Go strings: sequences of byte values (each below 256). -/
abbrev Bytes := List Nat

/-- The bytes of an ASCII text. -/
def ascii (s : String) : Bytes := s.toList.map Char.toNat

deriving instance DecidableEq for Except

/-- Go `error` values the hooks can meet or build: the `*SyntaxError`,
`*UnmarshalTypeError` and `*UnsupportedValueError` of `encoding/json`, the error
of the BSON payload interpreter, an error built by `fmt.Errorf` with its
message, and `strconv.ErrRange`. -/
inductive GoError
  | malformed
  | typeMismatch
  | unsupportedValue
  | bsonMismatch
  | errorf (msg : String)
  | outOfRange
deriving DecidableEq, Repr

/-! ## Host model: package `strconv` (integers) -/

namespace strconv

/-- Is the byte an ASCII decimal digit. -/
def isDigit (c : Nat) : Bool := decide (48 ≤ c ∧ c ≤ 57)

/-- Value of a run of decimal digits, accumulated left to right; `none` when a
byte is not a digit. -/
def parseDigits : Bytes → Nat → Option Nat
  | [], acc => some acc
  | c :: cs, acc => if isDigit c then parseDigits cs (acc * 10 + (c - 48)) else none

/-- Host `strconv.ParseUint(s, 10, 64)` without the range check: `none` on the
empty string and on any byte that is not a digit. -/
def parseMagnitude : Bytes → Option Nat
  | [] => none
  | c :: cs => parseDigits (c :: cs) 0

/-- Host `strconv.ParseInt(s, 10, bitSize)`: an optional sign, decimal digits, and
the range check of a signed `bitSize`-bit integer.  `none` stands for a returned
error (`ErrSyntax` or `ErrRange`). -/
def ParseInt (s : Bytes) (bitSize : Nat) : Option Int :=
  match s with
  | [] => none
  | c :: cs =>
    if c = 45 then
      (parseMagnitude cs).bind fun n =>
        if n ≤ 2 ^ (bitSize - 1) then some (-(n : Int)) else none
    else if c = 43 then
      (parseMagnitude cs).bind fun n =>
        if n < 2 ^ (bitSize - 1) then some (n : Int) else none
    else
      (parseMagnitude (c :: cs)).bind fun n =>
        if n < 2 ^ (bitSize - 1) then some (n : Int) else none

/-- Decimal digits of `n`, most significant first; `fuel` bounds the number of
digits produced. -/
def decDigits : Nat → Nat → Bytes
  | 0, _ => []
  | fuel + 1, n => if n < 10 then [48 + n] else decDigits fuel (n / 10) ++ [48 + n % 10]

/-- Host `strconv.IntSize`, the width of `int` (a 64-bit platform). -/
def IntSize : Nat := 64

/-- Host `strconv.FormatUint(n, 10)`. -/
def FormatUint (n : Nat) : Bytes := decDigits (n + 1) n

/-- Host `strconv.FormatInt(i, 10)`. -/
def FormatInt (i : Int) : Bytes :=
  if i < 0 then 45 :: FormatUint i.natAbs else FormatUint i.natAbs

/-- The two conversions between decimal text and `float64` that `encoding/json`
delegates to `strconv`; a `float64` is represented by its IEEE 754 bit pattern.
`ParseFloat s` is `strconv.ParseFloat(s, 64)` on a JSON number literal: the
value and the error it returns (on a number out of range, an infinity together
with `ErrRange`); `FormatFloat f` is the text `strconv.AppendFloat` produces for
a finite `f` in the format the JSON encoder selects. -/
structure FloatConv where
  ParseFloat : Bytes → Nat × Option GoError
  FormatFloat : Nat → Bytes

/-- A finite fragment of the host float conversions, enough to evaluate examples:
the values 0, 1, 1.5 and -2 with their decimal texts, and the text `1e400`,
which is out of range.  Outside the fragment `ParseFloat` answers with an
error. -/
def exampleFloatConv : FloatConv where
  ParseFloat := fun s =>
    if s = ascii "0" then (0, none)
    else if s = ascii "1" then (0x3FF0000000000000, none)
    else if s = ascii "1.5" then (0x3FF8000000000000, none)
    else if s = ascii "-2" then (0xC000000000000000, none)
    else if s = ascii "1e400" then (0x7FF0000000000000, some .outOfRange)
    else (0, some .malformed)
  FormatFloat := fun f =>
    if f = 0 then ascii "0"
    else if f = 0x3FF0000000000000 then ascii "1"
    else if f = 0x3FF8000000000000 then ascii "1.5"
    else if f = 0xC000000000000000 then ascii "-2"
    else []

end strconv

/-! ## Host model: package `math` (classification of `float64` bit patterns) -/

namespace math

/-- Biased exponent field of a `float64` bit pattern. -/
def exponentBits (f : Nat) : Nat := (f / 2 ^ 52) % 2 ^ 11

/-- Fraction field of a `float64` bit pattern. -/
def fractionBits (f : Nat) : Nat := f % 2 ^ 52

/-- Host `math.IsNaN`. -/
def IsNaN (f : Nat) : Bool := decide (exponentBits f = 2047 ∧ fractionBits f ≠ 0)

/-- Host `math.IsInf(f, 0)`. -/
def IsInf (f : Nat) : Bool := decide (exponentBits f = 2047 ∧ fractionBits f = 0)

end math

/-! ## Host model: packages `unicode/utf8` and `unicode/utf16` -/

namespace utf8

/-- Host `utf8.RuneError`, the replacement character U+FFFD. -/
def RuneError : Nat := 0xFFFD

/-- Host table `first` joined with `acceptRanges`: for a leading byte of a
multi-byte sequence, the length of the sequence and the accepted range of the
second byte; `none` for a byte that cannot start a multi-byte sequence. -/
def first (p0 : Nat) : Option (Nat × Nat × Nat) :=
  if 0xC2 ≤ p0 ∧ p0 ≤ 0xDF then some (2, 0x80, 0xBF)
  else if p0 = 0xE0 then some (3, 0xA0, 0xBF)
  else if 0xE1 ≤ p0 ∧ p0 ≤ 0xEC then some (3, 0x80, 0xBF)
  else if p0 = 0xED then some (3, 0x80, 0x9F)
  else if 0xEE ≤ p0 ∧ p0 ≤ 0xEF then some (3, 0x80, 0xBF)
  else if p0 = 0xF0 then some (4, 0x90, 0xBF)
  else if 0xF1 ≤ p0 ∧ p0 ≤ 0xF3 then some (4, 0x80, 0xBF)
  else if p0 = 0xF4 then some (4, 0x80, 0x8F)
  else none

/-- Host `utf8.DecodeRune`: the first rune of `p` and its width in bytes;
`(RuneError, 1)` on an invalid encoding, `(RuneError, 0)` on empty input. -/
def DecodeRune : Bytes → Nat × Nat
  | [] => (RuneError, 0)
  | p0 :: rest =>
    if p0 < 0x80 then (p0, 1)
    else
      match first p0 with
      | none => (RuneError, 1)
      | some (sz, lo, hi) =>
        match rest with
        | [] => (RuneError, 1)
        | b1 :: rest1 =>
          if rest.length + 1 < sz then (RuneError, 1)
          else if b1 < lo ∨ hi < b1 then (RuneError, 1)
          else if sz ≤ 2 then ((p0 % 32) * 64 + b1 % 64, 2)
          else
            match rest1 with
            | [] => (RuneError, 1)
            | b2 :: rest2 =>
              if b2 < 0x80 ∨ 0xBF < b2 then (RuneError, 1)
              else if sz ≤ 3 then ((p0 % 16) * 4096 + (b1 % 64) * 64 + b2 % 64, 3)
              else
                match rest2 with
                | [] => (RuneError, 1)
                | b3 :: _ =>
                  if b3 < 0x80 ∨ 0xBF < b3 then (RuneError, 1)
                  else ((p0 % 8) * 262144 + (b1 % 64) * 4096 + (b2 % 64) * 64 + b3 % 64, 4)

/-- Host `utf8.EncodeRune` / `utf8.AppendRune`: the UTF-8 encoding of a rune;
surrogates and values above U+10FFFF are encoded as U+FFFD. -/
def EncodeRune (r : Nat) : Bytes :=
  if r ≤ 0x7F then [r]
  else if r ≤ 0x7FF then [0xC0 + r / 64, 0x80 + r % 64]
  else if 0x10FFFF < r ∨ (0xD800 ≤ r ∧ r ≤ 0xDFFF) then [0xEF, 0xBF, 0xBD]
  else if r ≤ 0xFFFF then [0xE0 + r / 4096, 0x80 + (r / 64) % 64, 0x80 + r % 64]
  else [0xF0 + r / 262144, 0x80 + (r / 4096) % 64, 0x80 + (r / 64) % 64, 0x80 + r % 64]

/-- Host `utf8.Valid`, with `fuel` bounding the number of runes inspected. -/
def validAux : Nat → Bytes → Bool
  | 0, s => s.isEmpty
  | fuel + 1, s =>
    match s with
    | [] => true
    | p0 :: rest =>
      if p0 < 0x80 then validAux fuel rest
      else
        let d := DecodeRune (p0 :: rest)
        if d.1 = RuneError ∧ d.2 = 1 then false
        else validAux fuel ((p0 :: rest).drop d.2)

/-- Host `utf8.Valid`: is `s` made of valid UTF-8 encoded runes only. -/
def Valid (s : Bytes) : Bool := validAux s.length s

end utf8

namespace utf16

/-- Host `utf16.IsSurrogate`. -/
def IsSurrogate (r : Nat) : Bool := decide (0xD800 ≤ r ∧ r < 0xE000)

/-- Host `utf16.DecodeRune`: the code point of a surrogate pair, U+FFFD when the
two values are not a valid pair.  The second value is `none` where the caller
passes -1. -/
def DecodeRune (r1 : Nat) (r2 : Option Nat) : Nat :=
  match r2 with
  | none => 0xFFFD
  | some r2 =>
    if 0xD800 ≤ r1 ∧ r1 < 0xDC00 ∧ 0xDC00 ≤ r2 ∧ r2 < 0xE000 then
      (r1 - 0xD800) * 1024 + (r2 - 0xDC00) + 0x10000
    else 0xFFFD

end utf16

/-! ## Host model: package `encoding/json` (scalar targets) -/

namespace json

/-- Host `isSpace` of the scanner: space, tab, carriage return, line feed. -/
def isSpace (c : Nat) : Bool := decide (c = 0x20 ∨ c = 0x09 ∨ c = 0x0D ∨ c = 0x0A)

/-- Drops the white space in front of the value. -/
def skipSpace : Bytes → Bytes
  | [] => []
  | c :: cs => if isSpace c then skipSpace cs else c :: cs

/-- After the top-level value only white space may follow (`stateEndTop`). -/
def onlySpace (bs : Bytes) : Bool := bs.all isSpace

/-- States of the scanner inside a number: `stateNeg`, `state0`, `state1`,
`stateDot`, `stateDot0`, `stateE`, `stateESign`, `stateE0`. -/
inductive NumState
  | neg
  | zero
  | digits
  | dot
  | frac
  | exp
  | expSign
  | expDigits
deriving DecidableEq, Repr

/-- One scanner step inside a number; `none` when the byte does not continue the
number. -/
def numStep (s : NumState) (c : Nat) : Option NumState :=
  match s with
  | .neg =>
    if c = 48 then some .zero
    else if 49 ≤ c ∧ c ≤ 57 then some .digits
    else none
  | .zero =>
    if c = 46 then some .dot
    else if c = 101 ∨ c = 69 then some .exp
    else none
  | .digits =>
    if 48 ≤ c ∧ c ≤ 57 then some .digits
    else if c = 46 then some .dot
    else if c = 101 ∨ c = 69 then some .exp
    else none
  | .dot => if 48 ≤ c ∧ c ≤ 57 then some .frac else none
  | .frac =>
    if 48 ≤ c ∧ c ≤ 57 then some .frac
    else if c = 101 ∨ c = 69 then some .exp
    else none
  | .exp =>
    if c = 43 ∨ c = 45 then some .expSign
    else if 48 ≤ c ∧ c ≤ 57 then some .expDigits
    else none
  | .expSign => if 48 ≤ c ∧ c ≤ 57 then some .expDigits else none
  | .expDigits => if 48 ≤ c ∧ c ≤ 57 then some .expDigits else none

/-- The scanner states in which a number may end. -/
def NumState.accepting : NumState → Bool
  | .zero => true
  | .digits => true
  | .frac => true
  | .expDigits => true
  | _ => false

/-- Scans the rest of a number from state `s`: the bytes that belong to the
number and the bytes after it; `none` when the number is cut short. -/
def scanNumber (s : NumState) : Bytes → Option (Bytes × Bytes)
  | [] => if s.accepting then some ([], []) else none
  | c :: cs =>
    match numStep s c with
    | some s1 => (scanNumber s1 cs).map fun p => (c :: p.1, p.2)
    | none => if s.accepting then some ([], c :: cs) else none

/-- Is the byte a hexadecimal digit (either case). -/
def isHex (c : Nat) : Bool :=
  decide ((48 ≤ c ∧ c ≤ 57) ∨ (97 ≤ c ∧ c ≤ 102) ∨ (65 ≤ c ∧ c ≤ 70))

/-- Scans a string literal after its opening quote (`stateInString` and the
escape states): the raw bytes up to the closing quote and the bytes after it;
`none` on a control character, a bad escape or a missing closing quote. -/
def scanString : Bytes → Option (Bytes × Bytes)
  | [] => none
  | c :: cs =>
    if c = 0x22 then some ([], cs)
    else if c = 0x5C then
      match cs with
      | [] => none
      | e :: cs1 =>
        if e = 0x62 ∨ e = 0x66 ∨ e = 0x6E ∨ e = 0x72 ∨ e = 0x74 ∨ e = 0x5C ∨ e = 0x2F
            ∨ e = 0x22 then
          (scanString cs1).map fun p => (c :: e :: p.1, p.2)
        else if e = 0x75 then
          match cs1 with
          | h1 :: h2 :: h3 :: h4 :: cs2 =>
            if isHex h1 ∧ isHex h2 ∧ isHex h3 ∧ isHex h4 then
              (scanString cs2).map fun p => (c :: e :: h1 :: h2 :: h3 :: h4 :: p.1, p.2)
            else none
          | _ => none
        else none
    else if c < 0x20 then none
    else (scanString cs).map fun p => (c :: p.1, p.2)

/-- The single top-level value of a JSON text, as far as a scalar target needs it. -/
inductive Value
  | compound
  | null
  | bool (b : Bool)
  | string (raw : Bytes)
  | number (text : Bytes)
deriving DecidableEq, Repr

/-- Reads one literal word (`null`, `true`, `false`) whose first byte has been
consumed. -/
def scanWord (rest word : Bytes) (v : Value) : Option Value :=
  if rest.take word.length = word ∧ onlySpace (rest.drop word.length) then some v else none

/-- Reads a number whose first byte `c` put the scanner in state `s`. -/
def scanNumberValue (s : NumState) (c : Nat) (cs : Bytes) : Option Value :=
  match scanNumber s cs with
  | some (text, rest) => if onlySpace rest then some (.number (c :: text)) else none
  | none => none

/-- Host `checkValid` followed by the dispatch of `decodeState.value` on the
first byte of the value.  `none` is a `*SyntaxError`.  A text that opens an
array or an object is reported as `compound` without looking further: whether it
is well formed or not, decoding it into a scalar target reports an error and
leaves the target alone. -/
def scan (data : Bytes) : Option Value :=
  match skipSpace data with
  | [] => none
  | c :: cs =>
    if c = 0x5B ∨ c = 0x7B then some .compound
    else if c = 0x22 then
      match scanString cs with
      | some (raw, rest) => if onlySpace rest then some (.string raw) else none
      | none => none
    else if c = 0x6E then scanWord cs [0x75, 0x6C, 0x6C] .null
    else if c = 0x74 then scanWord cs [0x72, 0x75, 0x65] (.bool true)
    else if c = 0x66 then scanWord cs [0x61, 0x6C, 0x73, 0x65] (.bool false)
    else if c = 0x2D then scanNumberValue .neg c cs
    else if c = 0x30 then scanNumberValue .zero c cs
    else if 0x31 ≤ c ∧ c ≤ 0x39 then scanNumberValue .digits c cs
    else none

/-- Value of a hexadecimal digit. -/
def hexVal (c : Nat) : Nat :=
  if 48 ≤ c ∧ c ≤ 57 then c - 48
  else if 97 ≤ c ∧ c ≤ 102 then c - 87
  else c - 55

/-- Host `getu4`: the code unit of a leading `\uXXXX` escape; `none` stands for
the result -1. -/
def getu4 : Bytes → Option Nat
  | b :: u :: h1 :: h2 :: h3 :: h4 :: _ =>
    if b = 0x5C ∧ u = 0x75 ∧ isHex h1 ∧ isHex h2 ∧ isHex h3 ∧ isHex h4 then
      some (((hexVal h1 * 16 + hexVal h2) * 16 + hexVal h3) * 16 + hexVal h4)
    else none
  | _ => none

/-- Host `unquoteBytes` on the raw contents of a string literal (its general
loop; the copy of an unescaped valid prefix is an optimisation of it).  Escapes
are decoded, surrogate pairs are joined, and bytes that are not valid UTF-8 are
replaced by U+FFFD.  `fuel` bounds the number of steps. -/
def unquoteAux : Nat → Bytes → Option Bytes
  | 0, s => if s.isEmpty then some [] else none
  | fuel + 1, s =>
    match s with
    | [] => some []
    | c :: rest =>
      if c = 0x5C then
        match rest with
        | [] => none
        | e :: rest1 =>
          if e = 0x22 ∨ e = 0x5C ∨ e = 0x2F ∨ e = 0x27 then
            (unquoteAux fuel rest1).map fun t => e :: t
          else if e = 0x62 then (unquoteAux fuel rest1).map fun t => 0x08 :: t
          else if e = 0x66 then (unquoteAux fuel rest1).map fun t => 0x0C :: t
          else if e = 0x6E then (unquoteAux fuel rest1).map fun t => 0x0A :: t
          else if e = 0x72 then (unquoteAux fuel rest1).map fun t => 0x0D :: t
          else if e = 0x74 then (unquoteAux fuel rest1).map fun t => 0x09 :: t
          else if e = 0x75 then
            match getu4 (c :: rest) with
            | none => none
            | some rr =>
              if utf16.IsSurrogate rr then
                let dec := utf16.DecodeRune rr (getu4 ((c :: rest).drop 6))
                if dec ≠ 0xFFFD then
                  (unquoteAux fuel ((c :: rest).drop 12)).map fun t => utf8.EncodeRune dec ++ t
                else
                  (unquoteAux fuel ((c :: rest).drop 6)).map fun t => utf8.EncodeRune 0xFFFD ++ t
              else
                (unquoteAux fuel ((c :: rest).drop 6)).map fun t => utf8.EncodeRune rr ++ t
          else none
      else if c = 0x22 ∨ c < 0x20 then none
      else if c < 0x80 then (unquoteAux fuel rest).map fun t => c :: t
      else
        let d := utf8.DecodeRune (c :: rest)
        (unquoteAux fuel ((c :: rest).drop d.2)).map fun t => utf8.EncodeRune d.1 ++ t

/-- Host `unquoteBytes` on the raw contents of a string literal. -/
def unquote (raw : Bytes) : Option Bytes := unquoteAux raw.length raw

/-- Host `json.Unmarshal(data, &v)` for an integer target of `bitSize` bits that
holds `v`: the contents of the target afterwards and the returned error.  On an
error the target keeps its contents; the literal `null` is accepted and leaves
the target alone (`literalStore`). -/
def UnmarshalInt (bitSize : Nat) (data : Bytes) (v : Int) : Int × Option GoError :=
  match scan data with
  | none => (v, some .malformed)
  | some .compound => (v, some .typeMismatch)
  | some .null => (v, none)
  | some (.bool _) => (v, some .typeMismatch)
  | some (.string _) => (v, some .typeMismatch)
  | some (.number text) =>
    match strconv.ParseInt text 64 with
    | some n => if n < -(2 ^ (bitSize - 1)) ∨ 2 ^ (bitSize - 1) ≤ n then
        (v, some .typeMismatch) else (n, none)
    | none => (v, some .typeMismatch)

/-- Host `json.Unmarshal(data, &v)` for a `string` target holding `v`. -/
def UnmarshalString (data : Bytes) (v : Bytes) : Bytes × Option GoError :=
  match scan data with
  | none => (v, some .malformed)
  | some .compound => (v, some .typeMismatch)
  | some .null => (v, none)
  | some (.bool _) => (v, some .typeMismatch)
  | some (.string raw) =>
    match unquote raw with
    | some s => (s, none)
    | none => (v, some .malformed)
  | some (.number _) => (v, some .typeMismatch)

/-- Host `json.Unmarshal(data, &v)` for a `float64` target holding the bit
pattern `v`.  On a number the decoder stores what `ParseFloat` returned and then
reports its error, if any: a number out of range leaves an infinity in the
target together with the error. -/
def UnmarshalFloat (fc : strconv.FloatConv) (data : Bytes) (v : Nat) : Nat × Option GoError :=
  match scan data with
  | none => (v, some .malformed)
  | some .compound => (v, some .typeMismatch)
  | some .null => (v, none)
  | some (.bool _) => (v, some .typeMismatch)
  | some (.string _) => (v, some .typeMismatch)
  | some (.number text) =>
    match (fc.ParseFloat text).2 with
    | none => ((fc.ParseFloat text).1, none)
    | some _ => ((fc.ParseFloat text).1, some .typeMismatch)

/-- The byte `"0123456789abcdef"[n]`. -/
def hexDigit (n : Nat) : Nat := if n < 10 then 48 + n else 87 + n

/-- Host table `htmlSafeSet`: the ASCII bytes the string encoder copies as they
are. -/
def htmlSafe (b : Nat) : Bool :=
  decide (0x20 ≤ b ∧ b < 0x80 ∧ b ≠ 0x22 ∧ b ≠ 0x26 ∧ b ≠ 0x3C ∧ b ≠ 0x3E ∧ b ≠ 0x5C)

/-- Host `appendString` with HTML escaping, between the quotes.  `fuel` bounds
the number of steps. -/
def appendStringAux : Nat → Bytes → Bytes
  | 0, _ => []
  | fuel + 1, src =>
    match src with
    | [] => []
    | b :: rest =>
      if b < 0x80 then
        if htmlSafe b then b :: appendStringAux fuel rest
        else if b = 0x5C ∨ b = 0x22 then 0x5C :: b :: appendStringAux fuel rest
        else if b = 0x08 then 0x5C :: 0x62 :: appendStringAux fuel rest
        else if b = 0x0C then 0x5C :: 0x66 :: appendStringAux fuel rest
        else if b = 0x0A then 0x5C :: 0x6E :: appendStringAux fuel rest
        else if b = 0x0D then 0x5C :: 0x72 :: appendStringAux fuel rest
        else if b = 0x09 then 0x5C :: 0x74 :: appendStringAux fuel rest
        else
          0x5C :: 0x75 :: 0x30 :: 0x30 :: hexDigit (b / 16) :: hexDigit (b % 16)
            :: appendStringAux fuel rest
      else
        let d := utf8.DecodeRune ((b :: rest).take 4)
        if d.1 = utf8.RuneError ∧ d.2 = 1 then
          0xEF :: 0xBF :: 0xBD :: appendStringAux fuel rest
        else if d.1 = 0x2028 ∨ d.1 = 0x2029 then
          0x5C :: 0x75 :: 0x32 :: 0x30 :: 0x32 :: hexDigit (d.1 % 16)
            :: appendStringAux fuel ((b :: rest).drop d.2)
        else (b :: rest).take d.2 ++ appendStringAux fuel ((b :: rest).drop d.2)

/-- Host `json.Marshal` of a `string`. -/
def MarshalString (s : Bytes) : Except GoError Bytes :=
  .ok (0x22 :: (appendStringAux s.length s ++ [0x22]))

/-- Host `json.Marshal` of an `int` or `int64`. -/
def MarshalInt (v : Int) : Except GoError Bytes := .ok (strconv.FormatInt v)

/-- Host `json.Marshal` of a `bool`. -/
def MarshalBool (b : Bool) : Except GoError Bytes :=
  .ok (if b then [0x74, 0x72, 0x75, 0x65] else [0x66, 0x61, 0x6C, 0x73, 0x65])

/-- Host `json.Marshal` of a `float64` bit pattern: NaN and the infinities are
an `*UnsupportedValueError`. -/
def MarshalFloat (fc : strconv.FloatConv) (f : Nat) : Except GoError Bytes :=
  if math.IsInf f ∨ math.IsNaN f then .error .unsupportedValue else .ok (fc.FormatFloat f)

/-- Host `json.Marshal` of a nil pointer: the literal `null`. -/
def MarshalNil : Except GoError Bytes := .ok [0x6E, 0x75, 0x6C, 0x6C]

end json

/-! ## Host model: package `strconv` (binary floating point) -/

namespace strconv

/-- The magnitude of a finite `float64`, in units of 2^-1074, from the bits
without the sign: `m * 2^-1074` for a subnormal, `(2^52 + m) * 2^(e - 1075)`
otherwise. -/
def floatScaled (mag : Nat) : Nat :=
  if mag / 2 ^ 52 = 0 then mag % 2 ^ 52
  else (2 ^ 52 + mag % 2 ^ 52) * 2 ^ (mag / 2 ^ 52 - 1)

/-- The least `t`, counted from `t` on and within `fuel` steps, with
`a / d < 2^(53 + t)`: the binade of the quotient. -/
def findBinade : Nat → Nat → Nat → Nat → Nat
  | 0, t, _, _ => t
  | fuel + 1, t, a, d => if a < 2 ^ (53 + t) * d then t else findBinade fuel (t + 1) a d

/-- The quotient `a / d` rounded to the nearest integer, a tie to the even
one. -/
def roundHalfEven (a d : Nat) : Nat :=
  if 2 * (a % d) < d then a / d
  else if d < 2 * (a % d) then a / d + 1
  else if (a / d) % 2 = 0 then a / d
  else a / d + 1

/-- The bits, without the sign, of the `float64` nearest to `a / d` in units of
2^-1074, ties to even (IEEE 754 rounding); a result at or above the bits of the
infinity means the quotient is out of range. -/
def nearestBits (a d : Nat) : Nat :=
  findBinade 2047 0 a d * 2 ^ 52 + roundHalfEven a (2 ^ findBinade 2047 0 a d * d)

/-- The leading run of decimal digits of a text and what follows it. -/
def spanDigits : Bytes → Bytes × Bytes
  | [] => ([], [])
  | c :: cs => if isDigit c then ((c :: (spanDigits cs).1), (spanDigits cs).2) else ([], c :: cs)

/-- Removes a leading sign: whether the number is negative and the rest. -/
def readSign (s : Bytes) : Bool × Bytes :=
  match s with
  | [] => (false, [])
  | c :: cs => if c = 45 then (true, cs) else if c = 43 then (false, cs) else (false, c :: cs)

/-- The fraction digits after an optional decimal point, and what follows. -/
def readFraction (s : Bytes) : Bytes × Bytes :=
  match s with
  | [] => ([], [])
  | c :: cs => if c = 46 then spanDigits cs else ([], c :: cs)

/-- The decimal exponent after the mantissa: 0 at the end of the text, the signed
number after `e` or `E`; `none` on anything else. -/
def readExponent (s : Bytes) : Option Int :=
  match s with
  | [] => some 0
  | c :: cs =>
    if c = 101 ∨ c = 69 then
      if (spanDigits (readSign cs).2).1 = [] ∨ (spanDigits (readSign cs).2).2 ≠ [] then none
      else
        match parseDigits (spanDigits (readSign cs).2).1 0 with
        | none => none
        | some x => some (if (readSign cs).1 then -(x : Int) else (x : Int))
    else none

/-- Reads a decimal number `[sign] digits [. digits] [e [sign] digits]`: its sign
and two numbers `D`, `k` with magnitude `D * 10^k`; `none` when the text is not
of this form. -/
def readDecimal (s : Bytes) : Option (Bool × Nat × Int) :=
  let ip := spanDigits (readSign s).2
  let fp := readFraction ip.2
  if ip.1 = [] ∧ fp.1 = [] then none
  else
    match parseDigits (ip.1 ++ fp.1) 0, readExponent fp.2 with
    | some D, some x => some ((readSign s).1, D, x - (fp.1.length : Int))
    | _, _ => none

/-- The `float64` nearest to `D * 10^k`, with the given sign, and `ErrRange`
together with the infinity when the value is out of range. -/
def roundDecimal (neg : Bool) (D : Nat) (k : Int) : Nat × Option GoError :=
  let a := if 0 ≤ k then D * 10 ^ k.toNat * 2 ^ 1074 else D * 2 ^ 1074
  let d := if 0 ≤ k then 1 else 10 ^ (-k).toNat
  let sgn := if neg then 2 ^ 63 else 0
  if 0x7FF0000000000000 ≤ nearestBits a d then (sgn + 0x7FF0000000000000, some .outOfRange)
  else (sgn + nearestBits a d, none)

/-- Host `strconv.ParseFloat(s, 64)` on a JSON number literal: the nearest
`float64` and the error.  A text that is not a JSON number literal, which the
JSON decoder never passes, is answered with a syntax error. -/
def ParseFloat64 (s : Bytes) : Nat × Option GoError :=
  if json.scan s = some (.number s) then
    match readDecimal s with
    | some p => roundDecimal p.1 p.2.1 p.2.2
    | none => (0, some .malformed)
  else (0, some .malformed)

/-- The least `j`, counted from `j` on and within `fuel` steps, with
`V * 2^-1074 < 10^(j - 324)`: the position of the decimal point, moved by 324. -/
def findDecade : Nat → Nat → Nat → Nat
  | 0, j, _ => j
  | fuel + 1, j, V => if V * 10 ^ 324 < 10 ^ j * 2 ^ 1074 then j else findDecade fuel (j + 1) V

/-- Drops the trailing zeros of `D`, moving them to the exponent. -/
def stripZeros : Nat → Nat → Int → Nat × Int
  | 0, D, k => (D, k)
  | fuel + 1, D, k => if D ≠ 0 ∧ D % 10 = 0 then stripZeros fuel (D / 10) (k + 1) else (D, k)

/-- Format `%f` with the shortest precision: digits `ds` with the decimal point
after the first `dp` of them. -/
def fmtF (ds : Bytes) (dp : Int) : Bytes :=
  if dp ≤ 0 then 48 :: 46 :: (List.replicate (-dp).toNat 48 ++ ds)
  else if dp.toNat < ds.length then ds.take dp.toNat ++ 46 :: ds.drop dp.toNat
  else ds ++ List.replicate (dp.toNat - ds.length) 48

/-- Format `%e` with the shortest precision, as the JSON encoder leaves it: the
exponent is written without a padding zero. -/
def fmtE (ds : Bytes) (dp : Int) : Bytes :=
  match ds with
  | [] => []
  | d :: rest =>
    (d :: (if rest = [] then [] else 46 :: rest)) ++
      (101 :: (if dp - 1 < 0 then 45 else 43) :: FormatUint (dp - 1).natAbs)

/-- The text of the decimal `D * 10^k`, with its sign, in format `%e` or `%f`. -/
def decimalText (neg useE : Bool) (D : Nat) (k : Int) : Bytes :=
  (if neg then [45] else []) ++
    (if useE then
      fmtE (FormatUint (stripZeros 20 D k).1)
        ((FormatUint (stripZeros 20 D k).1).length + (stripZeros 20 D k).2)
    else
      fmtF (FormatUint (stripZeros 20 D k).1)
        ((FormatUint (stripZeros 20 D k).1).length + (stripZeros 20 D k).2))

/-- Does the JSON encoder select format `%e`: the magnitude is below 1e-6 or at
least 1e21 (a comparison of `float64` values, here of their bits). -/
def useExponent (mag : Nat) : Bool :=
  decide (mag < 0x3EB0C6F7A0B5ED8D ∨ 0x444B1AE4D6E2EF50 ≤ mag)

/-- The decimal with `n` digits just below the float `f`, or just above it when
`up` is set, as the JSON encoder would write it. -/
def candidate (f n : Nat) (up : Bool) : Bytes :=
  decimalText (decide (2 ^ 63 ≤ f)) (useExponent (f % 2 ^ 63))
    (floatScaled (f % 2 ^ 63) * 10 ^ (n + 324)
        / (10 ^ findDecade 640 0 (floatScaled (f % 2 ^ 63)) * 2 ^ 1074)
      + (if up then 1 else 0))
    ((findDecade 640 0 (floatScaled (f % 2 ^ 63)) : Int) - 324 - n)

/-- Is the decimal just below `f` with `n` digits at least as near to `f` as the
one just above (on a tie: is its last digit even). -/
def lowerIsNearer (f n : Nat) : Bool :=
  let den := 10 ^ findDecade 640 0 (floatScaled (f % 2 ^ 63)) * 2 ^ 1074
  let num := floatScaled (f % 2 ^ 63) * 10 ^ (n + 324)
  decide (2 * (num % den) < den ∨ (2 * (num % den) = den ∧ (num / den) % 2 = 0))

/-- The shortest decimal that `ParseFloat64` reads back as `f`, nearest to `f`
among those of its length, tried for `n`, `n + 1`, ... digits within `fuel`
steps; `fallback` when none is found. -/
def shortestText (f : Nat) (fallback : Bytes) : Nat → Nat → Bytes
  | 0, _ => fallback
  | fuel + 1, n =>
    if ParseFloat64 (candidate f n false) = (f, none)
        ∧ ParseFloat64 (candidate f n true) = (f, none) then
      if lowerIsNearer f n then candidate f n false else candidate f n true
    else if ParseFloat64 (candidate f n false) = (f, none) then candidate f n false
    else if ParseFloat64 (candidate f n true) = (f, none) then candidate f n true
    else shortestText f fallback fuel (n + 1)

/-- The exact decimal expansion of a finite `f`: its magnitude is
`floatScaled * 5^1074 * 10^-1074`. -/
def exactText (f : Nat) : Bytes :=
  (if 2 ^ 63 ≤ f then [45] else []) ++
    (FormatUint (floatScaled (f % 2 ^ 63) * 5 ^ 1074) ++ [101, 45, 49, 48, 55, 52])

/-- Host `strconv.AppendFloat(b, f, fmt, -1, 64)` for a finite `f`, in the
format the JSON encoder selects and with its clean-up of the exponent: the
smallest number of digits such that `ParseFloat` returns `f` exactly.  Seventeen
digits always suffice for a `float64`; the exact expansion stands behind them so
that the search is total. -/
def FormatFloat64 (f : Nat) : Bytes :=
  if f % 2 ^ 63 = 0 then (if 2 ^ 63 ≤ f then [45, 48] else [48])
  else shortestText f (exactText f) 17 1

/-- The float conversions of the host. -/
def hostFloatConv : FloatConv where
  ParseFloat := ParseFloat64
  FormatFloat := FormatFloat64

end strconv

/-! ## Host model: package `bson` (what the hooks exchange with it) -/

namespace bson

/-- Host `bson.Raw`: the type tag of a document element and its payload. -/
structure Raw where
  Kind : Nat
  Data : Bytes
deriving DecidableEq, Repr

/-- The host encoder on the value a `Getter` returned: a nil interface value
becomes the null element (kind 0x0A, no payload), any other value is encoded by
`enc`. -/
def encodeGetter {α : Type} (enc : α → Raw) : Option α → Raw
  | none => { Kind := 0x0A, Data := [] }
  | some v => enc v

end bson

/-! ## The package `goptional` -/

namespace goptional

/-- Go `int`; its width is `strconv.IntSize`. -/
abbrev int := Int

/-- Go `int64`. -/
abbrev int64 := Int

/-- Go `string`: a sequence of bytes. -/
abbrev string := Bytes

/-- Go `float64`, as its IEEE 754 bit pattern. -/
abbrev float64 := Nat

/-- Go `bool`. -/
abbrev bool := Bool

/-- Go `error`: `none` is the nil error. -/
abbrev error := Option GoError

/-- Int is optional form of int. -/
structure Int where
  val : int
  set : bool
deriving DecidableEq, Repr

/-- Int64 is optional form of int64. -/
structure Int64 where
  val : int64
  set : bool
deriving DecidableEq, Repr

/-- String is optional form of string. -/
structure String where
  val : string
  set : bool
deriving DecidableEq, Repr

/-- Float64 is optional form of float64. -/
structure Float64 where
  val : float64
  set : bool
deriving DecidableEq, Repr

/-- Bool is optional form of bool. -/
structure Bool where
  val : bool
  set : bool
deriving DecidableEq, Repr

/-! ### Int -/

/-- NewInt creates a new Int optional. -/
def NewInt (val : int) (ok : bool) : Int := { val := val, set := ok }

/-- Ok returns true if the optional value is valid. -/
def Int.Ok (i : Int) : bool := i.set

/-- Get returns the value-flag pair of this optional. -/
def Int.Get (i : Int) : int × bool := (i.val, i.set)

/-- Set sets the value-flag pair of this optional. -/
def Int.Set (_i : Int) (v : int) (b : bool) : Int := { val := v, set := b }

/-- UnmarshalJSON of `Int`: the receiver afterwards and the returned error. -/
def Int.UnmarshalJSON (i : Int) (b : Bytes) : Int × error :=
  if b = ascii "null" then ({ i with set := false }, none)
  else
    let r := json.UnmarshalInt strconv.IntSize b i.val
    match r.2 with
    | some _ => ({ val := r.1, set := false }, none)
    | none => ({ val := r.1, set := true }, none)

/-- MarshalJSON of `Int`. -/
def Int.MarshalJSON (i : Int) : Except GoError Bytes :=
  match i.Get with
  | (v, true) => json.MarshalInt v
  | (_, false) => json.MarshalNil

/-! ### Int64 -/

/-- NewInt64 creates a new optional. -/
def NewInt64 (val : int64) (ok : bool) : Int64 := { val := val, set := ok }

/-- Ok returns true if the optional value is valid. -/
def Int64.Ok (i : Int64) : bool := i.set

/-- Get returns the value-flag pair of this optional. -/
def Int64.Get (i : Int64) : int64 × bool := (i.val, i.set)

/-- Set sets the value-flag pair of this optional. -/
def Int64.Set (_i : Int64) (v : int64) (b : bool) : Int64 := { val := v, set := b }

/-- UnmarshalJSON of `Int64`: the receiver afterwards and the returned error. -/
def Int64.UnmarshalJSON (i : Int64) (b : Bytes) : Int64 × error :=
  if b = ascii "null" then ({ i with set := false }, none)
  else
    let r := json.UnmarshalInt 64 b i.val
    match r.2 with
    | some _ => ({ val := r.1, set := false }, none)
    | none => ({ val := r.1, set := true }, none)

/-- MarshalJSON of `Int64`. -/
def Int64.MarshalJSON (i : Int64) : Except GoError Bytes :=
  match i.Get with
  | (v, true) => json.MarshalInt v
  | (_, false) => json.MarshalNil

/-- SetBSON implements bson.Setter.  `rawUnmarshal raw v` is the host
`raw.Unmarshal(&i.val)` on a target holding `v`: the contents of the target
afterwards and the returned error. -/
def Int64.SetBSON (rawUnmarshal : bson.Raw → int64 → int64 × error) (i : Int64)
    (raw : bson.Raw) : Int64 × error :=
  if raw.Kind = 0x0A then ({ i with set := false }, none)
  else
    let r := rawUnmarshal raw i.val
    match r.2 with
    | some _ =>
      ({ val := r.1, set := false },
        some (.errorf ("Unable to unmarshal data with kind " ++ toString raw.Kind ++ " to int64")))
    | none => ({ val := r.1, set := true }, none)

/-- GetBSON implements bson.Getter: the returned interface value (`none` is nil)
and the returned error. -/
def Int64.GetBSON (i : Int64) : Option int64 × error :=
  match i.Get with
  | (v, true) => (some v, none)
  | (_, false) => (none, none)

/-! ### String -/

/-- NewString creates a new optional. -/
def NewString (val : string) (ok : bool) : String := { val := val, set := ok }

/-- Ok returns true if the optional value is valid. -/
def String.Ok (i : String) : bool := i.set

/-- Get returns the value-flag pair of this optional. -/
def String.Get (i : String) : string × bool := (i.val, i.set)

/-- Set sets the value-flag pair of this optional. -/
def String.Set (_i : String) (v : string) (b : bool) : String := { val := v, set := b }

/-- UnmarshalJSON of `String`: the receiver afterwards and the returned error. -/
def String.UnmarshalJSON (i : String) (b : Bytes) : String × error :=
  if b = ascii "null" then ({ i with set := false }, none)
  else
    let r := json.UnmarshalString b i.val
    match r.2 with
    | some _ => ({ val := r.1, set := false }, none)
    | none => ({ val := r.1, set := true }, none)

/-- MarshalJSON of `String`. -/
def String.MarshalJSON (i : String) : Except GoError Bytes :=
  match i.Get with
  | (v, true) => json.MarshalString v
  | (_, false) => json.MarshalNil

/-- SetBSON implements bson.Setter.  `rawUnmarshal raw v` is the host
`raw.Unmarshal(&i.val)` on a target holding `v`. -/
def String.SetBSON (rawUnmarshal : bson.Raw → string → string × error) (i : String)
    (raw : bson.Raw) : String × error :=
  if raw.Kind = 0x0A then ({ i with set := false }, none)
  else
    let r := rawUnmarshal raw i.val
    match r.2 with
    | some _ =>
      ({ val := r.1, set := false },
        some (.errorf ("Unable to unmarshal data with kind " ++ toString raw.Kind ++ " to string")))
    | none => ({ val := r.1, set := true }, none)

/-- GetBSON implements bson.Getter. -/
def String.GetBSON (i : String) : Option string × error :=
  match i.Get with
  | (v, true) => (some v, none)
  | (_, false) => (none, none)

/-! ### Float64 -/

/-- NewFloat64 creates a new optional. -/
def NewFloat64 (val : float64) (ok : bool) : Float64 := { val := val, set := ok }

/-- Ok returns true if the optional value is valid. -/
def Float64.Ok (f : Float64) : bool := f.set

/-- Get returns the value-flag pair of this optional. -/
def Float64.Get (f : Float64) : float64 × bool := (f.val, f.set)

/-- Set sets the value-flag pair of this optional. -/
def Float64.Set (_f : Float64) (v : float64) (b : bool) : Float64 := { val := v, set := b }

/-- UnmarshalJSON of `Float64`: the receiver afterwards and the returned error. -/
def Float64.UnmarshalJSON (fc : strconv.FloatConv) (f : Float64) (b : Bytes) : Float64 × error :=
  if b = ascii "null" then ({ f with set := false }, none)
  else
    let r := json.UnmarshalFloat fc b f.val
    match r.2 with
    | some _ => ({ val := r.1, set := false }, none)
    | none => ({ val := r.1, set := true }, none)

/-- MarshalJSON of `Float64`. -/
def Float64.MarshalJSON (fc : strconv.FloatConv) (f : Float64) : Except GoError Bytes :=
  match f.Get with
  | (v, true) => json.MarshalFloat fc v
  | (_, false) => json.MarshalNil

/-! ### Bool -/

/-- NewBool creates a new optional. -/
def NewBool (val : bool) (ok : bool) : Bool := { val := val, set := ok }

/-- Ok returns true if the optional value is valid. -/
def Bool.Ok (b : Bool) : bool := b.set

/-- Get returns the value-flag pair of this optional. -/
def Bool.Get (b : Bool) : bool × bool := (b.val, b.set)

/-- GetInt returns bool as int64. -/
def Bool.GetInt (b : Bool) : int64 × bool :=
  if b.val then (1, b.set) else (0, b.set)

/-- UnmarshalJSON of `Bool`: the receiver afterwards and the returned error. -/
def Bool.UnmarshalJSON (b : Bool) (dt : Bytes) : Bool × error :=
  if dt = ascii "null" then ({ b with set := false }, none)
  else
    let s := dt
    if s = ascii "1" ∨ s = ascii "true" then ({ val := true, set := true }, none)
    else if s = ascii "0" ∨ s = ascii "false" then ({ val := false, set := true }, none)
    else ({ b with set := false }, none)

/-- MarshalJSON of `Bool`. -/
def Bool.MarshalJSON (b : Bool) : Except GoError Bytes :=
  match b.Get with
  | (v, true) => json.MarshalBool v
  | (_, false) => json.MarshalNil

end goptional

/-! ## Host model: package `bson` (payloads of the int32, int64 and string kinds) -/

namespace bson

/-- The `count` low bytes of `n`, least significant first (`addInt32`,
`addInt64`). -/
def leBytes : Nat → Nat → Bytes
  | 0, _ => []
  | count + 1, n => n % 256 :: leBytes count (n / 256)

/-- Value of a little-endian byte sequence. -/
def leValue : Bytes → Nat
  | [] => 0
  | b :: bs => b + 256 * leValue bs

/-- Host `decoder.readInt32`: the signed value of the first four bytes; `none`
stands for the panic on a payload that is too short. -/
def readInt32 (data : Bytes) : Option Int :=
  if data.length < 4 then none
  else
    some (if leValue (data.take 4) < 2 ^ 31 then (leValue (data.take 4) : Int)
      else (leValue (data.take 4) : Int) - 2 ^ 32)

/-- Host `decoder.readInt64`: the signed value of the first eight bytes; `none`
stands for the panic on a payload that is too short. -/
def readInt64 (data : Bytes) : Option Int :=
  if data.length < 8 then none
  else
    some (if leValue (data.take 8) < 2 ^ 63 then (leValue (data.take 8) : Int)
      else (leValue (data.take 8) : Int) - 2 ^ 64)

/-- Host `decoder.readStr`: an int32 length `l`, then `l - 1` bytes (computed in
int32), then a zero byte; `none` stands for the panic on a corrupted payload. -/
def readStr (data : Bytes) : Option Bytes :=
  match readInt32 data with
  | none => none
  | some l =>
    let n : Int := if l - 1 < -(2 ^ 31) then l - 1 + 2 ^ 32 else l - 1
    if n < 0 then none
    else if (data.drop 4).length < n.toNat + 1 then none
    else if ((data.drop 4).drop n.toNat).head? = some 0 then some ((data.drop 4).take n.toNat)
    else none

/-- The host encoder on an `int64` value: kind 0x12, eight bytes. -/
def encodeInt64 (v : Int) : Raw :=
  { Kind := 0x12, Data := leBytes 8 (v % 2 ^ 64).toNat }

/-- The host encoder on a `string` value: kind 0x02, the int32 length of the
bytes with their terminator, the bytes, a zero byte. -/
def encodeString (s : Bytes) : Raw :=
  { Kind := 0x02, Data := leBytes 4 (s.length + 1) ++ (s ++ [0]) }

/-- Host `raw.Unmarshal(&v)` for an `int64` target holding `v`, on the kinds null
(0x0A), int32 (0x10), int64 (0x12) and string (0x02): the contents of the target
afterwards and the returned error.  A string element is a type error for an
integer target.  Every other kind is left to the parameter `other`. -/
def UnmarshalInt64 (other : Raw → Int → Int × Option GoError) (raw : Raw) (v : Int) :
    Int × Option GoError :=
  if raw.Kind = 0x0A then (0, none)
  else if raw.Kind = 0x12 then
    match readInt64 raw.Data with
    | some n => (n, none)
    | none => (v, some .bsonMismatch)
  else if raw.Kind = 0x10 then
    match readInt32 raw.Data with
    | some n => (n, none)
    | none => (v, some .bsonMismatch)
  else if raw.Kind = 0x02 then (v, some .bsonMismatch)
  else other raw v

/-- Host `raw.Unmarshal(&v)` for a `string` target holding `v`, on the kinds null
(0x0A), string (0x02), int32 (0x10) and int64 (0x12).  An integer element is a
type error for a string target.  Every other kind is left to the parameter
`other`. -/
def UnmarshalString (other : Raw → Bytes → Bytes × Option GoError) (raw : Raw) (v : Bytes) :
    Bytes × Option GoError :=
  if raw.Kind = 0x0A then ([], none)
  else if raw.Kind = 0x02 then
    match readStr raw.Data with
    | some s => (s, none)
    | none => (v, some .bsonMismatch)
  else if raw.Kind = 0x10 ∨ raw.Kind = 0x12 then (v, some .bsonMismatch)
  else other raw v

end bson

/-! ## Host model: interface values and package `reflect` -/

/-- The integer types of Go. -/
inductive IntKind
  | int
  | int8
  | int16
  | int32
  | int64
  | uint
  | uint8
  | uint16
  | uint32
  | uint64
  | uintptr
deriving DecidableEq, Repr

/-- A value of type `interface{}` with its dynamic type.  Floats are bit
patterns.  Slices, maps and functions carry no contents: their types are not
comparable, and two slices (maps, functions) are taken to be of one type.
`comparable typeId val` stands for a value of any other comparable type
(pointer, array, struct, named type), encoded by a number that is 0 for the zero
value of the type. -/
inductive Any
  | nil
  | bool (b : Bool)
  | integer (k : IntKind) (n : Int)
  | float32 (bits : Nat)
  | float64 (bits : Nat)
  | string (s : Bytes)
  | slice (len : Nat)
  | map (len : Nat)
  | func (id : Nat)
  | comparable (typeId : Nat) (val : Nat)
deriving DecidableEq, Repr

namespace math

/-- Go `==` on two `float64` bit patterns: a NaN equals nothing, the two zeros
are equal. -/
def float64Eq (a b : Nat) : Bool :=
  if IsNaN a ∨ IsNaN b then false
  else if a % 2 ^ 63 = 0 ∧ b % 2 ^ 63 = 0 then true
  else decide (a = b)

/-- Is the `float32` bit pattern a NaN. -/
def IsNaN32 (f : Nat) : Bool := decide ((f / 2 ^ 23) % 2 ^ 8 = 255 ∧ f % 2 ^ 23 ≠ 0)

/-- Go `==` on two `float32` bit patterns. -/
def float32Eq (a b : Nat) : Bool :=
  if IsNaN32 a ∨ IsNaN32 b then false
  else if a % 2 ^ 31 = 0 ∧ b % 2 ^ 31 = 0 then true
  else decide (a = b)

end math

/-- Go `==` on two interface values: false when the dynamic types differ, the
comparison of the values when they agree; `none` stands for the run-time panic
on a type that is not comparable. -/
def Any.eq : Any → Any → Option Bool
  | .nil, .nil => some true
  | .bool a, .bool b => some (decide (a = b))
  | .integer k a, .integer j b => some (decide (k = j ∧ a = b))
  | .float32 a, .float32 b => some (math.float32Eq a b)
  | .float64 a, .float64 b => some (math.float64Eq a b)
  | .string a, .string b => some (decide (a = b))
  | .slice _, .slice _ => none
  | .map _, .map _ => none
  | .func _, .func _ => none
  | .comparable t a, .comparable u b => some (decide (t = u ∧ a = b))
  | _, _ => some false

/-- Go `a || b` on two comparisons that may panic: `b` is not evaluated when `a`
is true. -/
def Any.orElse (a b : Option Bool) : Option Bool :=
  match a with
  | none => none
  | some true => some true
  | some false => b

namespace reflect

/-- Host `reflect.Zero(reflect.ValueOf(v).Type()).Interface()`: the zero value of
the dynamic type of `v`; `none` stands for the panic of `Type` on the zero
`Value` that `ValueOf` returns for a nil interface. -/
def Zero : Any → Option Any
  | .nil => none
  | .bool _ => some (.bool false)
  | .integer k _ => some (.integer k 0)
  | .float32 _ => some (.float32 0)
  | .float64 _ => some (.float64 0)
  | .string _ => some (.string [])
  | .slice _ => some (.slice 0)
  | .map _ => some (.map 0)
  | .func _ => some (.func 0)
  | .comparable t _ => some (.comparable t 0)

end reflect

/-! ## The package `goptional`: zero values and `Bool.Set` -/

namespace goptional

/-- The zero value `Int{}`. -/
def Int.zero : Int := { val := 0, set := false }

/-- The zero value `Int64{}`. -/
def Int64.zero : Int64 := { val := 0, set := false }

/-- The zero value `String{}`. -/
def String.zero : String := { val := [], set := false }

/-- The zero value `Float64{}`. -/
def Float64.zero : Float64 := { val := 0, set := false }

/-- The zero value `Bool{}`. -/
def Bool.zero : Bool := { val := false, set := false }

/-- Set sets value-flag pair of this optional: the receiver afterwards; `none`
stands for a run-time panic, which leaves the receiver as it was. -/
def Bool.Set (_b : Bool) (v : Any) (s : bool) : Option Bool :=
  match reflect.Zero v with
  | none => none
  | some z =>
    match Any.orElse (Any.eq v (.bool false))
        (Any.orElse (Any.eq v z) (Any.eq v (.string []))) with
    | none => none
    | some true => some { val := false, set := s }
    | some false => some { val := true, set := s }

end goptional

/-! ## The package `goptional`: method bodies as steps on the receiver -/

namespace goptional

/-! A method with a pointer receiver runs on the optional the caller holds; its
body is a computation over that optional as the state, in which a read of a
field is `get` and an assignment to a field is `modify`.  A method with a value
receiver (`MarshalJSON`, `GetBSON`) runs on a copy of the caller's optional, and
the state of its body is that copy.  Running a body on a state gives the result
of the method next to the state afterwards. -/

/-- Body of `(*Int).Ok`. -/
def Int.Ok.body : StateM Int bool := do
  let i ← get
  return i.set

/-- Body of `(*Int).Get`. -/
def Int.Get.body : StateM Int (int × bool) := do
  let i ← get
  return (i.val, i.set)

/-- Body of `(*Int).Set`: two assignments. -/
def Int.Set.body (v : int) (b : bool) : StateM Int Unit := do
  modify fun i => { i with val := v }
  modify fun i => { i with set := b }

/-- Body of `Int.MarshalJSON`, over the copy the method received; `i.Get()` is
a call on that copy. -/
def Int.MarshalJSON.body : StateM Int (Except GoError Bytes) := do
  let (v, ok) ← Int.Get.body
  if ok then
    return json.MarshalInt v
  return json.MarshalNil

/-- Body of `(*Int64).Ok`. -/
def Int64.Ok.body : StateM Int64 bool := do
  let i ← get
  return i.set

/-- Body of `(*Int64).Get`. -/
def Int64.Get.body : StateM Int64 (int64 × bool) := do
  let i ← get
  return (i.val, i.set)

/-- Body of `(*Int64).Set`: two assignments. -/
def Int64.Set.body (v : int64) (b : bool) : StateM Int64 Unit := do
  modify fun i => { i with val := v }
  modify fun i => { i with set := b }

/-- Body of `Int64.MarshalJSON`, over the copy the method received; `i.Get()` is
a call on that copy. -/
def Int64.MarshalJSON.body : StateM Int64 (Except GoError Bytes) := do
  let (v, ok) ← Int64.Get.body
  if ok then
    return json.MarshalInt v
  return json.MarshalNil

/-- Body of `Int64.GetBSON`, over the copy the method received. -/
def Int64.GetBSON.body : StateM Int64 (Option int64 × error) := do
  let (v, ok) ← Int64.Get.body
  if ok then
    return (some v, none)
  return (none, none)

/-- Body of `(*String).Ok`. -/
def String.Ok.body : StateM String bool := do
  let i ← get
  return i.set

/-- Body of `(*String).Get`. -/
def String.Get.body : StateM String (string × bool) := do
  let i ← get
  return (i.val, i.set)

/-- Body of `(*String).Set`: two assignments. -/
def String.Set.body (v : string) (b : bool) : StateM String Unit := do
  modify fun i => { i with val := v }
  modify fun i => { i with set := b }

/-- Body of `String.MarshalJSON`, over the copy the method received; `i.Get()` is
a call on that copy. -/
def String.MarshalJSON.body : StateM String (Except GoError Bytes) := do
  let (v, ok) ← String.Get.body
  if ok then
    return json.MarshalString v
  return json.MarshalNil

/-- Body of `String.GetBSON`, over the copy the method received. -/
def String.GetBSON.body : StateM String (Option string × error) := do
  let (v, ok) ← String.Get.body
  if ok then
    return (some v, none)
  return (none, none)

/-- Body of `(*Float64).Ok`. -/
def Float64.Ok.body : StateM Float64 bool := do
  let f ← get
  return f.set

/-- Body of `(*Float64).Get`. -/
def Float64.Get.body : StateM Float64 (float64 × bool) := do
  let f ← get
  return (f.val, f.set)

/-- Body of `(*Float64).Set`: two assignments. -/
def Float64.Set.body (v : float64) (b : bool) : StateM Float64 Unit := do
  modify fun f => { f with val := v }
  modify fun f => { f with set := b }

/-- Body of `Float64.MarshalJSON`, over the copy the method received; `f.Get()` is
a call on that copy. -/
def Float64.MarshalJSON.body (fc : strconv.FloatConv) : StateM Float64 (Except GoError Bytes) := do
  let (v, ok) ← Float64.Get.body
  if ok then
    return json.MarshalFloat fc v
  return json.MarshalNil

/-- Body of `(*Bool).Ok`. -/
def Bool.Ok.body : StateM Bool bool := do
  let b ← get
  return b.set

/-- Body of `(*Bool).Get`. -/
def Bool.Get.body : StateM Bool (bool × bool) := do
  let b ← get
  return (b.val, b.set)

/-- Body of `(*Bool).GetInt`. -/
def Bool.GetInt.body : StateM Bool (int64 × bool) := do
  let b ← get
  if b.val then
    return (1, b.set)
  return (0, b.set)

/-- Body of `Bool.MarshalJSON`, over the copy the method received. -/
def Bool.MarshalJSON.body : StateM Bool (Except GoError Bytes) := do
  let (v, ok) ← Bool.Get.body
  if ok then
    return json.MarshalBool v
  return json.MarshalNil

end goptional

/-! ## Properties of the host model -/

namespace json

/-- A failed decode into an integer target leaves the target alone. -/
theorem UnmarshalInt_error_keeps (bitSize : Nat) (data : Bytes) (v : Int)
    (h : (UnmarshalInt bitSize data v).2 ≠ none) : (UnmarshalInt bitSize data v).1 = v := by
  unfold UnmarshalInt at h ⊢
  split <;> try rfl
  split
  · split
    · rfl
    · rename_i h1 _ _ h3 h2
      simp [h1, h3, h2] at h
  · rfl

/-- A failed decode into a string target leaves the target alone. -/
theorem UnmarshalString_error_keeps (data : Bytes) (v : Bytes)
    (h : (UnmarshalString data v).2 ≠ none) : (UnmarshalString data v).1 = v := by
  unfold UnmarshalString at h ⊢
  split <;> try rfl
  split
  · rename_i h1 _ _ h2
    simp [h1, h2] at h
  · rfl

end json

namespace strconv

theorem parseDigits_append (xs ys : Bytes) (acc : Nat) :
    parseDigits (xs ++ ys) acc = (parseDigits xs acc).bind (parseDigits ys) := by
  induction xs generalizing acc with
  | nil => simp [parseDigits]
  | cons c cs ih =>
    simp only [List.cons_append, parseDigits]
    split
    · exact ih _
    · rfl

/-- Shape of the decimal digits of a positive number: a leading digit from 1 to
9, digits after it, and their value is the number. -/
theorem decDigits_pos (n : Nat) : ∀ fuel : Nat, n < fuel → 0 < n →
    ∃ d ds, decDigits fuel n = d :: ds ∧ 49 ≤ d ∧ d ≤ 57 ∧
      (∀ c ∈ ds, isDigit c = true) ∧ parseDigits (decDigits fuel n) 0 = some n := by
  induction n using Nat.strong_induction_on with
  | _ n ih =>
    intro fuel hf hn
    obtain ⟨fuel, rfl⟩ : ∃ k, fuel = k + 1 := ⟨fuel - 1, by omega⟩
    unfold decDigits
    by_cases h10 : n < 10
    · rw [if_pos h10]
      refine ⟨48 + n, [], rfl, by omega, by omega, by simp, ?_⟩
      have hd : isDigit (48 + n) = true := by
        simp only [isDigit, decide_eq_true_eq]; omega
      simp [parseDigits, hd]
    · rw [if_neg h10]
      obtain ⟨d, ds, hds, h1, h2, h3, h4⟩ := ih (n / 10) (by omega) fuel (by omega) (by omega)
      have hd : isDigit (48 + n % 10) = true := by
        simp only [isDigit, decide_eq_true_eq]; omega
      refine ⟨d, ds ++ [48 + n % 10], by rw [hds]; rfl, h1, h2, ?_, ?_⟩
      · intro c hc
        rcases List.mem_append.1 hc with hc | hc
        · exact h3 c hc
        · simp only [List.mem_singleton] at hc
          rw [hc]; exact hd
      · rw [parseDigits_append, h4]
        simp only [Option.bind, parseDigits, hd, if_true]
        congr 1
        omega

theorem FormatUint_pos (n : Nat) (hn : 0 < n) :
    ∃ d ds, FormatUint n = d :: ds ∧ 49 ≤ d ∧ d ≤ 57 ∧
      (∀ c ∈ ds, isDigit c = true) ∧ parseDigits (FormatUint n) 0 = some n :=
  decDigits_pos n (n + 1) (by omega) hn

theorem FormatUint_zero : FormatUint 0 = [48] := rfl

/-- Parsing the decimal text of a 64-bit integer gives the integer back. -/
theorem ParseInt_FormatInt (v : Int) (hlo : -(2 ^ 63) ≤ v) (hhi : v < 2 ^ 63) :
    ParseInt (FormatInt v) 64 = some v := by
  unfold FormatInt
  by_cases hneg : v < 0
  · rw [if_pos hneg]
    obtain ⟨d, ds, hds, h1, h2, _, h4⟩ := FormatUint_pos v.natAbs (by omega)
    have hm : parseMagnitude (FormatUint v.natAbs) = some v.natAbs := by
      rw [hds] at h4 ⊢
      exact h4
    simp only [ParseInt, if_true, hm, Option.bind]
    have : v.natAbs ≤ 2 ^ (64 - 1) := by omega
    rw [if_pos this]
    congr 1
    omega
  · rw [if_neg hneg]
    by_cases hz : v = 0
    · subst hz
      decide
    · obtain ⟨d, ds, hds, h1, h2, _, h4⟩ := FormatUint_pos v.natAbs (by omega)
      have hm : parseMagnitude (d :: ds) = some v.natAbs := by
        rw [hds] at h4
        exact h4
      rw [hds]
      have hd1 : ¬ d = 45 := by omega
      have hd2 : ¬ d = 43 := by omega
      simp only [ParseInt, hd1, hd2, if_false, hm, Option.bind]
      have : v.natAbs < 2 ^ (64 - 1) := by omega
      rw [if_pos this]
      congr 1
      omega

end strconv

namespace json

theorem scanNumber_digits (ds : Bytes) (h : ∀ c ∈ ds, strconv.isDigit c = true) :
    scanNumber .digits ds = some (ds, []) := by
  induction ds with
  | nil => rfl
  | cons c cs ih =>
    have hc : 48 ≤ c ∧ c ≤ 57 := by
      have := h c (List.mem_cons_self _ _)
      simpa [strconv.isDigit] using this
    have hs : numStep .digits c = some .digits := by
      simp only [numStep, hc, and_self, if_true]
    simp only [scanNumber, hs, ih (fun x hx => h x (List.mem_cons_of_mem _ hx)), Option.map]

/-- The decimal text of an integer is one JSON number literal. -/
theorem scan_FormatInt (v : Int) :
    scan (strconv.FormatInt v) = some (.number (strconv.FormatInt v)) := by
  unfold strconv.FormatInt
  by_cases hneg : v < 0
  · rw [if_pos hneg]
    obtain ⟨d, ds, hds, h1, h2, h3, _⟩ := strconv.FormatUint_pos v.natAbs (by omega)
    rw [hds]
    have hstep : numStep .neg d = some .digits := by
      have : ¬ d = 48 := by omega
      simp only [numStep, this, if_false, h1, h2, and_self, if_true]
    have hnum : scanNumber .neg (d :: ds) = some (d :: ds, []) := by
      simp only [scanNumber, hstep, scanNumber_digits ds h3, Option.map]
    simp [scan, skipSpace, isSpace, scanNumberValue, hnum, onlySpace]
  · rw [if_neg hneg]
    by_cases hz : v = 0
    · subst hz
      decide
    · obtain ⟨d, ds, hds, h1, h2, h3, _⟩ := strconv.FormatUint_pos v.natAbs (by omega)
      rw [hds]
      have hsp : isSpace d = false := by
        simp only [isSpace, decide_eq_false_iff_not]; omega
      have e1 : ¬ (d = 0x5B ∨ d = 0x7B) := by omega
      have e2 : ¬ d = 0x22 := by omega
      have e3 : ¬ d = 0x6E := by omega
      have e4 : ¬ d = 0x74 := by omega
      have e5 : ¬ d = 0x66 := by omega
      have e6 : ¬ d = 0x2D := by omega
      have e7 : ¬ d = 0x30 := by omega
      have e8 : 0x31 ≤ d ∧ d ≤ 0x39 := by omega
      simp only [scan, skipSpace, hsp, Bool.false_eq_true, if_false, e1, e2, e3, e4, e5, e6, e7,
        e8, if_true, scanNumberValue, scanNumber_digits ds h3, onlySpace, List.all_nil, and_self]

/-- Decoding the decimal text of a 64-bit integer into an integer target stores
the integer and reports no error. -/
theorem UnmarshalInt_FormatInt (v w : Int) (hlo : -(2 ^ 63) ≤ v) (hhi : v < 2 ^ 63) :
    UnmarshalInt 64 (strconv.FormatInt v) w = (v, none) := by
  unfold UnmarshalInt
  rw [scan_FormatInt]
  simp only [strconv.ParseInt_FormatInt v hlo hhi]
  have : ¬ (v < -(2 ^ (64 - 1)) ∨ 2 ^ (64 - 1) ≤ v) := by omega
  rw [if_neg this]

theorem FormatInt_ne_null (v : Int) : strconv.FormatInt v ≠ ascii "null" := by
  intro h
  have h1 := scan_FormatInt v
  rw [h] at h1
  exact absurd h1 (by decide)

end json

namespace utf8

theorem first_shape (p0 sz lo hi : Nat) (hf : first p0 = some (sz, lo, hi)) :
    (sz = 2 ∧ 0xC2 ≤ p0 ∧ p0 ≤ 0xDF ∧ lo = 0x80 ∧ hi = 0xBF) ∨
    (sz = 3 ∧ 0xE0 ≤ p0 ∧ p0 ≤ 0xEF ∧ 0x80 ≤ lo ∧ hi ≤ 0xBF ∧
      (p0 = 0xE0 → lo = 0xA0) ∧ (p0 = 0xED → hi = 0x9F)) ∨
    (sz = 4 ∧ 0xF0 ≤ p0 ∧ p0 ≤ 0xF4 ∧ 0x80 ≤ lo ∧ hi ≤ 0xBF ∧
      (p0 = 0xF0 → lo = 0x90) ∧ (p0 = 0xF4 → hi = 0x8F)) := by
  unfold first at hf
  split_ifs at hf <;> simp only [Option.some.injEq, Prod.mk.injEq] at hf <;>
    obtain ⟨rfl, rfl, rfl⟩ := hf <;> omega

/-- Result of decoding at a byte that is not ASCII: an error of width 1, or a
well-formed sequence of two, three or four bytes. -/
theorem DecodeRune_shape (p0 : Nat) (rest : Bytes) (h80 : ¬ p0 < 0x80) (d : Nat × Nat)
    (hd : DecodeRune (p0 :: rest) = d) :
    d = (RuneError, 1) ∨
    (∃ b1 t, rest = b1 :: t ∧ 0xC2 ≤ p0 ∧ p0 ≤ 0xDF ∧ 0x80 ≤ b1 ∧ b1 ≤ 0xBF ∧
      d = ((p0 % 32) * 64 + b1 % 64, 2)) ∨
    (∃ b1 b2 t, rest = b1 :: b2 :: t ∧ 0xE0 ≤ p0 ∧ p0 ≤ 0xEF ∧ 0x80 ≤ b1 ∧ b1 ≤ 0xBF ∧
      (p0 = 0xE0 → 0xA0 ≤ b1) ∧ (p0 = 0xED → b1 ≤ 0x9F) ∧ 0x80 ≤ b2 ∧ b2 ≤ 0xBF ∧
      d = ((p0 % 16) * 4096 + (b1 % 64) * 64 + b2 % 64, 3)) ∨
    (∃ b1 b2 b3 t, rest = b1 :: b2 :: b3 :: t ∧ 0xF0 ≤ p0 ∧ p0 ≤ 0xF4 ∧ 0x80 ≤ b1 ∧ b1 ≤ 0xBF ∧
      (p0 = 0xF0 → 0x90 ≤ b1) ∧ (p0 = 0xF4 → b1 ≤ 0x8F) ∧ 0x80 ≤ b2 ∧ b2 ≤ 0xBF ∧
      0x80 ≤ b3 ∧ b3 ≤ 0xBF ∧
      d = ((p0 % 8) * 262144 + (b1 % 64) * 4096 + (b2 % 64) * 64 + b3 % 64, 4)) := by
  simp only [DecodeRune, if_neg h80] at hd
  cases hf : first p0 with
  | none =>
    rw [hf] at hd
    exact Or.inl hd.symm
  | some x =>
    obtain ⟨sz, lo, hi⟩ := x
    have hfirst := first_shape p0 sz lo hi hf
    rw [hf] at hd
    dsimp only at hd
    rcases rest with _ | ⟨b1, rest1⟩
    · exact Or.inl hd.symm
    · dsimp only at hd
      by_cases c1 : (b1 :: rest1).length + 1 < sz
      · rw [if_pos c1] at hd
        exact Or.inl hd.symm
      rw [if_neg c1] at hd
      by_cases c2 : b1 < lo ∨ hi < b1
      · rw [if_pos c2] at hd
        exact Or.inl hd.symm
      rw [if_neg c2] at hd
      by_cases c3 : sz ≤ 2
      · rw [if_pos c3] at hd
        refine Or.inr (Or.inl ⟨b1, rest1, rfl, ?_⟩)
        rcases hfirst with h | h | h
        · obtain ⟨_, h1, h2, rfl, rfl⟩ := h
          exact ⟨h1, h2, by omega, by omega, hd.symm⟩
        · omega
        · omega
      rw [if_neg c3] at hd
      rcases rest1 with _ | ⟨b2, rest2⟩
      · exact Or.inl hd.symm
      dsimp only at hd
      by_cases c4 : b2 < 128 ∨ 191 < b2
      · rw [if_pos c4] at hd
        exact Or.inl hd.symm
      rw [if_neg c4] at hd
      by_cases c5 : sz ≤ 3
      · rw [if_pos c5] at hd
        refine Or.inr (Or.inr (Or.inl ⟨b1, b2, rest2, rfl, ?_⟩))
        rcases hfirst with h | h | h
        · omega
        · refine ⟨by omega, by omega, by omega, by omega, ?_, ?_, by omega, by omega,
            hd.symm⟩
          · intro hp; have := h.2.2.2.2.2.1 hp; omega
          · intro hp; have := h.2.2.2.2.2.2 hp; omega
        · omega
      rw [if_neg c5] at hd
      rcases rest2 with _ | ⟨b3, rest3⟩
      · exact Or.inl hd.symm
      dsimp only at hd
      by_cases c6 : b3 < 128 ∨ 191 < b3
      · rw [if_pos c6] at hd
        exact Or.inl hd.symm
      rw [if_neg c6] at hd
      refine Or.inr (Or.inr (Or.inr ⟨b1, b2, b3, rest3, rfl, ?_⟩))
      rcases hfirst with h | h | h
      · omega
      · omega
      · refine ⟨by omega, by omega, by omega, by omega, ?_, ?_, by omega, by omega,
          by omega, by omega, hd.symm⟩
        · intro hp; have := h.2.2.2.2.2.1 hp; omega
        · intro hp; have := h.2.2.2.2.2.2 hp; omega

end utf8

namespace utf8

theorem DecodeRune_two (p0 b1 : Nat) (t : Bytes) (h1 : 0xC2 ≤ p0) (h2 : p0 ≤ 0xDF)
    (h3 : 0x80 ≤ b1) (h4 : b1 ≤ 0xBF) :
    DecodeRune (p0 :: b1 :: t) = ((p0 % 32) * 64 + b1 % 64, 2) := by
  have hf : first p0 = some (2, 0x80, 0xBF) := by
    simp only [first, h1, h2, and_self, if_true]
  have c0 : ¬ p0 < 0x80 := by omega
  have c1 : ¬ (b1 :: t).length + 1 < 2 := by simp
  have c2 : ¬ (b1 < 0x80 ∨ 0xBF < b1) := by omega
  simp only [DecodeRune, if_neg c0, hf, if_neg c1, if_neg c2, le_refl, if_true]

theorem DecodeRune_three (p0 b1 b2 : Nat) (t : Bytes) (h1 : 0xE0 ≤ p0) (h2 : p0 ≤ 0xEF)
    (h3 : 0x80 ≤ b1) (h4 : b1 ≤ 0xBF) (h5 : p0 = 0xE0 → 0xA0 ≤ b1) (h6 : p0 = 0xED → b1 ≤ 0x9F)
    (h7 : 0x80 ≤ b2) (h8 : b2 ≤ 0xBF) :
    DecodeRune (p0 :: b1 :: b2 :: t) = ((p0 % 16) * 4096 + (b1 % 64) * 64 + b2 % 64, 3) := by
  have c0 : ¬ p0 < 0x80 := by omega
  have c4 : ¬ (b2 < 0x80 ∨ 0xBF < b2) := by omega
  have hf : ∃ lo hi, first p0 = some (3, lo, hi) ∧ ¬ (b1 < lo ∨ hi < b1) := by
    interval_cases p0
    all_goals first
      | exact ⟨0xA0, 0xBF, rfl, by omega⟩
      | exact ⟨0x80, 0x9F, rfl, by omega⟩
      | exact ⟨0x80, 0xBF, rfl, by omega⟩
  obtain ⟨lo, hi, hf, c2⟩ := hf
  have c1 : ¬ (b1 :: b2 :: t).length + 1 < 3 := by simp
  have c3 : ¬ 3 ≤ 2 := by omega
  simp only [DecodeRune, if_neg c0, hf, if_neg c1, if_neg c2, if_neg c3, if_neg c4, le_refl,
    if_true]

theorem DecodeRune_four (p0 b1 b2 b3 : Nat) (t : Bytes) (h1 : 0xF0 ≤ p0) (h2 : p0 ≤ 0xF4)
    (h3 : 0x80 ≤ b1) (h4 : b1 ≤ 0xBF) (h5 : p0 = 0xF0 → 0x90 ≤ b1) (h6 : p0 = 0xF4 → b1 ≤ 0x8F)
    (h7 : 0x80 ≤ b2) (h8 : b2 ≤ 0xBF) (h9 : 0x80 ≤ b3) (h10 : b3 ≤ 0xBF) :
    DecodeRune (p0 :: b1 :: b2 :: b3 :: t) =
      ((p0 % 8) * 262144 + (b1 % 64) * 4096 + (b2 % 64) * 64 + b3 % 64, 4) := by
  have c0 : ¬ p0 < 0x80 := by omega
  have c4 : ¬ (b2 < 0x80 ∨ 0xBF < b2) := by omega
  have c6 : ¬ (b3 < 0x80 ∨ 0xBF < b3) := by omega
  have hf : ∃ lo hi, first p0 = some (4, lo, hi) ∧ ¬ (b1 < lo ∨ hi < b1) := by
    interval_cases p0
    all_goals first
      | exact ⟨0x90, 0xBF, rfl, by omega⟩
      | exact ⟨0x80, 0x8F, rfl, by omega⟩
      | exact ⟨0x80, 0xBF, rfl, by omega⟩
  obtain ⟨lo, hi, hf, c2⟩ := hf
  have c1 : ¬ (b1 :: b2 :: b3 :: t).length + 1 < 4 := by simp
  have c3 : ¬ 4 ≤ 2 := by omega
  have c5 : ¬ 4 ≤ 3 := by omega
  simp only [DecodeRune, if_neg c0, hf, if_neg c1, if_neg c2, if_neg c3, if_neg c4, if_neg c5,
    if_neg c6]

theorem EncodeRune_two (p0 b1 : Nat) (h1 : 0xC2 ≤ p0) (h2 : p0 ≤ 0xDF)
    (h3 : 0x80 ≤ b1) (h4 : b1 ≤ 0xBF) :
    EncodeRune ((p0 % 32) * 64 + b1 % 64) = [p0, b1] := by
  have c1 : ¬ (p0 % 32) * 64 + b1 % 64 ≤ 0x7F := by omega
  have c2 : (p0 % 32) * 64 + b1 % 64 ≤ 0x7FF := by omega
  have e1 : 0xC0 + ((p0 % 32) * 64 + b1 % 64) / 64 = p0 := by omega
  have e2 : 0x80 + ((p0 % 32) * 64 + b1 % 64) % 64 = b1 := by omega
  simp only [EncodeRune, if_neg c1, if_pos c2, e1, e2]

theorem EncodeRune_three (p0 b1 b2 : Nat) (h1 : 0xE0 ≤ p0) (h2 : p0 ≤ 0xEF)
    (h3 : 0x80 ≤ b1) (h4 : b1 ≤ 0xBF) (h5 : p0 = 0xE0 → 0xA0 ≤ b1) (h6 : p0 = 0xED → b1 ≤ 0x9F)
    (h7 : 0x80 ≤ b2) (h8 : b2 ≤ 0xBF) :
    EncodeRune ((p0 % 16) * 4096 + (b1 % 64) * 64 + b2 % 64) = [p0, b1, b2] := by
  generalize hr : (p0 % 16) * 4096 + (b1 % 64) * 64 + b2 % 64 = r
  have h5' : p0 = 0xE0 ∨ p0 ≠ 0xE0 := by omega
  have h6' : p0 = 0xED ∨ p0 ≠ 0xED := by omega
  have c1 : ¬ r ≤ 0x7F := by
    rcases h5' with h | h
    · have := h5 h; omega
    · omega
  have c2 : ¬ r ≤ 0x7FF := by
    rcases h5' with h | h
    · have := h5 h; omega
    · omega
  have c3 : ¬ (0x10FFFF < r ∨ (0xD800 ≤ r ∧ r ≤ 0xDFFF)) := by
    rcases h6' with h | h
    · have := h6 h; omega
    · omega
  have c4 : r ≤ 0xFFFF := by omega
  have e1 : 0xE0 + r / 4096 = p0 := by omega
  have e2 : 0x80 + (r / 64) % 64 = b1 := by omega
  have e3 : 0x80 + r % 64 = b2 := by omega
  simp only [EncodeRune, if_neg c1, if_neg c2, if_neg c3, if_pos c4, e1, e2, e3]

theorem EncodeRune_four (p0 b1 b2 b3 : Nat) (h1 : 0xF0 ≤ p0) (h2 : p0 ≤ 0xF4)
    (h3 : 0x80 ≤ b1) (h4 : b1 ≤ 0xBF) (h5 : p0 = 0xF0 → 0x90 ≤ b1) (h6 : p0 = 0xF4 → b1 ≤ 0x8F)
    (h7 : 0x80 ≤ b2) (h8 : b2 ≤ 0xBF) (h9 : 0x80 ≤ b3) (h10 : b3 ≤ 0xBF) :
    EncodeRune ((p0 % 8) * 262144 + (b1 % 64) * 4096 + (b2 % 64) * 64 + b3 % 64) =
      [p0, b1, b2, b3] := by
  generalize hr : (p0 % 8) * 262144 + (b1 % 64) * 4096 + (b2 % 64) * 64 + b3 % 64 = r
  have h5' : p0 = 0xF0 ∨ p0 ≠ 0xF0 := by omega
  have h6' : p0 = 0xF4 ∨ p0 ≠ 0xF4 := by omega
  have c2 : ¬ r ≤ 0xFFFF := by
    rcases h5' with h | h
    · have := h5 h; omega
    · omega
  have c1 : ¬ r ≤ 0x7F := by omega
  have c1' : ¬ r ≤ 0x7FF := by omega
  have c3 : ¬ (0x10FFFF < r ∨ (0xD800 ≤ r ∧ r ≤ 0xDFFF)) := by
    rcases h6' with h | h
    · have := h6 h; omega
    · omega
  have e1 : 0xF0 + r / 262144 = p0 := by omega
  have e2 : 0x80 + (r / 4096) % 64 = b1 := by omega
  have e3 : 0x80 + (r / 64) % 64 = b2 := by omega
  have e4 : 0x80 + r % 64 = b3 := by omega
  simp only [EncodeRune, if_neg c1, if_neg c1', if_neg c3, if_neg c2, e1, e2, e3, e4]

end utf8

namespace json

theorem isHex_hexDigit (n : Nat) (h : n < 16) : isHex (hexDigit n) = true := by
  interval_cases n <;> decide

theorem hexVal_hexDigit (n : Nat) (h : n < 16) : hexVal (hexDigit n) = n := by
  interval_cases n <;> decide

theorem scanString_plain (c : Nat) (x : Bytes) (h1 : ¬ c = 0x22) (h2 : ¬ c = 0x5C)
    (h3 : ¬ c < 0x20) :
    scanString (c :: x) = (scanString x).map fun p => (c :: p.1, p.2) := by
  rw [scanString.eq_def]
  simp only [if_neg h1, if_neg h2, if_neg h3]

theorem scanString_escape (e : Nat) (x : Bytes)
    (he : e = 0x62 ∨ e = 0x66 ∨ e = 0x6E ∨ e = 0x72 ∨ e = 0x74 ∨ e = 0x5C ∨ e = 0x2F ∨ e = 0x22) :
    scanString (0x5C :: e :: x) = (scanString x).map fun p => (0x5C :: e :: p.1, p.2) := by
  have c1 : ¬ (0x5C : Nat) = 0x22 := by decide
  rw [scanString.eq_def]
  simp only [if_neg c1, if_true, if_pos he]

theorem scanString_unicode (h1 h2 h3 h4 : Nat) (x : Bytes)
    (hh : isHex h1 = true ∧ isHex h2 = true ∧ isHex h3 = true ∧ isHex h4 = true) :
    scanString (0x5C :: 0x75 :: h1 :: h2 :: h3 :: h4 :: x) =
      (scanString x).map fun p => (0x5C :: 0x75 :: h1 :: h2 :: h3 :: h4 :: p.1, p.2) := by
  have c1 : ¬ (0x5C : Nat) = 0x22 := by decide
  have c2 : ¬ ((0x75 : Nat) = 0x62 ∨ (0x75 : Nat) = 0x66 ∨ (0x75 : Nat) = 0x6E ∨ (0x75 : Nat) = 0x72
      ∨ (0x75 : Nat) = 0x74 ∨ (0x75 : Nat) = 0x5C ∨ (0x75 : Nat) = 0x2F ∨ (0x75 : Nat) = 0x22) := by
    decide
  rw [scanString.eq_def]
  simp only [if_neg c1, if_true, if_neg c2, if_pos hh]

/-- The text the string encoder writes between the quotes is scanned as the raw
contents of one string literal, up to the closing quote. -/
theorem scanString_appendStringAux (n : Nat) : ∀ (s rest : Bytes),
    scanString (appendStringAux n s ++ 0x22 :: rest) = some (appendStringAux n s, rest) := by
  induction n with
  | zero =>
    intro s rest
    rw [appendStringAux.eq_def, List.nil_append, scanString.eq_def]
    simp only [if_true]
  | succ n ih =>
    intro s rest
    rcases s with _ | ⟨b, tl⟩
    · rw [appendStringAux.eq_def]
      dsimp only
      rw [List.nil_append, scanString.eq_def]
      simp only [if_true]
    · rw [appendStringAux.eq_def]
      dsimp only
      by_cases hb : b < 0x80
      · rw [if_pos hb]
        by_cases hs : htmlSafe b = true
        · rw [if_pos hs]
          have hs' : 0x20 ≤ b ∧ b < 0x80 ∧ b ≠ 0x22 ∧ b ≠ 0x26 ∧ b ≠ 0x3C ∧ b ≠ 0x3E ∧ b ≠ 0x5C := by
            simpa [htmlSafe] using hs
          rw [List.cons_append, scanString_plain b _ hs'.2.2.1 hs'.2.2.2.2.2.2 (by omega), ih]
          rfl
        · rw [if_neg hs]
          by_cases h1 : b = 0x5C ∨ b = 0x22
          · rw [if_pos h1]
            rw [List.cons_append, List.cons_append, scanString_escape b _ (by omega), ih]
            rfl
          rw [if_neg h1]
          by_cases h2 : b = 0x08
          · rw [if_pos h2, List.cons_append, List.cons_append,
              scanString_escape _ _ (by decide), ih]
            rfl
          rw [if_neg h2]
          by_cases h3 : b = 0x0C
          · rw [if_pos h3, List.cons_append, List.cons_append,
              scanString_escape _ _ (by decide), ih]
            rfl
          rw [if_neg h3]
          by_cases h4 : b = 0x0A
          · rw [if_pos h4, List.cons_append, List.cons_append,
              scanString_escape _ _ (by decide), ih]
            rfl
          rw [if_neg h4]
          by_cases h5 : b = 0x0D
          · rw [if_pos h5, List.cons_append, List.cons_append,
              scanString_escape _ _ (by decide), ih]
            rfl
          rw [if_neg h5]
          by_cases h6 : b = 0x09
          · rw [if_pos h6, List.cons_append, List.cons_append,
              scanString_escape _ _ (by decide), ih]
            rfl
          rw [if_neg h6]
          simp only [List.cons_append]
          rw [scanString_unicode _ _ _ _ _ ⟨by decide, by decide,
            isHex_hexDigit _ (by omega), isHex_hexDigit _ (by omega)⟩, ih]
          rfl
      · rw [if_neg hb]
        have htake : List.take 4 (b :: tl) = b :: List.take 3 tl := rfl
        rcases utf8.DecodeRune_shape b (List.take 3 tl) hb _ (htake ▸ rfl :
            utf8.DecodeRune (b :: List.take 3 tl) = utf8.DecodeRune (List.take 4 (b :: tl)))
          with hd | ⟨b1, t, ht, h1, h2, h3, h4, hd⟩ | ⟨b1, b2, t, ht, h1, h2, h3, h4, h5, h6, h7, h8, hd⟩
            | ⟨b1, b2, b3, t, ht, h1, h2, h3, h4, h5, h6, h7, h8, h9, h10, hd⟩
        · rw [hd]
          rw [if_pos ⟨rfl, rfl⟩]
          simp only [List.cons_append]
          rw [scanString_plain 0xEF _ (by decide) (by decide) (by decide),
            scanString_plain 0xBF _ (by decide) (by decide) (by decide),
            scanString_plain 0xBD _ (by decide) (by decide) (by decide), ih]
          rfl
        · obtain ⟨tl1, rfl⟩ : ∃ tl1, tl = b1 :: tl1 := by
            rcases tl with _ | ⟨x, tl1⟩
            · simp at ht
            · simp only [List.take_succ_cons, List.cons.injEq] at ht
              exact ⟨tl1, by rw [ht.1]⟩
          rw [hd]
          have c1 : ¬ (b % 32 * 64 + b1 % 64 = utf8.RuneError ∧ 2 = 1) := by omega
          have c2 : ¬ (b % 32 * 64 + b1 % 64 = 0x2028 ∨ b % 32 * 64 + b1 % 64 = 0x2029) := by omega
          simp only [if_neg c1, if_neg c2, List.take_succ_cons, List.take_zero, List.drop_succ_cons,
            List.drop_zero, List.cons_append, List.nil_append]
          rw [scanString_plain b _ (by omega) (by omega) (by omega),
            scanString_plain b1 _ (by omega) (by omega) (by omega), ih]
          rfl
        · obtain ⟨tl1, rfl⟩ : ∃ tl1, tl = b1 :: b2 :: tl1 := by
            rcases tl with _ | ⟨x, _ | ⟨y, tl1⟩⟩
            · simp at ht
            · simp at ht
            · simp only [List.take_succ_cons, List.cons.injEq] at ht
              exact ⟨tl1, by rw [ht.1, ht.2.1]⟩
          rw [hd]
          have c1 : ¬ (b % 16 * 4096 + b1 % 64 * 64 + b2 % 64 = utf8.RuneError ∧ 3 = 1) := by omega
          rw [if_neg c1]
          by_cases c2 : b % 16 * 4096 + b1 % 64 * 64 + b2 % 64 = 0x2028 ∨
              b % 16 * 4096 + b1 % 64 * 64 + b2 % 64 = 0x2029
          · simp only [if_pos c2, List.drop_succ_cons, List.drop_zero, List.cons_append]
            rw [scanString_unicode _ _ _ _ _ ⟨by decide, by decide, by decide,
              isHex_hexDigit _ (by omega)⟩, ih]
            rfl
          · simp only [if_neg c2, List.take_succ_cons, List.take_zero, List.drop_succ_cons,
              List.drop_zero, List.cons_append, List.nil_append]
            rw [scanString_plain b _ (by omega) (by omega) (by omega),
              scanString_plain b1 _ (by omega) (by omega) (by omega),
              scanString_plain b2 _ (by omega) (by omega) (by omega), ih]
            rfl
        · obtain ⟨tl1, rfl⟩ : ∃ tl1, tl = b1 :: b2 :: b3 :: tl1 := by
            rcases tl with _ | ⟨x, _ | ⟨y, _ | ⟨z, tl1⟩⟩⟩
            · simp at ht
            · simp at ht
            · simp at ht
            · simp only [List.take_succ_cons, List.cons.injEq] at ht
              exact ⟨tl1, by rw [ht.1, ht.2.1, ht.2.2.1]⟩
          rw [hd]
          have c1 : ¬ (b % 8 * 262144 + b1 % 64 * 4096 + b2 % 64 * 64 + b3 % 64 = utf8.RuneError
              ∧ 4 = 1) := by omega
          have h5' : b = 0xF0 ∨ b ≠ 0xF0 := by omega
          have c2 : ¬ (b % 8 * 262144 + b1 % 64 * 4096 + b2 % 64 * 64 + b3 % 64 = 0x2028 ∨
              b % 8 * 262144 + b1 % 64 * 4096 + b2 % 64 * 64 + b3 % 64 = 0x2029) := by
            rcases h5' with h | h
            · have := h5 h; omega
            · omega
          simp only [if_neg c1, if_neg c2, List.take_succ_cons, List.take_zero, List.drop_succ_cons,
            List.drop_zero, List.cons_append, List.nil_append]
          rw [scanString_plain b _ (by omega) (by omega) (by omega),
            scanString_plain b1 _ (by omega) (by omega) (by omega),
            scanString_plain b2 _ (by omega) (by omega) (by omega),
            scanString_plain b3 _ (by omega) (by omega) (by omega), ih]
          rfl

end json

namespace json

theorem unquoteAux_nil (F : Nat) : unquoteAux F [] = some [] := by
  cases F <;> rfl

theorem unquoteAux_plain (F c : Nat) (x : Bytes) (h1 : ¬ c = 0x5C)
    (h2 : ¬ (c = 0x22 ∨ c < 0x20)) (h3 : c < 0x80) :
    unquoteAux (F + 1) (c :: x) = (unquoteAux F x).map fun t => c :: t := by
  rw [unquoteAux.eq_def]
  simp only [if_neg h1, if_neg h2, if_pos h3]

theorem unquoteAux_escape_self (F e : Nat) (x : Bytes) (he : e = 0x22 ∨ e = 0x5C) :
    unquoteAux (F + 1) (0x5C :: e :: x) = (unquoteAux F x).map fun t => e :: t := by
  have c : e = 0x22 ∨ e = 0x5C ∨ e = 0x2F ∨ e = 0x27 := by omega
  rw [unquoteAux.eq_def]
  simp only [if_true, if_pos c]

theorem unquoteAux_escape_b (F : Nat) (x : Bytes) :
    unquoteAux (F + 1) (0x5C :: 0x62 :: x) = (unquoteAux F x).map fun t => 0x08 :: t := by
  rw [unquoteAux.eq_def]
  simp

theorem unquoteAux_escape_f (F : Nat) (x : Bytes) :
    unquoteAux (F + 1) (0x5C :: 0x66 :: x) = (unquoteAux F x).map fun t => 0x0C :: t := by
  rw [unquoteAux.eq_def]
  simp

theorem unquoteAux_escape_n (F : Nat) (x : Bytes) :
    unquoteAux (F + 1) (0x5C :: 0x6E :: x) = (unquoteAux F x).map fun t => 0x0A :: t := by
  rw [unquoteAux.eq_def]
  simp

theorem unquoteAux_escape_r (F : Nat) (x : Bytes) :
    unquoteAux (F + 1) (0x5C :: 0x72 :: x) = (unquoteAux F x).map fun t => 0x0D :: t := by
  rw [unquoteAux.eq_def]
  simp

theorem unquoteAux_escape_t (F : Nat) (x : Bytes) :
    unquoteAux (F + 1) (0x5C :: 0x74 :: x) = (unquoteAux F x).map fun t => 0x09 :: t := by
  rw [unquoteAux.eq_def]
  simp

theorem unquoteAux_unicode (F h1 h2 h3 h4 : Nat) (x : Bytes)
    (hh : isHex h1 = true ∧ isHex h2 = true ∧ isHex h3 = true ∧ isHex h4 = true)
    (hs : utf16.IsSurrogate (((hexVal h1 * 16 + hexVal h2) * 16 + hexVal h3) * 16 + hexVal h4)
      = false) :
    unquoteAux (F + 1) (0x5C :: 0x75 :: h1 :: h2 :: h3 :: h4 :: x) =
      (unquoteAux F x).map fun t =>
        utf8.EncodeRune (((hexVal h1 * 16 + hexVal h2) * 16 + hexVal h3) * 16 + hexVal h4) ++ t := by
  have hg : getu4 (0x5C :: 0x75 :: h1 :: h2 :: h3 :: h4 :: x) =
      some (((hexVal h1 * 16 + hexVal h2) * 16 + hexVal h3) * 16 + hexVal h4) := by
    simp only [getu4, true_and, hh, and_self, if_true]
  rw [unquoteAux.eq_def]
  simp [hg, hs]

theorem unquoteAux_multi (F c : Nat) (x : Bytes) (h : ¬ c < 0x80) :
    unquoteAux (F + 1) (c :: x) =
      (unquoteAux F ((c :: x).drop (utf8.DecodeRune (c :: x)).2)).map fun t =>
        utf8.EncodeRune (utf8.DecodeRune (c :: x)).1 ++ t := by
  have h1 : ¬ c = 0x5C := by omega
  have h2 : ¬ (c = 0x22 ∨ c < 0x20) := by omega
  rw [unquoteAux.eq_def]
  simp only [if_neg h1, if_neg h2, if_neg h]

end json

namespace json

/-- Decoding what the string encoder wrote for a valid UTF-8 string gives the
string back. -/
theorem unquoteAux_appendStringAux (n : Nat) : ∀ (s : Bytes) (G F : Nat),
    utf8.validAux G s = true → s.length ≤ n → s.length ≤ G →
    (appendStringAux n s).length ≤ F → unquoteAux F (appendStringAux n s) = some s := by
  induction n with
  | zero =>
    intro s G F _ hn _ _
    have : s = [] := List.length_eq_zero.1 (by omega)
    subst this
    rw [appendStringAux.eq_def]
    exact unquoteAux_nil F
  | succ n ih =>
    intro s G F hv hn hG hF
    rcases s with _ | ⟨b, tl⟩
    · rw [appendStringAux.eq_def]
      exact unquoteAux_nil F
    obtain ⟨G, rfl⟩ : ∃ k, G = k + 1 := ⟨G - 1, by simp only [List.length_cons] at hG; omega⟩
    simp only [List.length_cons] at hn hG
    rw [utf8.validAux.eq_def] at hv
    dsimp only at hv
    rw [appendStringAux.eq_def] at hF ⊢
    dsimp only at hF ⊢
    by_cases hb : b < 0x80
    · rw [if_pos hb] at hv hF ⊢
      have key : ∀ F1, (appendStringAux n tl).length ≤ F1 →
          unquoteAux F1 (appendStringAux n tl) = some tl :=
        fun F1 h => ih tl G F1 hv (by omega) (by omega) h
      by_cases hs : htmlSafe b = true
      · rw [if_pos hs] at hF ⊢
        have hs' : 0x20 ≤ b ∧ b < 0x80 ∧ b ≠ 0x22 ∧ b ≠ 0x26 ∧ b ≠ 0x3C ∧ b ≠ 0x3E ∧ b ≠ 0x5C := by
          simpa [htmlSafe] using hs
        obtain ⟨F, rfl⟩ : ∃ k, F = k + 1 := ⟨F - 1, by simp only [List.length_cons] at hF; omega⟩
        simp only [List.length_cons] at hF
        rw [unquoteAux_plain F b _ (by omega) (by omega) hb, key F (by omega)]
        rfl
      rw [if_neg hs] at hF ⊢
      by_cases h1 : b = 0x5C ∨ b = 0x22
      · rw [if_pos h1] at hF ⊢
        obtain ⟨F, rfl⟩ : ∃ k, F = k + 1 := ⟨F - 1, by simp only [List.length_cons] at hF; omega⟩
        simp only [List.length_cons] at hF
        rw [unquoteAux_escape_self F b _ (by omega), key F (by omega)]
        rfl
      rw [if_neg h1] at hF ⊢
      by_cases h2 : b = 0x08
      · rw [if_pos h2] at hF ⊢
        obtain ⟨F, rfl⟩ : ∃ k, F = k + 1 := ⟨F - 1, by simp only [List.length_cons] at hF; omega⟩
        simp only [List.length_cons] at hF
        rw [unquoteAux_escape_b, key F (by omega), h2]
        rfl
      rw [if_neg h2] at hF ⊢
      by_cases h3 : b = 0x0C
      · rw [if_pos h3] at hF ⊢
        obtain ⟨F, rfl⟩ : ∃ k, F = k + 1 := ⟨F - 1, by simp only [List.length_cons] at hF; omega⟩
        simp only [List.length_cons] at hF
        rw [unquoteAux_escape_f, key F (by omega), h3]
        rfl
      rw [if_neg h3] at hF ⊢
      by_cases h4 : b = 0x0A
      · rw [if_pos h4] at hF ⊢
        obtain ⟨F, rfl⟩ : ∃ k, F = k + 1 := ⟨F - 1, by simp only [List.length_cons] at hF; omega⟩
        simp only [List.length_cons] at hF
        rw [unquoteAux_escape_n, key F (by omega), h4]
        rfl
      rw [if_neg h4] at hF ⊢
      by_cases h5 : b = 0x0D
      · rw [if_pos h5] at hF ⊢
        obtain ⟨F, rfl⟩ : ∃ k, F = k + 1 := ⟨F - 1, by simp only [List.length_cons] at hF; omega⟩
        simp only [List.length_cons] at hF
        rw [unquoteAux_escape_r, key F (by omega), h5]
        rfl
      rw [if_neg h5] at hF ⊢
      by_cases h6 : b = 0x09
      · rw [if_pos h6] at hF ⊢
        obtain ⟨F, rfl⟩ : ∃ k, F = k + 1 := ⟨F - 1, by simp only [List.length_cons] at hF; omega⟩
        simp only [List.length_cons] at hF
        rw [unquoteAux_escape_t, key F (by omega), h6]
        rfl
      rw [if_neg h6] at hF ⊢
      obtain ⟨F, rfl⟩ : ∃ k, F = k + 1 := ⟨F - 1, by simp only [List.length_cons] at hF; omega⟩
      simp only [List.length_cons] at hF
      have e0 : hexVal 0x30 = 0 := by decide
      have e : ((hexVal 0x30 * 16 + hexVal 0x30) * 16 + hexVal (hexDigit (b / 16))) * 16
          + hexVal (hexDigit (b % 16)) = b := by
        rw [hexVal_hexDigit _ (by omega), hexVal_hexDigit _ (by omega), e0]
        omega
      have hsur : utf16.IsSurrogate b = false := by
        simp only [utf16.IsSurrogate, decide_eq_false_iff_not]
        omega
      have henc : utf8.EncodeRune b = [b] := by
        have : b ≤ 0x7F := by omega
        simp only [utf8.EncodeRune, if_pos this]
      rw [unquoteAux_unicode F _ _ _ _ _ ⟨by decide, by decide, isHex_hexDigit _ (by omega),
        isHex_hexDigit _ (by omega)⟩ (by rw [e]; exact hsur), e, henc, key F (by omega)]
      rfl
    · rw [if_neg hb] at hv hF ⊢
      rcases utf8.DecodeRune_shape b tl hb _ rfl
        with hd | ⟨b1, t, rfl, h1, h2, h3, h4, hd⟩
          | ⟨b1, b2, t, rfl, h1, h2, h3, h4, h5, h6, h7, h8, hd⟩
          | ⟨b1, b2, b3, t, rfl, h1, h2, h3, h4, h5, h6, h7, h8, h9, h10, hd⟩
      · rw [hd] at hv
        simp at hv
      · have hd4 : utf8.DecodeRune (List.take 4 (b :: b1 :: t)) = (b % 32 * 64 + b1 % 64, 2) :=
          utf8.DecodeRune_two b b1 _ h1 h2 h3 h4
        have c1 : ¬ (b % 32 * 64 + b1 % 64 = utf8.RuneError ∧ 2 = 1) := by omega
        have c2 : ¬ (b % 32 * 64 + b1 % 64 = 0x2028 ∨ b % 32 * 64 + b1 % 64 = 0x2029) := by omega
        rw [hd] at hv
        rw [hd4] at hF ⊢
        simp only [List.length_cons] at hn hG
        simp only [if_neg c1, if_neg c2, List.take_succ_cons, List.take_zero, List.drop_succ_cons,
          List.drop_zero, List.cons_append, List.nil_append, List.length_cons,
          Bool.false_eq_true] at hv hF ⊢
        obtain ⟨F, rfl⟩ : ∃ k, F = k + 1 := ⟨F - 1, by omega⟩
        rw [unquoteAux_multi F b _ hb, utf8.DecodeRune_two b b1 _ h1 h2 h3 h4,
          utf8.EncodeRune_two b b1 h1 h2 h3 h4]
        simp only [List.drop_succ_cons, List.drop_zero]
        rw [ih t G F hv (by omega) (by omega) (by omega)]
        rfl
      · have hd4 : utf8.DecodeRune (List.take 4 (b :: b1 :: b2 :: t)) =
            (b % 16 * 4096 + b1 % 64 * 64 + b2 % 64, 3) :=
          utf8.DecodeRune_three b b1 b2 _ h1 h2 h3 h4 h5 h6 h7 h8
        have c1 : ¬ (b % 16 * 4096 + b1 % 64 * 64 + b2 % 64 = utf8.RuneError ∧ 3 = 1) := by omega
        rw [hd] at hv
        rw [hd4] at hF ⊢
        simp only [List.length_cons] at hn hG
        simp only [if_neg c1, List.drop_succ_cons, List.drop_zero, Bool.false_eq_true] at hv
        rw [if_neg c1] at hF ⊢
        have henc := utf8.EncodeRune_three b b1 b2 h1 h2 h3 h4 h5 h6 h7 h8
        by_cases c2 : b % 16 * 4096 + b1 % 64 * 64 + b2 % 64 = 0x2028 ∨
            b % 16 * 4096 + b1 % 64 * 64 + b2 % 64 = 0x2029
        · simp only [if_pos c2, List.drop_succ_cons, List.drop_zero, List.length_cons] at hF ⊢
          obtain ⟨F, rfl⟩ : ∃ k, F = k + 1 := ⟨F - 1, by omega⟩
          have e2 : hexVal 0x32 = 2 := by decide
          have e0 : hexVal 0x30 = 0 := by decide
          have e : ((hexVal 0x32 * 16 + hexVal 0x30) * 16 + hexVal 0x32) * 16
              + hexVal (hexDigit ((b % 16 * 4096 + b1 % 64 * 64 + b2 % 64) % 16))
              = b % 16 * 4096 + b1 % 64 * 64 + b2 % 64 := by
            rw [hexVal_hexDigit _ (by omega), e2, e0]
            omega
          have hsur : utf16.IsSurrogate (b % 16 * 4096 + b1 % 64 * 64 + b2 % 64) = false := by
            simp only [utf16.IsSurrogate, decide_eq_false_iff_not]
            omega
          rw [unquoteAux_unicode F _ _ _ _ _ ⟨by decide, by decide, by decide,
            isHex_hexDigit _ (by omega)⟩ (by rw [e]; exact hsur), e, henc,
            ih t G F hv (by omega) (by omega) (by omega)]
          rfl
        · simp only [if_neg c2, List.take_succ_cons, List.take_zero, List.drop_succ_cons,
            List.drop_zero, List.cons_append, List.nil_append, List.length_cons] at hF ⊢
          obtain ⟨F, rfl⟩ : ∃ k, F = k + 1 := ⟨F - 1, by omega⟩
          rw [unquoteAux_multi F b _ hb, utf8.DecodeRune_three b b1 b2 _ h1 h2 h3 h4 h5 h6 h7 h8,
            henc]
          simp only [List.drop_succ_cons, List.drop_zero]
          rw [ih t G F hv (by omega) (by omega) (by omega)]
          rfl
      · have hd4 : utf8.DecodeRune (List.take 4 (b :: b1 :: b2 :: b3 :: t)) =
            (b % 8 * 262144 + b1 % 64 * 4096 + b2 % 64 * 64 + b3 % 64, 4) :=
          utf8.DecodeRune_four b b1 b2 b3 _ h1 h2 h3 h4 h5 h6 h7 h8 h9 h10
        have c1 : ¬ (b % 8 * 262144 + b1 % 64 * 4096 + b2 % 64 * 64 + b3 % 64 = utf8.RuneError
            ∧ 4 = 1) := by omega
        have h5' : b = 0xF0 ∨ b ≠ 0xF0 := by omega
        have c2 : ¬ (b % 8 * 262144 + b1 % 64 * 4096 + b2 % 64 * 64 + b3 % 64 = 0x2028 ∨
            b % 8 * 262144 + b1 % 64 * 4096 + b2 % 64 * 64 + b3 % 64 = 0x2029) := by
          rcases h5' with h | h
          · have := h5 h; omega
          · omega
        rw [hd] at hv
        rw [hd4] at hF ⊢
        simp only [List.length_cons] at hn hG
        simp only [if_neg c1, if_neg c2, List.take_succ_cons, List.take_zero, List.drop_succ_cons,
          List.drop_zero, List.cons_append, List.nil_append, List.length_cons,
          Bool.false_eq_true] at hv hF ⊢
        obtain ⟨F, rfl⟩ : ∃ k, F = k + 1 := ⟨F - 1, by omega⟩
        rw [unquoteAux_multi F b _ hb,
          utf8.DecodeRune_four b b1 b2 b3 _ h1 h2 h3 h4 h5 h6 h7 h8 h9 h10,
          utf8.EncodeRune_four b b1 b2 b3 h1 h2 h3 h4 h5 h6 h7 h8 h9 h10]
        simp only [List.drop_succ_cons, List.drop_zero]
        rw [ih t G F hv (by omega) (by omega) (by omega)]
        rfl

/-- Decoding the encoding of a valid UTF-8 string into a string target stores the
string and reports no error. -/
theorem UnmarshalString_MarshalString (s w : Bytes) (hv : utf8.Valid s = true) :
    ∃ bs, MarshalString s = .ok bs ∧ bs ≠ ascii "null" ∧ UnmarshalString bs w = (s, none) := by
  refine ⟨0x22 :: (appendStringAux s.length s ++ [0x22]), rfl, by simp [ascii], ?_⟩
  have hscan : scan (0x22 :: (appendStringAux s.length s ++ [0x22])) =
      some (.string (appendStringAux s.length s)) := by
    have hsp : isSpace 0x22 = false := by decide
    have e1 : ¬ ((0x22 : Nat) = 0x5B ∨ (0x22 : Nat) = 0x7B) := by decide
    simp only [scan, skipSpace, hsp, Bool.false_eq_true, if_false, if_neg e1, if_true,
      scanString_appendStringAux, onlySpace, List.all_nil]
  have hun : unquote (appendStringAux s.length s) = some s :=
    unquoteAux_appendStringAux s.length s s.length _ hv (le_refl _) (le_refl _) (le_refl _)
  simp only [UnmarshalString, hscan, hun]

end json

namespace bson

theorem leBytes_length (count n : Nat) : (leBytes count n).length = count := by
  induction count generalizing n with
  | zero => rfl
  | succ k ih => simp [leBytes, ih]

theorem leValue_leBytes (count n : Nat) : leValue (leBytes count n) = n % 256 ^ count := by
  induction count generalizing n with
  | zero => simp [leBytes, leValue, Nat.mod_one]
  | succ k ih =>
    simp only [leBytes, leValue, ih]
    rw [pow_succ, mul_comm (256 ^ k) 256, Nat.mod_mul]

theorem take_leBytes_append (count n : Nat) (rest : Bytes) :
    (leBytes count n ++ rest).take count = leBytes count n := by
  rw [List.take_append_of_le_length (by rw [leBytes_length])]
  exact List.take_of_length_le (by rw [leBytes_length])

theorem drop_leBytes_append (count n : Nat) (rest : Bytes) :
    (leBytes count n ++ rest).drop count = rest := by
  have h := List.drop_left (leBytes count n) rest
  rw [leBytes_length] at h
  exact h

/-- Reading back the eight bytes written for an `int64` gives the value. -/
theorem readInt64_leBytes (v : Int) (hlo : -(2 ^ 63) ≤ v) (hhi : v < 2 ^ 63) :
    readInt64 (leBytes 8 (v % 2 ^ 64).toNat) = some v := by
  have hlen : ¬ (leBytes 8 (v % 2 ^ 64).toNat).length < 8 := by
    rw [leBytes_length]; omega
  have htake : (leBytes 8 (v % 2 ^ 64).toNat).take 8 = leBytes 8 (v % 2 ^ 64).toNat :=
    List.take_of_length_le (by rw [leBytes_length])
  unfold readInt64
  rw [if_neg hlen, htake, leValue_leBytes]
  have e : (v % 2 ^ 64).toNat % 256 ^ 8 = (v % 2 ^ 64).toNat := by
    apply Nat.mod_eq_of_lt
    omega
  rw [e]
  congr 1
  split_ifs with h <;> omega

/-- Reading back the payload written for a string gives the string. -/
theorem readStr_encode (s : Bytes) (hlen : s.length + 1 < 2 ^ 31) :
    readStr (leBytes 4 (s.length + 1) ++ (s ++ [0])) = some s := by
  have h32 : readInt32 (leBytes 4 (s.length + 1) ++ (s ++ [0])) = some ((s.length : Int) + 1) := by
    have hl : ¬ (leBytes 4 (s.length + 1) ++ (s ++ [0])).length < 4 := by
      rw [List.length_append, leBytes_length]; omega
    unfold readInt32
    rw [if_neg hl, take_leBytes_append, leValue_leBytes]
    have e : (s.length + 1) % 256 ^ 4 = s.length + 1 := by
      apply Nat.mod_eq_of_lt
      omega
    rw [e]
    have : s.length + 1 < 2 ^ 31 := hlen
    rw [if_pos this]
    congr 1
  unfold readStr
  rw [h32, drop_leBytes_append]
  have c0 : ¬ ((s.length : Int) + 1 - 1 < -(2 ^ 31)) := by omega
  have c1 : ¬ ((s.length : Int) + 1 - 1 < 0) := by omega
  have e1 : ((s.length : Int) + 1 - 1).toNat = s.length := by omega
  have c2 : ¬ ((s ++ [0]).length < s.length + 1) := by
    rw [List.length_append]; simp
  simp only [if_neg c0, if_neg c1, e1, if_neg c2, List.drop_left, List.head?_cons, if_true,
    List.take_left]

/-- Decoding the element written for an `int64` into an `int64` target stores the
value and reports no error. -/
theorem UnmarshalInt64_encodeInt64 (other : Raw → Int → Int × Option GoError) (v w : Int)
    (hlo : -(2 ^ 63) ≤ v) (hhi : v < 2 ^ 63) :
    UnmarshalInt64 other (encodeInt64 v) w = (v, none) := by
  have c1 : ¬ (0x12 : Nat) = 0x0A := by decide
  simp only [UnmarshalInt64, encodeInt64, if_neg c1, if_true, readInt64_leBytes v hlo hhi]

/-- Decoding the element written for a string into a string target stores the
string and reports no error. -/
theorem UnmarshalString_encodeString (other : Raw → Bytes → Bytes × Option GoError) (s w : Bytes)
    (hlen : s.length + 1 < 2 ^ 31) :
    UnmarshalString other (encodeString s) w = (s, none) := by
  have c1 : ¬ (0x02 : Nat) = 0x0A := by decide
  simp only [UnmarshalString, encodeString, if_neg c1, if_true, readStr_encode s hlen]

end bson


namespace strconv

theorem findBinade_eq (a d : Nat) : ∀ (fuel t T : Nat), t ≤ T → T - t < fuel →
    (∀ u, t ≤ u → u < T → ¬ a < 2 ^ (53 + u) * d) → a < 2 ^ (53 + T) * d →
    findBinade fuel t a d = T := by
  intro fuel
  induction fuel with
  | zero => intro t T _ h; omega
  | succ n ih =>
    intro t T htT hfuel hlow hT
    unfold findBinade
    by_cases hc : a < 2 ^ (53 + t) * d
    · rw [if_pos hc]
      by_contra hne
      exact hlow t (le_refl _) (by omega) hc
    · rw [if_neg hc]
      have hlt : t < T := by
        by_contra h
        have : t = T := by omega
        rw [this] at hc
        exact hc hT
      exact ih (t + 1) T (by omega) (by omega) (fun u hu huT => hlow u (by omega) huT) hT

theorem roundHalfEven_mul (q d : Nat) (hd : 0 < d) : roundHalfEven (q * d) d = q := by
  unfold roundHalfEven
  have h1 : q * d % d = 0 := Nat.mul_mod_left q d
  have h2 : q * d / d = q := Nat.mul_div_cancel q hd
  rw [h1, h2, if_pos (by omega)]

/-- Rounding is exact on a value that is a float: the nearest bits to the
magnitude of a finite float are its own bits. -/
theorem nearestBits_floatScaled (mag d : Nat) (hfin : mag < 0x7FF0000000000000) (hd : 0 < d) :
    nearestBits (floatScaled mag * d) d = mag := by
  have hmag : mag / 2 ^ 52 * 2 ^ 52 + mag % 2 ^ 52 = mag := Nat.div_add_mod' mag (2 ^ 52)
  have hm : mag % 2 ^ 52 < 2 ^ 52 := Nat.mod_lt _ (by positivity)
  have he : mag / 2 ^ 52 < 2047 := by
    rw [Nat.div_lt_iff_lt_mul (by positivity)]
    norm_num at hfin ⊢
    omega
  unfold floatScaled nearestBits
  generalize mag / 2 ^ 52 = e at hmag he ⊢
  generalize mag % 2 ^ 52 = m at hmag hm ⊢
  by_cases hz : e = 0
  · rw [if_pos hz]
    have hb : findBinade 2047 0 (m * d) d = 0 := by
      apply findBinade_eq _ _ 2047 0 0 (le_refl _) (by omega) (fun u _ h2 => by omega)
      apply Nat.mul_lt_mul_of_lt_of_le _ (le_refl d) hd
      calc m < 2 ^ 52 := hm
        _ < 2 ^ (53 + 0) := by norm_num
    rw [hb, pow_zero, one_mul, roundHalfEven_mul m d hd]
    rw [hz] at hmag
    omega
  · rw [if_neg hz]
    obtain ⟨T, rfl⟩ : ∃ T, e = T + 1 := ⟨e - 1, by omega⟩
    rw [Nat.add_sub_cancel]
    have hpos : 0 < 2 ^ T * d := Nat.mul_pos (by positivity) hd
    have ha : (2 ^ 52 + m) * 2 ^ T * d = (2 ^ 52 + m) * (2 ^ T * d) := by ring
    have hb : findBinade 2047 0 ((2 ^ 52 + m) * 2 ^ T * d) d = T := by
      apply findBinade_eq _ _ 2047 0 T (Nat.zero_le _) (by omega)
      · intro u _ huT
        rw [ha, not_lt]
        have h1 : 2 ^ (53 + u) ≤ 2 ^ 52 * 2 ^ T := by
          rw [← pow_add]
          exact Nat.pow_le_pow_right (by norm_num) (by omega)
        calc 2 ^ (53 + u) * d ≤ 2 ^ 52 * 2 ^ T * d := Nat.mul_le_mul_right d h1
          _ = 2 ^ 52 * (2 ^ T * d) := by ring
          _ ≤ (2 ^ 52 + m) * (2 ^ T * d) := Nat.mul_le_mul_right _ (by omega)
      · rw [ha, pow_add, mul_assoc]
        apply Nat.mul_lt_mul_of_lt_of_le _ (le_refl _) hpos
        have : (2 : Nat) ^ 53 = 2 ^ 52 + 2 ^ 52 := by norm_num
        omega
    rw [hb, ha, roundHalfEven_mul _ _ hpos]
    rw [← hmag]
    ring

end strconv

namespace json

theorem scanNumber_digits_append (ds tail : Bytes) (h : ∀ c ∈ ds, strconv.isDigit c = true) :
    scanNumber .digits (ds ++ tail) =
      (scanNumber .digits tail).map fun p => (ds ++ p.1, p.2) := by
  induction ds with
  | nil => simp
  | cons c cs ih =>
    have hc : 48 ≤ c ∧ c ≤ 57 := by
      have := h c (List.mem_cons_self _ _)
      simpa [strconv.isDigit] using this
    have hs : numStep .digits c = some .digits := by
      simp only [numStep, hc, and_self, if_true]
    rw [List.cons_append, scanNumber, hs]
    dsimp only
    rw [ih (fun x hx => h x (List.mem_cons_of_mem _ hx))]
    cases scanNumber .digits tail <;> rfl

end json

namespace strconv

theorem spanDigits_append (ds : Bytes) (c : Nat) (t : Bytes)
    (h : ∀ x ∈ ds, isDigit x = true) (hc : isDigit c = false) :
    spanDigits (ds ++ c :: t) = (ds, c :: t) := by
  induction ds with
  | nil => simp [spanDigits, hc]
  | cons x xs ih =>
    have hx : isDigit x = true := h x (List.mem_cons_self _ _)
    rw [List.cons_append, spanDigits, if_pos hx, ih (fun y hy => h y (List.mem_cons_of_mem _ hy))]

/-- The exact expansion of a finite non-zero float is one JSON number literal. -/
theorem scan_exactText (f : Nat) (hpos : 0 < floatScaled (f % 2 ^ 63)) :
    json.scan (exactText f) = some (.number (exactText f)) := by
  obtain ⟨d, ds, hds, h1, h2, h3, _⟩ :=
    FormatUint_pos (floatScaled (f % 2 ^ 63) * 5 ^ 1074) (Nat.mul_pos hpos (by positivity))
  have htail : json.scanNumber .digits [101, 45, 49, 48, 55, 52]
      = some ([101, 45, 49, 48, 55, 52], []) := by decide
  have hnum : json.scanNumber .digits (ds ++ [101, 45, 49, 48, 55, 52])
      = some (ds ++ [101, 45, 49, 48, 55, 52], []) := by
    rw [json.scanNumber_digits_append ds _ h3, htail]
    rfl
  unfold exactText
  rw [hds]
  by_cases hneg : 2 ^ 63 ≤ f
  · rw [if_pos hneg]
    have hstep : json.numStep .neg d = some .digits := by
      have : ¬ d = 48 := by omega
      simp only [json.numStep, this, if_false, h1, h2, and_self, if_true]
    have hn : json.scanNumber .neg (d :: (ds ++ [101, 45, 49, 48, 55, 52]))
        = some (d :: (ds ++ [101, 45, 49, 48, 55, 52]), []) := by
      rw [json.scanNumber, hstep]
      dsimp only
      rw [hnum]
      rfl
    simp [json.scan, json.skipSpace, json.isSpace, json.scanNumberValue, hn, json.onlySpace]
  · rw [if_neg hneg]
    have hsp : json.isSpace d = false := by
      simp only [json.isSpace, decide_eq_false_iff_not]; omega
    have e1 : ¬ (d = 0x5B ∨ d = 0x7B) := by omega
    have e2 : ¬ d = 0x22 := by omega
    have e3 : ¬ d = 0x6E := by omega
    have e4 : ¬ d = 0x74 := by omega
    have e5 : ¬ d = 0x66 := by omega
    have e6 : ¬ d = 0x2D := by omega
    have e7 : ¬ d = 0x30 := by omega
    have e8 : 0x31 ≤ d ∧ d ≤ 0x39 := by omega
    simp only [List.nil_append, List.cons_append, json.scan, json.skipSpace, hsp,
      Bool.false_eq_true, if_false, e1, e2, e3, e4, e5, e6, e7, e8, if_true,
      json.scanNumberValue, json.onlySpace, and_self]
    rw [show ds.append [101, 45, 49, 48, 55, 52] = ds ++ [101, 45, 49, 48, 55, 52] from rfl,
      hnum]
    simp

/-- Reading the exact expansion gives the sign, the digits and the exponent it
was written from. -/
theorem readDecimal_exactText (f : Nat) (hpos : 0 < floatScaled (f % 2 ^ 63)) :
    readDecimal (exactText f) =
      some (decide (2 ^ 63 ≤ f), floatScaled (f % 2 ^ 63) * 5 ^ 1074, -1074) := by
  obtain ⟨d, ds, hds, h1, h2, h3, h4⟩ :=
    FormatUint_pos (floatScaled (f % 2 ^ 63) * 5 ^ 1074) (Nat.mul_pos hpos (by positivity))
  have hall : ∀ x ∈ d :: ds, isDigit x = true := by
    intro x hx
    rcases List.mem_cons.1 hx with hx | hx
    · rw [hx]; simp only [isDigit, decide_eq_true_eq]; omega
    · exact h3 x hx
  have hspan : spanDigits (d :: ds ++ [101, 45, 49, 48, 55, 52])
      = (d :: ds, [101, 45, 49, 48, 55, 52]) :=
    spanDigits_append (d :: ds) 101 _ hall (by decide)
  have hexp : readExponent [101, 45, 49, 48, 55, 52] = some (-1074) := by decide
  have hsign : readSign (exactText f) =
      (decide (2 ^ 63 ≤ f), d :: ds ++ [101, 45, 49, 48, 55, 52]) := by
    unfold exactText
    rw [hds]
    by_cases hneg : 2 ^ 63 ≤ f
    · rw [if_pos hneg, decide_eq_true hneg]
      rfl
    · have c1 : ¬ d = 45 := by omega
      have c2 : ¬ d = 43 := by omega
      rw [if_neg hneg, decide_eq_false hneg]
      simp [readSign, c1, c2]
  unfold readDecimal
  rw [hsign]
  dsimp only
  rw [hspan]
  have hfrac : readFraction [101, 45, 49, 48, 55, 52] = ([], [101, 45, 49, 48, 55, 52]) := by
    decide
  rw [hfrac]
  dsimp only
  rw [hds] at h4
  simp [h4, hexp]

end strconv

namespace strconv

theorem floatScaled_pos (mag : Nat) (h : 0 < mag) : 0 < floatScaled mag := by
  unfold floatScaled
  split_ifs with h0
  · have := Nat.div_add_mod mag (2 ^ 52)
    rw [h0] at this
    omega
  · positivity

theorem roundDecimal_exact (neg : Bool) (mag : Nat) (hfin : mag < 0x7FF0000000000000) :
    roundDecimal neg (floatScaled mag * 5 ^ 1074) (-1074) =
      ((if neg then 2 ^ 63 else 0) + mag, none) := by
  have hk : ¬ (0 : Int) ≤ -1074 := by decide
  have hn : (-(-1074 : Int)).toNat = 1074 := by decide
  have ha : floatScaled mag * 5 ^ 1074 * 2 ^ 1074 = floatScaled mag * 10 ^ 1074 := by
    rw [Nat.mul_assoc, ← Nat.mul_pow]
  have hnb : nearestBits (floatScaled mag * 10 ^ 1074) (10 ^ 1074) = mag :=
    nearestBits_floatScaled mag (10 ^ 1074) hfin (by positivity)
  unfold roundDecimal
  simp only [hk, if_false, hn, ha, hnb]
  rw [if_neg (by omega)]

/-- Parsing the exact expansion of a finite non-zero float gives the float. -/
theorem ParseFloat64_exactText (f : Nat) (hf : f < 2 ^ 64)
    (hfin : f % 2 ^ 63 < 0x7FF0000000000000) (hnz : f % 2 ^ 63 ≠ 0) :
    ParseFloat64 (exactText f) = (f, none) := by
  have hpos : 0 < floatScaled (f % 2 ^ 63) := floatScaled_pos _ (Nat.pos_of_ne_zero hnz)
  unfold ParseFloat64
  rw [if_pos (scan_exactText f hpos), readDecimal_exactText f hpos]
  dsimp only
  rw [roundDecimal_exact _ _ hfin]
  by_cases hneg : 2 ^ 63 ≤ f
  · rw [decide_eq_true hneg, if_pos rfl]
    congr 1
    omega
  · rw [decide_eq_false hneg]
    simp only [Bool.false_eq_true, if_false]
    congr 1
    omega

theorem ParseFloat64_shortestText (f : Nat) (fb : Bytes) (h : ParseFloat64 fb = (f, none)) :
    ∀ fuel n, ParseFloat64 (shortestText f fb fuel n) = (f, none) := by
  intro fuel
  induction fuel with
  | zero => intro n; exact h
  | succ k ih =>
    intro n
    rw [shortestText]
    split_ifs with h1 h2 h3 h4
    · exact h1.1
    · exact h1.2
    · exact h3
    · exact h4
    · exact ih (n + 1)

/-- Formatting a finite float and parsing the text back gives the float. -/
theorem ParseFloat64_FormatFloat64 (f : Nat) (hf : f < 2 ^ 64)
    (hfin : f % 2 ^ 63 < 0x7FF0000000000000) :
    ParseFloat64 (FormatFloat64 f) = (f, none) := by
  unfold FormatFloat64
  by_cases hz : f % 2 ^ 63 = 0
  · rw [if_pos hz]
    by_cases hneg : 2 ^ 63 ≤ f
    · rw [if_pos hneg]
      have : f = 2 ^ 63 := by omega
      rw [this]
      decide!
    · rw [if_neg hneg]
      have : f = 0 := by omega
      rw [this]
      decide!
  · rw [if_neg hz]
    exact ParseFloat64_shortestText f _ (ParseFloat64_exactText f hf hfin hz) 17 1

/-- The text of a finite float is one JSON number literal. -/
theorem scan_FormatFloat64 (f : Nat) (hf : f < 2 ^ 64)
    (hfin : f % 2 ^ 63 < 0x7FF0000000000000) :
    json.scan (FormatFloat64 f) = some (.number (FormatFloat64 f)) := by
  have h := ParseFloat64_FormatFloat64 f hf hfin
  unfold ParseFloat64 at h
  by_contra hc
  rw [if_neg hc] at h
  exact absurd (congrArg Prod.snd h) (by simp)

end strconv


namespace json

theorem scanNumber_self (s : Bytes) : ∀ (st : NumState) (text rest : Bytes),
    scanNumber st s = some (text, rest) → scanNumber st text = some (text, []) := by
  induction s with
  | nil =>
    intro st text rest h
    rw [scanNumber] at h
    split_ifs at h with hacc
    simp only [Option.some.injEq, Prod.mk.injEq] at h
    rw [← h.1, scanNumber, if_pos hacc]
  | cons c cs ih =>
    intro st text rest h
    rw [scanNumber] at h
    cases hstep : numStep st c with
    | none =>
      rw [hstep] at h
      dsimp only at h
      split_ifs at h with hacc
      simp only [Option.some.injEq, Prod.mk.injEq] at h
      rw [← h.1, scanNumber, if_pos hacc]
    | some s1 =>
      rw [hstep] at h
      dsimp only at h
      cases hs : scanNumber s1 cs with
      | none => rw [hs] at h; exact absurd h (by simp)
      | some p =>
        rw [hs] at h
        simp only [Option.map_some', Option.some.injEq, Prod.mk.injEq] at h
        have hp := ih s1 p.1 p.2 hs
        rw [← h.1, scanNumber, hstep]
        dsimp only
        rw [hp]
        rfl

theorem scanNumber_cons_self (st : NumState) (c : Nat) (cs : Bytes)
    (h : scanNumber st (c :: cs) = some (c :: cs, [])) :
    ∃ s1, numStep st c = some s1 ∧ scanNumber s1 cs = some (cs, []) := by
  rw [scanNumber] at h
  cases hstep : numStep st c with
  | none =>
    rw [hstep] at h
    dsimp only at h
    split_ifs at h
    simp at h
  | some s1 =>
    rw [hstep] at h
    dsimp only at h
    refine ⟨s1, rfl, ?_⟩
    cases hs : scanNumber s1 cs with
    | none => rw [hs] at h; exact absurd h (by simp)
    | some p =>
      rw [hs] at h
      simp only [Option.map_some', Option.some.injEq, Prod.mk.injEq, List.cons.injEq,
        true_and] at h
      rw [← h.1, ← h.2]

theorem scanNumber_nil_self (st : NumState) (h : scanNumber st [] = some ([], [])) :
    st.accepting = true := by
  rw [scanNumber] at h
  split_ifs at h with hacc
  exact hacc

end json

namespace strconv

theorem spanDigits_all (ds : Bytes) (h : ∀ x ∈ ds, isDigit x = true) :
    spanDigits ds = (ds, []) := by
  induction ds with
  | nil => rfl
  | cons x xs ih =>
    rw [spanDigits, if_pos (h x (List.mem_cons_self _ _)),
      ih (fun y hy => h y (List.mem_cons_of_mem _ hy))]

theorem spanDigits_nondigit (c : Nat) (cs : Bytes) (h : isDigit c = false) :
    spanDigits (c :: cs) = ([], c :: cs) := by
  rw [spanDigits, if_neg (by simp [h])]

theorem spanDigits_digit (c : Nat) (cs : Bytes) (h : isDigit c = true) :
    spanDigits (c :: cs) = (c :: (spanDigits cs).1, (spanDigits cs).2) := by
  rw [spanDigits, if_pos h]

theorem parseDigits_all (ds : Bytes) (h : ∀ x ∈ ds, isDigit x = true) :
    ∀ acc, ∃ n, parseDigits ds acc = some n := by
  induction ds with
  | nil => intro acc; exact ⟨acc, rfl⟩
  | cons x xs ih =>
    intro acc
    rw [parseDigits, if_pos (h x (List.mem_cons_self _ _))]
    exact ih (fun y hy => h y (List.mem_cons_of_mem _ hy)) _

theorem digits_of_expDigits (s : Bytes) :
    json.scanNumber .expDigits s = some (s, []) → ∀ x ∈ s, isDigit x = true := by
  induction s with
  | nil => intro _ x hx; exact absurd hx (List.not_mem_nil _)
  | cons c cs ih =>
    intro h
    obtain ⟨s1, hstep, hrest⟩ := json.scanNumber_cons_self _ c cs h
    simp only [json.numStep] at hstep
    split_ifs at hstep with hd
    simp only [Option.some.injEq] at hstep
    rw [← hstep] at hrest
    intro x hx
    rcases List.mem_cons.1 hx with hx | hx
    · rw [hx]; simpa [isDigit] using hd
    · exact ih hrest x hx

theorem digits_of_expSign (s : Bytes) (h : json.scanNumber .expSign s = some (s, [])) :
    s ≠ [] ∧ ∀ x ∈ s, isDigit x = true := by
  cases s with
  | nil => exact absurd (json.scanNumber_nil_self _ h) (by decide)
  | cons c cs =>
    obtain ⟨s1, hstep, hrest⟩ := json.scanNumber_cons_self _ c cs h
    simp only [json.numStep] at hstep
    split_ifs at hstep with hd
    simp only [Option.some.injEq] at hstep
    rw [← hstep] at hrest
    refine ⟨by simp, ?_⟩
    intro x hx
    rcases List.mem_cons.1 hx with hx | hx
    · rw [hx]; simpa [isDigit] using hd
    · exact digits_of_expDigits cs hrest x hx

theorem readExponent_digits (e : Nat) (neg : Bool) (ds : Bytes) (s : Bytes)
    (he : e = 101 ∨ e = 69) (hs : readSign s = (neg, ds)) (hne : ds ≠ [])
    (hd : ∀ x ∈ ds, isDigit x = true) : ∃ x, readExponent (e :: s) = some x := by
  obtain ⟨n, hn⟩ := parseDigits_all ds hd 0
  rw [readExponent, if_pos he, hs]
  dsimp only
  rw [spanDigits_all ds hd]
  dsimp only
  rw [if_neg (by simp [hne]), hn]
  exact ⟨_, rfl⟩

theorem readExponent_of_exp (e : Nat) (s : Bytes) (he : e = 101 ∨ e = 69)
    (h : json.scanNumber .exp s = some (s, [])) : ∃ x, readExponent (e :: s) = some x := by
  cases s with
  | nil => exact absurd (json.scanNumber_nil_self _ h) (by decide)
  | cons c cs =>
    obtain ⟨s1, hstep, hrest⟩ := json.scanNumber_cons_self _ c cs h
    simp only [json.numStep] at hstep
    split_ifs at hstep with hsg hd
    · simp only [Option.some.injEq] at hstep
      rw [← hstep] at hrest
      obtain ⟨hne, hall⟩ := digits_of_expSign cs hrest
      refine readExponent_digits e (decide (c = 45)) cs (c :: cs) he ?_ hne hall
      rcases hsg with hsg | hsg <;> rw [hsg] <;> rfl
    · simp only [Option.some.injEq] at hstep
      rw [← hstep] at hrest
      have hall : ∀ x ∈ c :: cs, isDigit x = true := by
        intro x hx
        rcases List.mem_cons.1 hx with hx | hx
        · rw [hx]; simpa [isDigit] using hd
        · exact digits_of_expDigits cs hrest x hx
      refine readExponent_digits e false (c :: cs) (c :: cs) he ?_ (by simp) hall
      have c1 : ¬ c = 45 := by omega
      have c2 : ¬ c = 43 := by omega
      simp [readSign, c1, c2]

/-- After the digits of a fraction the reader finds an exponent it can read. -/
theorem spanDigits_of_frac (s : Bytes) : json.scanNumber .frac s = some (s, []) →
    (∀ x ∈ (spanDigits s).1, isDigit x = true) ∧ ∃ x, readExponent (spanDigits s).2 = some x := by
  induction s with
  | nil => intro _; exact ⟨fun x hx => absurd hx (List.not_mem_nil _), 0, rfl⟩
  | cons c cs ih =>
    intro h
    obtain ⟨s1, hstep, hrest⟩ := json.scanNumber_cons_self _ c cs h
    simp only [json.numStep] at hstep
    split_ifs at hstep with hd he
    · simp only [Option.some.injEq] at hstep
      rw [← hstep] at hrest
      have hdc : isDigit c = true := by simpa [isDigit] using hd
      rw [spanDigits_digit c cs hdc]
      obtain ⟨h1, h2⟩ := ih hrest
      refine ⟨?_, h2⟩
      intro x hx
      rcases List.mem_cons.1 hx with hx | hx
      · rw [hx]; exact hdc
      · exact h1 x hx
    · simp only [Option.some.injEq] at hstep
      rw [← hstep] at hrest
      have hdc : isDigit c = false := by simpa [isDigit] using hd
      rw [spanDigits_nondigit c cs hdc]
      exact ⟨fun x hx => absurd hx (List.not_mem_nil _), readExponent_of_exp c cs he hrest⟩

/-- After a decimal point the reader finds digits and then an exponent it can
read. -/
theorem readFraction_of_dot (s : Bytes) (h : json.scanNumber .dot s = some (s, [])) :
    (∀ x ∈ (readFraction (46 :: s)).1, isDigit x = true) ∧
      ∃ x, readExponent (readFraction (46 :: s)).2 = some x := by
  have hrf : readFraction (46 :: s) = spanDigits s := by simp [readFraction]
  rw [hrf]
  cases s with
  | nil => exact absurd (json.scanNumber_nil_self _ h) (by decide)
  | cons c cs =>
    obtain ⟨s1, hstep, hrest⟩ := json.scanNumber_cons_self _ c cs h
    simp only [json.numStep] at hstep
    split_ifs at hstep with hd
    simp only [Option.some.injEq] at hstep
    rw [← hstep] at hrest
    have hdc : isDigit c = true := by simpa [isDigit] using hd
    rw [spanDigits_digit c cs hdc]
    obtain ⟨h1, h2⟩ := spanDigits_of_frac cs hrest
    refine ⟨?_, h2⟩
    intro x hx
    rcases List.mem_cons.1 hx with hx | hx
    · rw [hx]; exact hdc
    · exact h1 x hx

/-- What follows the integer part of a number literal: nothing, a fraction or an
exponent, each of which the reader can read. -/
theorem readFraction_of_step (st : json.NumState) (c : Nat) (cs : Bytes)
    (hst : st = .zero ∨ st = .digits) (hd : isDigit c = false) (s1 : json.NumState)
    (hstep : json.numStep st c = some s1) (hrest : json.scanNumber s1 cs = some (cs, [])) :
    (∀ x ∈ (readFraction (c :: cs)).1, isDigit x = true) ∧
      ∃ x, readExponent (readFraction (c :: cs)).2 = some x := by
  have hnd : ¬ (48 ≤ c ∧ c ≤ 57) := by simpa [isDigit] using hd
  have key : (c = 46 ∧ s1 = .dot) ∨ ((c = 101 ∨ c = 69) ∧ s1 = .exp) := by
    rcases hst with hst | hst <;> rw [hst] at hstep <;> simp only [json.numStep] at hstep
    · split_ifs at hstep with h1 h2
      · exact Or.inl ⟨h1, (Option.some.inj hstep).symm⟩
      · exact Or.inr ⟨h2, (Option.some.inj hstep).symm⟩
    · split_ifs at hstep with h1 h2
      · exact Or.inl ⟨h1, (Option.some.inj hstep).symm⟩
      · exact Or.inr ⟨h2, (Option.some.inj hstep).symm⟩
  rcases key with ⟨hc, hs1⟩ | ⟨hc, hs1⟩
  · rw [hs1] at hrest
    rw [hc]
    exact readFraction_of_dot cs hrest
  · rw [hs1] at hrest
    have c46 : ¬ c = 46 := by omega
    have hrf : readFraction (c :: cs) = ([], c :: cs) := by simp [readFraction, c46]
    rw [hrf]
    exact ⟨fun x hx => absurd hx (List.not_mem_nil _), readExponent_of_exp c cs hc hrest⟩

theorem readFraction_nil_ok :
    (∀ x ∈ (readFraction []).1, isDigit x = true) ∧
      ∃ x, readExponent (readFraction []).2 = some x :=
  ⟨fun _ hx => absurd hx (List.not_mem_nil _), 0, rfl⟩

theorem tail_of_zero (s : Bytes) (h : json.scanNumber .zero s = some (s, [])) :
    spanDigits s = ([], s) ∧ (∀ x ∈ (readFraction s).1, isDigit x = true) ∧
      ∃ x, readExponent (readFraction s).2 = some x := by
  cases s with
  | nil => exact ⟨rfl, readFraction_nil_ok⟩
  | cons c cs =>
    obtain ⟨s1, hstep, hrest⟩ := json.scanNumber_cons_self _ c cs h
    have hd : isDigit c = false := by
      simp only [json.numStep] at hstep
      split_ifs at hstep with h1 h2
      · simp [isDigit, h1]
      · rcases h2 with h2 | h2 <;> simp [isDigit, h2]
    exact ⟨spanDigits_nondigit c cs hd,
      readFraction_of_step .zero c cs (Or.inl rfl) hd s1 hstep hrest⟩

theorem tail_of_digits (s : Bytes) : json.scanNumber .digits s = some (s, []) →
    (∀ x ∈ (spanDigits s).1, isDigit x = true) ∧
    (∀ x ∈ (readFraction (spanDigits s).2).1, isDigit x = true) ∧
      ∃ x, readExponent (readFraction (spanDigits s).2).2 = some x := by
  induction s with
  | nil => intro _; exact ⟨fun x hx => absurd hx (List.not_mem_nil _), readFraction_nil_ok⟩
  | cons c cs ih =>
    intro h
    obtain ⟨s1, hstep, hrest⟩ := json.scanNumber_cons_self _ c cs h
    by_cases hd : isDigit c = true
    · have hs1 : s1 = .digits := by
        have hd2 : 48 ≤ c ∧ c ≤ 57 := by simpa [isDigit] using hd
        simp only [json.numStep, hd2, and_self, if_true, Option.some.injEq] at hstep
        exact hstep.symm
      rw [hs1] at hrest
      rw [spanDigits_digit c cs hd]
      obtain ⟨h1, h2⟩ := ih hrest
      refine ⟨?_, h2⟩
      intro x hx
      rcases List.mem_cons.1 hx with hx | hx
      · rw [hx]; exact hd
      · exact h1 x hx
    · have hd2 : isDigit c = false := by simpa using hd
      rw [spanDigits_nondigit c cs hd2]
      exact ⟨fun x hx => absurd hx (List.not_mem_nil _),
        readFraction_of_step .digits c cs (Or.inr rfl) hd2 s1 hstep hrest⟩

end strconv

namespace json

theorem scanNumberValue_shape (st : NumState) (c : Nat) (cs text : Bytes)
    (h : scanNumberValue st c cs = some (.number text)) :
    ∃ rest, text = c :: rest ∧ scanNumber st rest = some (rest, []) := by
  unfold scanNumberValue at h
  cases hs : scanNumber st cs with
  | none => rw [hs] at h; exact absurd h (by simp)
  | some p =>
    rw [hs] at h
    dsimp only at h
    split_ifs at h
    simp only [Option.some.injEq, Value.number.injEq] at h
    exact ⟨p.1, h.symm, scanNumber_self cs st p.1 p.2 hs⟩

/-- The text of a number token: a minus sign, a zero or a digit from 1 to 9, and
then what the scanner accepts after it. -/
theorem scan_number_shape (t text : Bytes) (h : scan t = some (.number text)) :
    ∃ c cs, text = c :: cs ∧
      ((c = 0x2D ∧ scanNumber .neg cs = some (cs, [])) ∨
       (c = 0x30 ∧ scanNumber .zero cs = some (cs, [])) ∨
       (0x31 ≤ c ∧ c ≤ 0x39 ∧ scanNumber .digits cs = some (cs, []))) := by
  unfold scan at h
  cases hsk : skipSpace t with
  | nil => rw [hsk] at h; exact absurd h (by simp)
  | cons c cs =>
    rw [hsk] at h
    dsimp only at h
    split_ifs at h with h1 h2 h3 h4 h5 h6 h7 h8
    · exact absurd h (by simp)
    · cases hstr : scanString cs with
      | none => rw [hstr] at h; exact absurd h (by simp)
      | some p =>
        rw [hstr] at h
        dsimp only at h
        split_ifs at h
        exact absurd h (by simp)
    · unfold scanWord at h
      split_ifs at h
      exact absurd h (by simp)
    · unfold scanWord at h
      split_ifs at h
      exact absurd h (by simp)
    · unfold scanWord at h
      split_ifs at h
      exact absurd h (by simp)
    · obtain ⟨rest, hr1, hr2⟩ := scanNumberValue_shape _ _ _ _ h
      exact ⟨c, rest, hr1, Or.inl ⟨h6, hr2⟩⟩
    · obtain ⟨rest, hr1, hr2⟩ := scanNumberValue_shape _ _ _ _ h
      exact ⟨c, rest, hr1, Or.inr (Or.inl ⟨h7, hr2⟩)⟩
    · obtain ⟨rest, hr1, hr2⟩ := scanNumberValue_shape _ _ _ _ h
      exact ⟨c, rest, hr1, Or.inr (Or.inr ⟨h8.1, h8.2, hr2⟩)⟩

/-- The text of a number token is a number literal of its own. -/
theorem scan_number_self (t text : Bytes) (h : scan t = some (.number text)) :
    scan text = some (.number text) := by
  obtain ⟨c, cs, htext, hc⟩ := scan_number_shape t text h
  rw [htext]
  rcases hc with ⟨hc, hs⟩ | ⟨hc, hs⟩ | ⟨hc1, hc2, hs⟩
  · rw [hc]
    simp [scan, skipSpace, isSpace, scanNumberValue, hs, onlySpace]
  · rw [hc]
    simp [scan, skipSpace, isSpace, scanNumberValue, hs, onlySpace]
  · have hsp : isSpace c = false := by
      simp only [isSpace, decide_eq_false_iff_not]; omega
    have e1 : ¬ (c = 0x5B ∨ c = 0x7B) := by omega
    have e2 : ¬ c = 0x22 := by omega
    have e3 : ¬ c = 0x6E := by omega
    have e4 : ¬ c = 0x74 := by omega
    have e5 : ¬ c = 0x66 := by omega
    have e6 : ¬ c = 0x2D := by omega
    have e7 : ¬ c = 0x30 := by omega
    have e8 : 0x31 ≤ c ∧ c ≤ 0x39 := ⟨hc1, hc2⟩
    simp only [scan, skipSpace, hsp, Bool.false_eq_true, if_false, e1, e2, e3, e4, e5, e6, e7,
      e8, and_self, if_true, scanNumberValue, hs, onlySpace, List.all_nil]

end json

namespace strconv

theorem readDecimal_core (s body : Bytes) (neg : Bool) (hs : readSign s = (neg, body))
    (hne : (spanDigits body).1 ≠ [])
    (h1 : ∀ x ∈ (spanDigits body).1, isDigit x = true)
    (h2 : ∀ x ∈ (readFraction (spanDigits body).2).1, isDigit x = true)
    (h3 : ∃ x, readExponent (readFraction (spanDigits body).2).2 = some x) :
    ∃ p, readDecimal s = some p := by
  obtain ⟨x, hx⟩ := h3
  have hall : ∀ y ∈ (spanDigits body).1 ++ (readFraction (spanDigits body).2).1,
      isDigit y = true := by
    intro y hy
    rcases List.mem_append.1 hy with hy | hy
    · exact h1 y hy
    · exact h2 y hy
  obtain ⟨n, hn⟩ := parseDigits_all _ hall 0
  unfold readDecimal
  rw [hs]
  dsimp only
  rw [if_neg (fun h => hne h.1), hn, hx]
  exact ⟨_, rfl⟩

theorem readDecimal_body (s : Bytes) (neg : Bool) (d : Nat) (rest : Bytes)
    (hs : readSign s = (neg, d :: rest))
    (h : (d = 48 ∧ json.scanNumber .zero rest = some (rest, [])) ∨
      (49 ≤ d ∧ d ≤ 57 ∧ json.scanNumber .digits rest = some (rest, []))) :
    ∃ p, readDecimal s = some p := by
  have hd : isDigit d = true := by
    rcases h with ⟨h, _⟩ | ⟨h1, h2, _⟩
    · rw [h]; rfl
    · simp only [isDigit, decide_eq_true_eq]; omega
  have hsp := spanDigits_digit d rest hd
  rcases h with ⟨_, h⟩ | ⟨_, _, h⟩
  · obtain ⟨t1, t2, t3⟩ := tail_of_zero rest h
    rw [t1] at hsp
    refine readDecimal_core s (d :: rest) neg hs ?_ ?_ ?_ ?_
    · rw [hsp]; simp
    · rw [hsp]
      intro x hx
      simp only [List.mem_singleton] at hx
      rw [hx]; exact hd
    · rw [hsp]; exact t2
    · rw [hsp]; exact t3
  · obtain ⟨t1, t2, t3⟩ := tail_of_digits rest h
    refine readDecimal_core s (d :: rest) neg hs ?_ ?_ ?_ ?_
    · rw [hsp]; simp
    · rw [hsp]
      intro x hx
      rcases List.mem_cons.1 hx with hx | hx
      · rw [hx]; exact hd
      · exact t1 x hx
    · rw [hsp]; exact t2
    · rw [hsp]; exact t3

/-- The decimal reader reads every JSON number literal. -/
theorem readDecimal_of_scan (t text : Bytes) (h : json.scan t = some (.number text)) :
    ∃ p, readDecimal text = some p := by
  obtain ⟨c, cs, htext, hc⟩ := json.scan_number_shape t text h
  rw [htext]
  rcases hc with ⟨hc, hs⟩ | ⟨hc, hs⟩ | ⟨hc1, hc2, hs⟩
  · cases cs with
    | nil => exact absurd (json.scanNumber_nil_self _ hs) (by decide)
    | cons d rest =>
      obtain ⟨s1, hstep, hrest⟩ := json.scanNumber_cons_self _ d rest hs
      have hsign : readSign (c :: d :: rest) = (true, d :: rest) := by
        rw [hc]; rfl
      refine readDecimal_body _ true d rest hsign ?_
      simp only [json.numStep] at hstep
      split_ifs at hstep with h1 h2
      · rw [← Option.some.inj hstep] at hrest
        exact Or.inl ⟨h1, hrest⟩
      · rw [← Option.some.inj hstep] at hrest
        exact Or.inr ⟨h2.1, h2.2, hrest⟩
  · have hsign : readSign (c :: cs) = (false, c :: cs) := by
      rw [hc]; rfl
    exact readDecimal_body _ false c cs hsign (Or.inl ⟨hc, hs⟩)
  · have c1 : ¬ c = 45 := by omega
    have c2 : ¬ c = 43 := by omega
    have hsign : readSign (c :: cs) = (false, c :: cs) := by
      simp [readSign, c1, c2]
    exact readDecimal_body _ false c cs hsign (Or.inr ⟨hc1, hc2, hs⟩)

theorem roundDecimal_error (neg : Bool) (D : Nat) (k : Int)
    (h : (roundDecimal neg D k).2 ≠ none) :
    roundDecimal neg D k = (0x7FF0000000000000, some .outOfRange) ∨
      roundDecimal neg D k = (0xFFF0000000000000, some .outOfRange) := by
  unfold roundDecimal at h ⊢
  dsimp only at h ⊢
  generalize nearestBits _ _ = nb at h ⊢
  by_cases hc : 0x7FF0000000000000 ≤ nb
  · rw [if_pos hc]
    cases neg
    · left; rfl
    · right; rfl
  · rw [if_neg hc] at h
    exact absurd rfl h

/-- On the text of a number token the host float parser either succeeds or
answers with an infinity and the range error. -/
theorem ParseFloat64_error (t text : Bytes) (h : json.scan t = some (.number text))
    (he : (ParseFloat64 text).2 ≠ none) :
    ParseFloat64 text = (0x7FF0000000000000, some .outOfRange) ∨
      ParseFloat64 text = (0xFFF0000000000000, some .outOfRange) := by
  obtain ⟨p, hp⟩ := readDecimal_of_scan t text h
  have hself := json.scan_number_self t text h
  unfold ParseFloat64 at he ⊢
  rw [if_pos hself, hp] at he ⊢
  exact roundDecimal_error _ _ _ he

end strconv

namespace strconv

/-- The number `1e400` is out of the range of `float64`: the host parser answers
with the positive infinity and the range error. -/
theorem ParseFloat64_out_of_range :
    ParseFloat64 (ascii "1e400") = (0x7FF0000000000000, some .outOfRange) := by
  decide!

/-- The example fragment agrees with the host conversions on every text and
every value it lists. -/
theorem exampleFloatConv_agrees :
    (∀ s ∈ [ascii "0", ascii "1", ascii "1.5", ascii "-2", ascii "1e400"],
      exampleFloatConv.ParseFloat s = hostFloatConv.ParseFloat s) ∧
    (∀ f ∈ [0, 0x3FF0000000000000, 0x3FF8000000000000, 0xC000000000000000],
      exampleFloatConv.FormatFloat f = hostFloatConv.FormatFloat f) := by
  decide!

end strconv

namespace math

/-- A bit pattern that is neither a NaN nor an infinity has, without its sign,
bits below those of the infinity. -/
theorem finite_bits (v : Nat) (hnan : IsNaN v = false) (hinf : IsInf v = false) :
    v % 2 ^ 63 < 0x7FF0000000000000 := by
  have he : exponentBits v ≠ 2047 := by
    intro he
    by_cases hf : fractionBits v = 0
    · simp [IsInf, he, hf] at hinf
    · simp [IsNaN, he, hf] at hnan
  unfold exponentBits at he
  norm_num at he ⊢
  omega

end math

/-! ## Properties of the package `goptional` -/

namespace goptional

/-- A valid Float64 holding 1.5 that decodes the number `1e400` under the host
conversions ends invalid and holds the positive infinity. -/
theorem Float64.unmarshalJSON_out_of_range :
    (Float64.mk 0x3FF8000000000000 true).UnmarshalJSON strconv.hostFloatConv (ascii "1e400")
      = (Float64.mk 0x7FF0000000000000 false, none) := by
  have hne : ¬ ascii "1e400" = ascii "null" := by decide
  have hscan : json.scan (ascii "1e400") = some (.number (ascii "1e400")) := by decide!
  unfold Float64.UnmarshalJSON
  rw [if_neg hne]
  unfold json.UnmarshalFloat
  rw [hscan]
  dsimp only [strconv.hostFloatConv]
  rw [strconv.ParseFloat64_out_of_range]

/-- Running the body of `Set` leaves the receiver in the state `Set` describes:
the state of a body does record assignments. -/
theorem set_body_run :
    (∀ (i : Int) (v : int) (b : bool), (Int.Set.body v b).run i = ((), i.Set v b)) ∧
    (∀ (i : Int64) (v : int64) (b : bool), (Int64.Set.body v b).run i = ((), i.Set v b)) ∧
    (∀ (i : String) (v : string) (b : bool), (String.Set.body v b).run i = ((), i.Set v b)) ∧
    (∀ (f : Float64) (v : float64) (b : bool), (Float64.Set.body v b).run f = ((), f.Set v b)) :=
  ⟨fun _ _ _ => rfl, fun _ _ _ => rfl, fun _ _ _ => rfl, fun _ _ _ => rfl⟩

end goptional

/-! ## The claims -/

namespace goptional

/-- C1: for Int, Int64, String and Float64, every prior state and every token
`t`, after `UnmarshalJSON(t)` the flag `Ok()` is true exactly when `t` is not the
bytes `null` and the host decode of `t` into the scalar target returns no error,
and then `Get()` is the decoded value with `true`.  A quoted string leaves an
Int64 invalid and a bare number leaves a String invalid; the token `4` gives an
Int64 the value 4. -/
theorem unmarshalJSON_ok_iff_host_decode :
    (∀ (i : Int) (t : Bytes),
      ((i.UnmarshalJSON t).1.Ok = true ↔
        (t ≠ ascii "null" ∧ (json.UnmarshalInt strconv.IntSize t i.val).2 = none)) ∧
      ((i.UnmarshalJSON t).1.Ok = false ∨
        (i.UnmarshalJSON t).1.Get = ((json.UnmarshalInt strconv.IntSize t i.val).1, true))) ∧
    (∀ (i : Int64) (t : Bytes),
      ((i.UnmarshalJSON t).1.Ok = true ↔
        (t ≠ ascii "null" ∧ (json.UnmarshalInt 64 t i.val).2 = none)) ∧
      ((i.UnmarshalJSON t).1.Ok = false ∨
        (i.UnmarshalJSON t).1.Get = ((json.UnmarshalInt 64 t i.val).1, true))) ∧
    (∀ (i : String) (t : Bytes),
      ((i.UnmarshalJSON t).1.Ok = true ↔
        (t ≠ ascii "null" ∧ (json.UnmarshalString t i.val).2 = none)) ∧
      ((i.UnmarshalJSON t).1.Ok = false ∨
        (i.UnmarshalJSON t).1.Get = ((json.UnmarshalString t i.val).1, true))) ∧
    (∀ (fc : strconv.FloatConv) (f : Float64) (t : Bytes),
      ((f.UnmarshalJSON fc t).1.Ok = true ↔
        (t ≠ ascii "null" ∧ (json.UnmarshalFloat fc t f.val).2 = none)) ∧
      ((f.UnmarshalJSON fc t).1.Ok = false ∨
        (f.UnmarshalJSON fc t).1.Get = ((json.UnmarshalFloat fc t f.val).1, true))) ∧
    (∀ i : Int64, (i.UnmarshalJSON (ascii "\"test\"")).1.Ok = false) ∧
    (∀ i : Int, (i.UnmarshalJSON (ascii "\"test\"")).1.Ok = false) ∧
    (∀ (fc : strconv.FloatConv) (f : Float64),
      (f.UnmarshalJSON fc (ascii "\"test\"")).1.Ok = false) ∧
    (∀ i : String, (i.UnmarshalJSON (ascii "5")).1.Ok = false) ∧
    (∀ i : Int64, (i.UnmarshalJSON (ascii "4")).1.Get = (4, true)) ∧
    (∀ i : String, (i.UnmarshalJSON (ascii "\"test\"")).1.Get = (ascii "test", true)) := by
  refine ⟨?_, ?_, ?_, ?_, ?_, ?_, ?_, ?_, ?_, ?_⟩
  · intro i t
    unfold Int.UnmarshalJSON
    by_cases h : t = ascii "null"
    · simp [h, Int.Ok]
    · simp only [h, if_false]
      cases hr : (json.UnmarshalInt strconv.IntSize t i.val).2 <;> simp [Int.Ok, Int.Get, hr, h]
  · intro i t
    unfold Int64.UnmarshalJSON
    by_cases h : t = ascii "null"
    · simp [h, Int64.Ok]
    · simp only [h, if_false]
      cases hr : (json.UnmarshalInt 64 t i.val).2 <;> simp [Int64.Ok, Int64.Get, hr, h]
  · intro i t
    unfold String.UnmarshalJSON
    by_cases h : t = ascii "null"
    · simp [h, String.Ok]
    · simp only [h, if_false]
      cases hr : (json.UnmarshalString t i.val).2 <;> simp [String.Ok, String.Get, hr, h]
  · intro fc f t
    unfold Float64.UnmarshalJSON
    by_cases h : t = ascii "null"
    · simp [h, Float64.Ok]
    · simp only [h, if_false]
      cases hr : (json.UnmarshalFloat fc t f.val).2 <;> simp [Float64.Ok, Float64.Get, hr, h]
  · intro i; rfl
  · intro i; rfl
  · intro fc f; rfl
  · intro i; rfl
  · intro i; rfl
  · intro i; rfl

/-- C2: for every kind, every prior state and every token whatsoever,
`UnmarshalJSON` returns the nil error. -/
theorem unmarshalJSON_error_nil :
    (∀ (i : Int) (t : Bytes), (i.UnmarshalJSON t).2 = none) ∧
    (∀ (i : Int64) (t : Bytes), (i.UnmarshalJSON t).2 = none) ∧
    (∀ (i : String) (t : Bytes), (i.UnmarshalJSON t).2 = none) ∧
    (∀ (fc : strconv.FloatConv) (f : Float64) (t : Bytes), (f.UnmarshalJSON fc t).2 = none) ∧
    (∀ (b : Bool) (t : Bytes), (b.UnmarshalJSON t).2 = none) := by
  refine ⟨?_, ?_, ?_, ?_, ?_⟩
  · intro i t
    unfold Int.UnmarshalJSON
    split
    · rfl
    · dsimp only
      split <;> rfl
  · intro i t
    unfold Int64.UnmarshalJSON
    split
    · rfl
    · dsimp only
      split <;> rfl
  · intro i t
    unfold String.UnmarshalJSON
    split
    · rfl
    · dsimp only
      split <;> rfl
  · intro fc f t
    unfold Float64.UnmarshalJSON
    split
    · rfl
    · dsimp only
      split <;> rfl
  · intro b t
    unfold Bool.UnmarshalJSON
    split
    · rfl
    · dsimp only
      split
      · rfl
      · split <;> rfl

/-- C3: for every prior state of a Bool optional, `UnmarshalJSON` on `1` or
`true` leaves `Get() = (true, true)`, and on `0` or `false` leaves
`Get() = (false, true)`. -/
theorem Bool.unmarshalJSON_recognised (b : Bool) :
    (b.UnmarshalJSON (ascii "1")).1.Get = (true, true) ∧
    (b.UnmarshalJSON (ascii "true")).1.Get = (true, true) ∧
    (b.UnmarshalJSON (ascii "0")).1.Get = (false, true) ∧
    (b.UnmarshalJSON (ascii "false")).1.Get = (false, true) :=
  ⟨rfl, rfl, rfl, rfl⟩

/-- C4: for every prior state of a Bool optional and every token `t`, after
`UnmarshalJSON(t)` the flag `Ok()` is true exactly when `t` is byte for byte
one of `1`, `true`, `0`, `false`; `null`, the quoted `"true"`, the number `2`,
the capitalised `True` and padded tokens leave `Ok() = false`. -/
theorem Bool.unmarshalJSON_ok_iff (b : Bool) :
    (∀ t : Bytes, (b.UnmarshalJSON t).1.Ok = true ↔
      (t = ascii "1" ∨ t = ascii "true" ∨ t = ascii "0" ∨ t = ascii "false")) ∧
    (b.UnmarshalJSON (ascii "null")).1.Ok = false ∧
    (b.UnmarshalJSON (ascii "\"true\"")).1.Ok = false ∧
    (b.UnmarshalJSON (ascii "2")).1.Ok = false ∧
    (b.UnmarshalJSON (ascii "True")).1.Ok = false ∧
    (b.UnmarshalJSON (ascii " true")).1.Ok = false ∧
    (b.UnmarshalJSON (ascii "1 ")).1.Ok = false := by
  refine ⟨?_, rfl, rfl, rfl, rfl, rfl, rfl⟩
  intro t
  unfold Bool.UnmarshalJSON
  by_cases h0 : t = ascii "null"
  · subst h0
    rw [if_pos rfl]
    exact ⟨fun h => absurd h (by simp [Bool.Ok]), fun h => absurd h (by decide)⟩
  · rw [if_neg h0]
    by_cases h1 : t = ascii "1" ∨ t = ascii "true"
    · rw [if_pos h1]
      exact ⟨fun _ => by tauto, fun _ => rfl⟩
    · rw [if_neg h1]
      by_cases h2 : t = ascii "0" ∨ t = ascii "false"
      · rw [if_pos h2]
        exact ⟨fun _ => by tauto, fun _ => rfl⟩
      · rw [if_neg h2]
        constructor
        · intro h
          exact absurd h (by simp [Bool.Ok])
        · intro h
          tauto

end goptional

namespace goptional

/-- C5, as stated, fails: a valid Int64 holding 7 that decodes the token `null`
or the wrong-typed token `"test"` ends with `Get() = (7, false)`, not with the
zero value; a valid Bool holding true that decodes the token `2` ends with
`Get() = (true, false)`; a valid Float64 holding 1.5 that decodes the number
`1e400`, which is out of range, ends with `Get() = (+Inf, false)`. -/
theorem unmarshalJSON_invalid_zero_counterexample :
    ((Int64.mk 7 true).UnmarshalJSON (ascii "null")).1.Get = (7, false) ∧
    ((Int64.mk 7 true).UnmarshalJSON (ascii "null")).1.Get ≠ (0, false) ∧
    ((Int64.mk 7 true).UnmarshalJSON (ascii "\"test\"")).1.Get = (7, false) ∧
    ((Bool.mk true true).UnmarshalJSON (ascii "2")).1.Get = (true, false) ∧
    ((Float64.mk 0x3FF8000000000000 true).UnmarshalJSON strconv.hostFloatConv
      (ascii "1e400")).1.Get = (0x7FF0000000000000, false) := by
  refine ⟨by decide, by decide, by decide, by decide, ?_⟩
  rw [Float64.unmarshalJSON_out_of_range]
  rfl

/-- C5, amended: for every kind, every prior state and every token, whenever a
text decode ends with the flag false, `Get()` returns the value stored before
the decode together with false (the zero value when the prior state held it, as
a default-constructed optional does), with one exception: a Float64 that decodes
a number token on which the host float parser reports an error returns the
value that parser produced, and with the host conversions that value is an
infinity. -/
theorem unmarshalJSON_invalid_keeps_value :
    (∀ (i : Int) (t : Bytes), (i.UnmarshalJSON t).1.Ok = false →
      (i.UnmarshalJSON t).1.Get = (i.val, false)) ∧
    (∀ (i : Int64) (t : Bytes), (i.UnmarshalJSON t).1.Ok = false →
      (i.UnmarshalJSON t).1.Get = (i.val, false)) ∧
    (∀ (i : String) (t : Bytes), (i.UnmarshalJSON t).1.Ok = false →
      (i.UnmarshalJSON t).1.Get = (i.val, false)) ∧
    (∀ (fc : strconv.FloatConv) (f : Float64) (t : Bytes), (f.UnmarshalJSON fc t).1.Ok = false →
      (∀ text, json.scan t ≠ some (.number text)) →
      (f.UnmarshalJSON fc t).1.Get = (f.val, false)) ∧
    (∀ (fc : strconv.FloatConv) (f : Float64) (t text : Bytes),
      (f.UnmarshalJSON fc t).1.Ok = false → json.scan t = some (.number text) →
      (fc.ParseFloat text).2 ≠ none ∧
        (f.UnmarshalJSON fc t).1.Get = ((fc.ParseFloat text).1, false)) ∧
    (∀ (f : Float64) (t : Bytes), (f.UnmarshalJSON strconv.hostFloatConv t).1.Ok = false →
      (f.UnmarshalJSON strconv.hostFloatConv t).1.Get = (f.val, false) ∨
      (f.UnmarshalJSON strconv.hostFloatConv t).1.Get = (0x7FF0000000000000, false) ∨
      (f.UnmarshalJSON strconv.hostFloatConv t).1.Get = (0xFFF0000000000000, false)) ∧
    (∀ (b : Bool) (t : Bytes), (b.UnmarshalJSON t).1.Ok = false →
      (b.UnmarshalJSON t).1.Get = (b.val, false)) ∧
    (∀ t : Bytes, ((Int64.mk 0 false).UnmarshalJSON t).1.Ok = false →
      ((Int64.mk 0 false).UnmarshalJSON t).1.Get = (0, false)) := by
  have hInt64 : ∀ (i : Int64) (t : Bytes), (i.UnmarshalJSON t).1.Ok = false →
      (i.UnmarshalJSON t).1.Get = (i.val, false) := by
    intro i t
    unfold Int64.UnmarshalJSON
    by_cases h : t = ascii "null"
    · simp [h, Int64.Get]
    · rw [if_neg h]
      cases hr : (json.UnmarshalInt 64 t i.val).2
      · simp [hr, Int64.Ok]
      · have hk := json.UnmarshalInt_error_keeps 64 t i.val (by simp [hr])
        simp [hr, Int64.Get, hk]
  have hother : ∀ (fc : strconv.FloatConv) (f : Float64) (t : Bytes),
      (f.UnmarshalJSON fc t).1.Ok = false → (∀ text, json.scan t ≠ some (.number text)) →
      (f.UnmarshalJSON fc t).1.Get = (f.val, false) := by
    intro fc f t
    unfold Float64.UnmarshalJSON
    by_cases h : t = ascii "null"
    · simp [h, Float64.Get]
    · rw [if_neg h]
      intro hok hnum
      have hk : (json.UnmarshalFloat fc t f.val).1 = f.val := by
        unfold json.UnmarshalFloat
        cases hs : json.scan t with
        | none => rfl
        | some v =>
          cases v with
          | compound => rfl
          | null => rfl
          | bool _ => rfl
          | string _ => rfl
          | number text => exact absurd hs (hnum text)
      revert hok
      cases hr : (json.UnmarshalFloat fc t f.val).2
      · simp [hr, Float64.Ok]
      · simp [hr, Float64.Get, hk]
  have hnumber : ∀ (fc : strconv.FloatConv) (f : Float64) (t text : Bytes),
      (f.UnmarshalJSON fc t).1.Ok = false → json.scan t = some (.number text) →
      (fc.ParseFloat text).2 ≠ none ∧
        (f.UnmarshalJSON fc t).1.Get = ((fc.ParseFloat text).1, false) := by
    intro fc f t text hok hs
    have hnull : json.scan (ascii "null") = some .null := by decide
    have hne : ¬ t = ascii "null" := by
      intro h
      rw [h, hnull] at hs
      exact absurd hs (by simp)
    unfold Float64.UnmarshalJSON at hok ⊢
    rw [if_neg hne] at hok ⊢
    unfold json.UnmarshalFloat at hok ⊢
    rw [hs] at hok ⊢
    dsimp only at hok ⊢
    cases hp : (fc.ParseFloat text).2 with
    | none =>
      rw [hp] at hok
      exact absurd hok (by simp [Float64.Ok])
    | some e =>
      refine ⟨by simp, ?_⟩
      simp [Float64.Get]
  refine ⟨?_, hInt64, ?_, hother, hnumber, ?_, ?_, fun t => hInt64 _ t⟩
  · intro i t
    unfold Int.UnmarshalJSON
    by_cases h : t = ascii "null"
    · simp [h, Int.Get]
    · rw [if_neg h]
      cases hr : (json.UnmarshalInt strconv.IntSize t i.val).2
      · simp [hr, Int.Ok]
      · have hk := json.UnmarshalInt_error_keeps strconv.IntSize t i.val (by simp [hr])
        simp [hr, Int.Get, hk]
  · intro i t
    unfold String.UnmarshalJSON
    by_cases h : t = ascii "null"
    · simp [h, String.Get]
    · rw [if_neg h]
      cases hr : (json.UnmarshalString t i.val).2
      · simp [hr, String.Ok]
      · have hk := json.UnmarshalString_error_keeps t i.val (by simp [hr])
        simp [hr, String.Get, hk]
  · intro f t hok
    by_cases hnum : ∃ text, json.scan t = some (.number text)
    · obtain ⟨text, hs⟩ := hnum
      obtain ⟨he, hg⟩ := hnumber strconv.hostFloatConv f t text hok hs
      rcases strconv.ParseFloat64_error t text hs he with hp | hp
      · right; left
        rw [hg]
        exact congrArg (fun p => (p.1, false)) hp
      · right; right
        rw [hg]
        exact congrArg (fun p => (p.1, false)) hp
    · left
      exact hother strconv.hostFloatConv f t hok (fun text hs => hnum ⟨text, hs⟩)
  · intro b t
    unfold Bool.UnmarshalJSON
    by_cases h : t = ascii "null"
    · simp [h, Bool.Get]
    · rw [if_neg h]
      dsimp only
      split
      · simp [Bool.Ok]
      · split
        · simp [Bool.Ok]
        · simp [Bool.Get]

/-- The amended C5 at concrete inputs: a valid Int64 holding 7 decodes a quoted
string, and a valid Float64 holding 1.5 decodes the number `1e400`. -/
theorem unmarshalJSON_invalid_keeps_value_witness :
    (((Int64.mk 7 true).UnmarshalJSON (ascii "\"test\"")).1.Ok = false ∧
      ((Int64.mk 7 true).UnmarshalJSON (ascii "\"test\"")).1.Get = (7, false)) ∧
    ((strconv.exampleFloatConv.ParseFloat (ascii "1e400")).2 ≠ none ∧
      ((Float64.mk 0x3FF8000000000000 true).UnmarshalJSON strconv.exampleFloatConv
        (ascii "1e400")).1.Get
        = ((strconv.exampleFloatConv.ParseFloat (ascii "1e400")).1, false)) ∧
    (((Float64.mk 0x3FF8000000000000 true).UnmarshalJSON strconv.hostFloatConv
        (ascii "1e400")).1.Ok = false ∧
      (((Float64.mk 0x3FF8000000000000 true).UnmarshalJSON strconv.hostFloatConv
          (ascii "1e400")).1.Get = (0x3FF8000000000000, false) ∨
        ((Float64.mk 0x3FF8000000000000 true).UnmarshalJSON strconv.hostFloatConv
          (ascii "1e400")).1.Get = (0x7FF0000000000000, false) ∨
        ((Float64.mk 0x3FF8000000000000 true).UnmarshalJSON strconv.hostFloatConv
          (ascii "1e400")).1.Get = (0xFFF0000000000000, false))) :=
  ⟨⟨by decide, unmarshalJSON_invalid_keeps_value.2.1 (Int64.mk 7 true) (ascii "\"test\"")
    (by decide)⟩,
    unmarshalJSON_invalid_keeps_value.2.2.2.2.1 strconv.exampleFloatConv
      (Float64.mk 0x3FF8000000000000 true) (ascii "1e400") (ascii "1e400")
      (by decide) (by decide),
    ⟨by rw [Float64.unmarshalJSON_out_of_range]; rfl,
      unmarshalJSON_invalid_keeps_value.2.2.2.2.2.1 (Float64.mk 0x3FF8000000000000 true)
        (ascii "1e400") (by rw [Float64.unmarshalJSON_out_of_range]; rfl)⟩⟩

/-- C6: for every kind, `MarshalJSON` of a valid optional returns what the host
encoder returns for the stored value, and `MarshalJSON` of an invalid optional
returns exactly the bytes `null`.  For Bool, `NewBool(true, true)` encodes to
`true` and `NewBool(false, true)` to `false`. -/
theorem marshalJSON_value_or_null :
    (∀ v : int, (NewInt v true).MarshalJSON = json.MarshalInt v ∧
      (NewInt v false).MarshalJSON = .ok (ascii "null")) ∧
    (∀ v : int64, (NewInt64 v true).MarshalJSON = json.MarshalInt v ∧
      (NewInt64 v false).MarshalJSON = .ok (ascii "null")) ∧
    (∀ v : string, (NewString v true).MarshalJSON = json.MarshalString v ∧
      (NewString v false).MarshalJSON = .ok (ascii "null")) ∧
    (∀ (fc : strconv.FloatConv) (v : float64),
      (NewFloat64 v true).MarshalJSON fc = json.MarshalFloat fc v ∧
      (NewFloat64 v false).MarshalJSON fc = .ok (ascii "null")) ∧
    (∀ v : bool, (NewBool v true).MarshalJSON = json.MarshalBool v ∧
      (NewBool v false).MarshalJSON = .ok (ascii "null")) ∧
    (NewBool true true).MarshalJSON = .ok (ascii "true") ∧
    (NewBool false true).MarshalJSON = .ok (ascii "false") ∧
    (NewInt64 4 true).MarshalJSON = .ok (ascii "4") ∧
    (NewString (ascii "test") true).MarshalJSON = .ok (ascii "\"test\"") :=
  ⟨fun _ => ⟨rfl, rfl⟩, fun _ => ⟨rfl, rfl⟩, fun _ => ⟨rfl, rfl⟩, fun _ _ => ⟨rfl, rfl⟩,
    fun _ => ⟨rfl, rfl⟩, rfl, rfl, by decide, by decide⟩

/-- C7, as stated, fails: a valid Float64 holding a NaN is refused by the host
encoder, so `MarshalJSON` returns an error; the same for an infinity. -/
theorem marshalJSON_nan_counterexample :
    (NewFloat64 0x7FF8000000000001 true).MarshalJSON strconv.exampleFloatConv
      = .error .unsupportedValue ∧
    (NewFloat64 0x7FF0000000000000 true).MarshalJSON strconv.exampleFloatConv
      = .error .unsupportedValue := by
  decide

/-- C7, amended: `MarshalJSON` returns no error for every Int, Int64, String and
Bool optional, for every invalid Float64 and for every valid Float64 whose value
is neither a NaN nor an infinity; `GetBSON` of Int64 and String never returns an
error. -/
theorem encode_error_nil :
    (∀ i : Int, ∃ bs, i.MarshalJSON = .ok bs) ∧
    (∀ i : Int64, ∃ bs, i.MarshalJSON = .ok bs) ∧
    (∀ i : String, ∃ bs, i.MarshalJSON = .ok bs) ∧
    (∀ b : Bool, ∃ bs, b.MarshalJSON = .ok bs) ∧
    (∀ (fc : strconv.FloatConv) (f : Float64),
      f.set = false ∨ (math.IsNaN f.val = false ∧ math.IsInf f.val = false) →
      ∃ bs, f.MarshalJSON fc = .ok bs) ∧
    (∀ i : Int64, i.GetBSON.2 = none) ∧
    (∀ i : String, i.GetBSON.2 = none) := by
  refine ⟨?_, ?_, ?_, ?_, ?_, ?_, ?_⟩
  · rintro ⟨v, s⟩
    cases s
    · exact ⟨_, rfl⟩
    · exact ⟨_, rfl⟩
  · rintro ⟨v, s⟩
    cases s
    · exact ⟨_, rfl⟩
    · exact ⟨_, rfl⟩
  · rintro ⟨v, s⟩
    cases s
    · exact ⟨_, rfl⟩
    · exact ⟨_, rfl⟩
  · rintro ⟨v, s⟩
    cases s
    · exact ⟨_, rfl⟩
    · exact ⟨_, rfl⟩
  · rintro fc ⟨v, s⟩ h
    cases s
    · exact ⟨_, rfl⟩
    · rcases h with h | ⟨h1, h2⟩
      · cases h
      · refine ⟨fc.FormatFloat v, ?_⟩
        show json.MarshalFloat fc v = _
        unfold json.MarshalFloat
        dsimp only at h1 h2
        simp [h1, h2]
  · rintro ⟨v, s⟩
    cases s <;> rfl
  · rintro ⟨v, s⟩
    cases s <;> rfl

/-- The amended C7 at a concrete input: a valid Float64 holding 1.5. -/
theorem encode_error_nil_witness :
    ∃ bs, (Float64.mk 0x3FF8000000000000 true).MarshalJSON strconv.exampleFloatConv = .ok bs :=
  encode_error_nil.2.2.2.2.1 strconv.exampleFloatConv (Float64.mk 0x3FF8000000000000 true)
    (Or.inr ⟨by decide, by decide⟩)

/-- C8, as stated, fails: `MarshalJSON` of an invalid optional returns the bytes
`null` and no error. -/
theorem marshalJSON_invalid_counterexample :
    (NewInt64 5 false).MarshalJSON = .ok (ascii "null") ∧
    (NewBool true false).MarshalJSON = .ok (ascii "null") := by
  decide

/-- C8, amended: for every kind, `MarshalJSON` of an invalid optional returns no
error; it returns the bytes `null`. -/
theorem marshalJSON_invalid_null :
    (∀ v : int, (Int.mk v false).MarshalJSON = .ok (ascii "null")) ∧
    (∀ v : int64, (Int64.mk v false).MarshalJSON = .ok (ascii "null")) ∧
    (∀ v : string, (String.mk v false).MarshalJSON = .ok (ascii "null")) ∧
    (∀ (fc : strconv.FloatConv) (v : float64),
      (Float64.mk v false).MarshalJSON fc = .ok (ascii "null")) ∧
    (∀ v : bool, (Bool.mk v false).MarshalJSON = .ok (ascii "null")) :=
  ⟨fun _ => rfl, fun _ => rfl, fun _ => rfl, fun _ _ => rfl, fun _ => rfl⟩

/-- C10: for every kind, every stored value `v` and every prior state of the
receiver `r`, decoding the text encoding of `NewK(v, false)` with
`r.UnmarshalJSON` leaves `r.Ok() = false`; for Int64 and String, decoding the
BSON element the host encoder makes of `GetBSON` of `NewK(v, false)` (the null
element) with `r.SetBSON` leaves `r.Ok() = false` and returns no error. -/
theorem roundTrip_invalid :
    (∀ (v : int) (r : Int), ∃ bs, (NewInt v false).MarshalJSON = .ok bs ∧
      (r.UnmarshalJSON bs).1.Ok = false) ∧
    (∀ (v : int64) (r : Int64), ∃ bs, (NewInt64 v false).MarshalJSON = .ok bs ∧
      (r.UnmarshalJSON bs).1.Ok = false) ∧
    (∀ (v : string) (r : String), ∃ bs, (NewString v false).MarshalJSON = .ok bs ∧
      (r.UnmarshalJSON bs).1.Ok = false) ∧
    (∀ (fc : strconv.FloatConv) (v : float64) (r : Float64),
      ∃ bs, (NewFloat64 v false).MarshalJSON fc = .ok bs ∧
        (r.UnmarshalJSON fc bs).1.Ok = false) ∧
    (∀ (v : bool) (r : Bool), ∃ bs, (NewBool v false).MarshalJSON = .ok bs ∧
      (r.UnmarshalJSON bs).1.Ok = false) ∧
    (∀ (host : bson.Raw → int64 → int64 × error) (enc : int64 → bson.Raw) (v : int64)
        (r : Int64),
      (bson.encodeGetter enc (NewInt64 v false).GetBSON.1).Kind = 0x0A ∧
      (r.SetBSON host (bson.encodeGetter enc (NewInt64 v false).GetBSON.1)).1.Ok = false ∧
      (r.SetBSON host (bson.encodeGetter enc (NewInt64 v false).GetBSON.1)).2 = none) ∧
    (∀ (host : bson.Raw → string → string × error) (enc : string → bson.Raw) (v : string)
        (r : String),
      (bson.encodeGetter enc (NewString v false).GetBSON.1).Kind = 0x0A ∧
      (r.SetBSON host (bson.encodeGetter enc (NewString v false).GetBSON.1)).1.Ok = false ∧
      (r.SetBSON host (bson.encodeGetter enc (NewString v false).GetBSON.1)).2 = none) :=
  ⟨fun _ _ => ⟨_, rfl, rfl⟩, fun _ _ => ⟨_, rfl, rfl⟩, fun _ _ => ⟨_, rfl, rfl⟩,
    fun _ _ _ => ⟨_, rfl, rfl⟩, fun _ _ => ⟨_, rfl, rfl⟩,
    fun _ _ _ _ => ⟨rfl, rfl, rfl⟩, fun _ _ _ _ => ⟨rfl, rfl, rfl⟩⟩

end goptional

namespace goptional

/-- C9, as stated, fails: the string made of the single byte 0xFF is not valid
UTF-8; the host encoder writes the three bytes of U+FFFD in its place, and
decoding that text gives those three bytes, not the original value.  A Float64
holding a NaN is not encoded at all. -/
theorem textRoundTrip_counterexample :
    (NewString [0xFF] true).MarshalJSON = .ok [0x22, 0xEF, 0xBF, 0xBD, 0x22] ∧
    ((String.mk [] false).UnmarshalJSON [0x22, 0xEF, 0xBF, 0xBD, 0x22]).1.Get
      = ([0xEF, 0xBF, 0xBD], true) ∧
    ((String.mk [] false).UnmarshalJSON [0x22, 0xEF, 0xBF, 0xBD, 0x22]).1.Get ≠ ([0xFF], true) ∧
    (NewFloat64 0x7FF8000000000001 true).MarshalJSON strconv.hostFloatConv
      = .error .unsupportedValue := by
  refine ⟨by decide, by decide, by decide, ?_⟩
  show json.MarshalFloat strconv.hostFloatConv 0x7FF8000000000001 = _
  unfold json.MarshalFloat
  rw [if_pos (Or.inr (by decide))]

/-- C9, amended: the text round trip of a valid optional gives `(v, true)` back,
for every prior state of the receiver, for every Int and Int64 value, for every
Bool value, for every String value that is valid UTF-8, and for every Float64
value that is neither a NaN nor an infinity. -/
theorem textRoundTrip_valid :
    (∀ (v : int) (r : Int), -(2 ^ 63) ≤ v → v < 2 ^ 63 →
      ∃ bs, (NewInt v true).MarshalJSON = .ok bs ∧ (r.UnmarshalJSON bs).1.Get = (v, true)) ∧
    (∀ (v : int64) (r : Int64), -(2 ^ 63) ≤ v → v < 2 ^ 63 →
      ∃ bs, (NewInt64 v true).MarshalJSON = .ok bs ∧ (r.UnmarshalJSON bs).1.Get = (v, true)) ∧
    (∀ (v : string) (r : String), utf8.Valid v = true →
      ∃ bs, (NewString v true).MarshalJSON = .ok bs ∧ (r.UnmarshalJSON bs).1.Get = (v, true)) ∧
    (∀ (v : float64) (r : Float64), v < 2 ^ 64 →
      math.IsNaN v = false → math.IsInf v = false →
      ∃ bs, (NewFloat64 v true).MarshalJSON strconv.hostFloatConv = .ok bs ∧
        (r.UnmarshalJSON strconv.hostFloatConv bs).1.Get = (v, true)) ∧
    (∀ (v : bool) (r : Bool),
      ∃ bs, (NewBool v true).MarshalJSON = .ok bs ∧ (r.UnmarshalJSON bs).1.Get = (v, true)) := by
  refine ⟨?_, ?_, ?_, ?_, ?_⟩
  · intro v r hlo hhi
    refine ⟨strconv.FormatInt v, rfl, ?_⟩
    have h := json.UnmarshalInt_FormatInt v r.val hlo hhi
    unfold Int.UnmarshalJSON
    rw [if_neg (json.FormatInt_ne_null v)]
    dsimp only [strconv.IntSize]
    rw [h]
    rfl
  · intro v r hlo hhi
    refine ⟨strconv.FormatInt v, rfl, ?_⟩
    have h := json.UnmarshalInt_FormatInt v r.val hlo hhi
    unfold Int64.UnmarshalJSON
    rw [if_neg (json.FormatInt_ne_null v)]
    dsimp only
    rw [h]
    rfl
  · intro v r hv
    obtain ⟨bs, h1, h2, h3⟩ := json.UnmarshalString_MarshalString v r.val hv
    refine ⟨bs, h1, ?_⟩
    unfold String.UnmarshalJSON
    rw [if_neg h2]
    dsimp only
    rw [h3]
    rfl
  · intro v r hv hnan hinf
    have hfin := math.finite_bits v hnan hinf
    have hscan := strconv.scan_FormatFloat64 v hv hfin
    have hparse := strconv.ParseFloat64_FormatFloat64 v hv hfin
    refine ⟨strconv.FormatFloat64 v, ?_, ?_⟩
    · show json.MarshalFloat strconv.hostFloatConv v = _
      unfold json.MarshalFloat
      simp [hnan, hinf, strconv.hostFloatConv]
    · have hnull : json.scan (ascii "null") = some .null := by decide
      have hne : strconv.FormatFloat64 v ≠ ascii "null" := by
        intro h
        rw [h, hnull] at hscan
        exact absurd hscan (by simp)
      have h : json.UnmarshalFloat strconv.hostFloatConv (strconv.FormatFloat64 v) r.val
          = (v, none) := by
        unfold json.UnmarshalFloat
        rw [hscan]
        dsimp only [strconv.hostFloatConv]
        rw [hparse]
      unfold Float64.UnmarshalJSON
      rw [if_neg hne]
      dsimp only
      rw [h]
      rfl
  · intro v r
    cases v
    · exact ⟨ascii "false", rfl, rfl⟩
    · exact ⟨ascii "true", rfl, rfl⟩

/-- The amended round trip at concrete values: the Int64 value -5, the string
`test`, and the Float64 value 1.5. -/
theorem textRoundTrip_valid_witness :
    (∃ bs, (NewInt64 (-5) true).MarshalJSON = .ok bs ∧
      ((Int64.mk 9 false).UnmarshalJSON bs).1.Get = (-5, true)) ∧
    (∃ bs, (NewString (ascii "test") true).MarshalJSON = .ok bs ∧
      ((String.mk [] false).UnmarshalJSON bs).1.Get = (ascii "test", true)) ∧
    (∃ bs, (NewFloat64 0x3FF8000000000000 true).MarshalJSON strconv.hostFloatConv = .ok bs ∧
      ((Float64.mk 0 false).UnmarshalJSON strconv.hostFloatConv bs).1.Get
        = (0x3FF8000000000000, true)) :=
  ⟨textRoundTrip_valid.2.1 (-5) (Int64.mk 9 false) (by decide) (by decide),
    textRoundTrip_valid.2.2.1 (ascii "test") (String.mk [] false) (by decide),
    textRoundTrip_valid.2.2.2.1 0x3FF8000000000000 (Float64.mk 0 false)
      (by decide) (by decide) (by decide)⟩

end goptional

namespace goptional

/-- C11: for Int64 and String, every prior state, every host payload interpreter
and every raw element whose kind is the null tag 0x0A, whatever its payload,
`SetBSON` returns the nil error and leaves `Ok() = false`. -/
theorem setBSON_null_tag :
    (∀ (host : bson.Raw → int64 → int64 × error) (i : Int64) (data : Bytes),
      (i.SetBSON host { Kind := 0x0A, Data := data }).2 = none ∧
      (i.SetBSON host { Kind := 0x0A, Data := data }).1.Ok = false) ∧
    (∀ (host : bson.Raw → string → string × error) (i : String) (data : Bytes),
      (i.SetBSON host { Kind := 0x0A, Data := data }).2 = none ∧
      (i.SetBSON host { Kind := 0x0A, Data := data }).1.Ok = false) :=
  ⟨fun _ _ _ => ⟨rfl, rfl⟩, fun _ _ _ => ⟨rfl, rfl⟩⟩

/-- C12: for Int64 and String, every prior state and every raw element whose kind
is not the null tag, `SetBSON` returns an error exactly when the host
interpretation of the payload fails, and then `Ok()` is false; when the
interpretation succeeds, `SetBSON` returns nil and `Get()` is the interpreted
value with true.  A string element decoded into Int64 and an int64 element
decoded into String are errors. -/
theorem setBSON_error_iff_host_fails :
    (∀ (host : bson.Raw → int64 → int64 × error) (i : Int64) (raw : bson.Raw),
      raw.Kind ≠ 0x0A →
      ((i.SetBSON host raw).2 ≠ none ↔ (host raw i.val).2 ≠ none) ∧
      ((host raw i.val).2 ≠ none → (i.SetBSON host raw).1.Ok = false) ∧
      ((host raw i.val).2 = none → (i.SetBSON host raw).2 = none ∧
        (i.SetBSON host raw).1.Get = ((host raw i.val).1, true))) ∧
    (∀ (host : bson.Raw → string → string × error) (i : String) (raw : bson.Raw),
      raw.Kind ≠ 0x0A →
      ((i.SetBSON host raw).2 ≠ none ↔ (host raw i.val).2 ≠ none) ∧
      ((host raw i.val).2 ≠ none → (i.SetBSON host raw).1.Ok = false) ∧
      ((host raw i.val).2 = none → (i.SetBSON host raw).2 = none ∧
        (i.SetBSON host raw).1.Get = ((host raw i.val).1, true))) ∧
    (∀ (other : bson.Raw → int64 → int64 × error) (i : Int64) (data : Bytes),
      (i.SetBSON (bson.UnmarshalInt64 other) { Kind := 0x02, Data := data }).2 ≠ none ∧
      (i.SetBSON (bson.UnmarshalInt64 other) { Kind := 0x02, Data := data }).1.Ok = false) ∧
    (∀ (other : bson.Raw → string → string × error) (i : String) (data : Bytes),
      (i.SetBSON (bson.UnmarshalString other) { Kind := 0x12, Data := data }).2 ≠ none ∧
      (i.SetBSON (bson.UnmarshalString other) { Kind := 0x12, Data := data }).1.Ok = false) := by
  refine ⟨?_, ?_, ?_, ?_⟩
  · intro host i raw hk
    unfold Int64.SetBSON
    rw [if_neg hk]
    cases hr : (host raw i.val).2 <;> simp [hr, Int64.Ok, Int64.Get]
  · intro host i raw hk
    unfold String.SetBSON
    rw [if_neg hk]
    cases hr : (host raw i.val).2 <;> simp [hr, String.Ok, String.Get]
  · intro other i data
    exact ⟨by simp [Int64.SetBSON, bson.UnmarshalInt64], by
      simp [Int64.SetBSON, bson.UnmarshalInt64, Int64.Ok]⟩
  · intro other i data
    exact ⟨by simp [String.SetBSON, bson.UnmarshalString], by
      simp [String.SetBSON, bson.UnmarshalString, String.Ok]⟩

/-- C12 at concrete inputs: an int32 element holding 7 decoded into an Int64 that
held 1, and a string element decoded into the same Int64. -/
theorem setBSON_error_iff_host_fails_witness :
    ((Int64.mk 1 false).SetBSON (bson.UnmarshalInt64 fun _ v => (v, some .bsonMismatch))
        { Kind := 0x10, Data := [7, 0, 0, 0] }).2 = none ∧
    ((Int64.mk 1 false).SetBSON (bson.UnmarshalInt64 fun _ v => (v, some .bsonMismatch))
        { Kind := 0x10, Data := [7, 0, 0, 0] }).1.Get = (7, true) ∧
    ((Int64.mk 1 true).SetBSON (bson.UnmarshalInt64 fun _ v => (v, some .bsonMismatch))
        { Kind := 0x02, Data := [2, 0, 0, 0, 97, 0] }).1.Ok = false :=
  ⟨(setBSON_error_iff_host_fails.1 _ (Int64.mk 1 false) { Kind := 0x10, Data := [7, 0, 0, 0] }
      (by decide)).2.2 (by decide) |>.1,
    (setBSON_error_iff_host_fails.1 _ (Int64.mk 1 false) { Kind := 0x10, Data := [7, 0, 0, 0] }
      (by decide)).2.2 (by decide) |>.2,
    (setBSON_error_iff_host_fails.1 _ (Int64.mk 1 true)
      { Kind := 0x02, Data := [2, 0, 0, 0, 97, 0] } (by decide)).2.1 (by decide)⟩

/-- C13: for Int64 and String, `GetBSON` returns the stored value and the nil
error when the optional is valid, and the nil interface value and the nil error
when it is invalid; nil is not the zero value. -/
theorem getBSON_value_or_nil :
    (∀ v : int64, (NewInt64 v true).GetBSON = (some v, none) ∧
      (NewInt64 v false).GetBSON = (none, none)) ∧
    (∀ v : string, (NewString v true).GetBSON = (some v, none) ∧
      (NewString v false).GetBSON = (none, none)) ∧
    (NewInt64 0 false).GetBSON.1 ≠ some 0 ∧
    (NewString [] false).GetBSON.1 ≠ some [] :=
  ⟨fun _ => ⟨rfl, rfl⟩, fun _ => ⟨rfl, rfl⟩, by decide, by decide⟩

/-- C14: for Int64 (values of the int64 range) and String (values whose length
fits the int32 length field of a string element), the element the host encoder
makes of `GetBSON` of `NewK(v, true)` is decoded by `SetBSON`, on every receiver
and so on a default-constructed one, without error and to `NewK(v, true)`; this
includes 0 and the empty string. -/
theorem bsonRoundTrip_valid :
    (∀ (other : bson.Raw → int64 → int64 × error) (v : int64) (r : Int64),
      -(2 ^ 63) ≤ v → v < 2 ^ 63 →
      r.SetBSON (bson.UnmarshalInt64 other)
        (bson.encodeGetter bson.encodeInt64 (NewInt64 v true).GetBSON.1) = (NewInt64 v true, none)) ∧
    (∀ (other : bson.Raw → string → string × error) (v : string) (r : String),
      v.length + 1 < 2 ^ 31 →
      r.SetBSON (bson.UnmarshalString other)
        (bson.encodeGetter bson.encodeString (NewString v true).GetBSON.1)
          = (NewString v true, none)) ∧
    (∀ other : bson.Raw → int64 → int64 × error,
      (Int64.zero.SetBSON (bson.UnmarshalInt64 other)
        (bson.encodeGetter bson.encodeInt64 (NewInt64 0 true).GetBSON.1)).1.Get = (0, true)) ∧
    (∀ other : bson.Raw → string → string × error,
      (String.zero.SetBSON (bson.UnmarshalString other)
        (bson.encodeGetter bson.encodeString (NewString [] true).GetBSON.1)).1.Get = ([], true)) := by
  have hI : ∀ (other : bson.Raw → int64 → int64 × error) (v : int64) (r : Int64),
      -(2 ^ 63) ≤ v → v < 2 ^ 63 →
      r.SetBSON (bson.UnmarshalInt64 other)
        (bson.encodeGetter bson.encodeInt64 (NewInt64 v true).GetBSON.1)
          = (NewInt64 v true, none) := by
    intro other v r hlo hhi
    have h := bson.UnmarshalInt64_encodeInt64 other v r.val hlo hhi
    show r.SetBSON (bson.UnmarshalInt64 other) (bson.encodeInt64 v) = _
    unfold Int64.SetBSON
    have hk : ¬ (bson.encodeInt64 v).Kind = 0x0A := by
      show ¬ (0x12 : Nat) = 0x0A
      decide
    rw [if_neg hk]
    dsimp only
    rw [h]
    rfl
  have hS : ∀ (other : bson.Raw → string → string × error) (v : string) (r : String),
      v.length + 1 < 2 ^ 31 →
      r.SetBSON (bson.UnmarshalString other)
        (bson.encodeGetter bson.encodeString (NewString v true).GetBSON.1)
          = (NewString v true, none) := by
    intro other v r hlen
    have h := bson.UnmarshalString_encodeString other v r.val hlen
    show r.SetBSON (bson.UnmarshalString other) (bson.encodeString v) = _
    unfold String.SetBSON
    have hk : ¬ (bson.encodeString v).Kind = 0x0A := by
      show ¬ (0x02 : Nat) = 0x0A
      decide
    rw [if_neg hk]
    dsimp only
    rw [h]
    rfl
  refine ⟨hI, hS, ?_, ?_⟩
  · intro other
    rw [hI other 0 Int64.zero (by decide) (by decide)]
    rfl
  · intro other
    rw [hS other [] String.zero (by decide)]
    rfl

/-- C14 at concrete inputs: the Int64 value 5 and the string `hi`, decoded on
default-constructed receivers. -/
theorem bsonRoundTrip_valid_witness :
    Int64.zero.SetBSON (bson.UnmarshalInt64 fun _ v => (v, some .bsonMismatch))
      (bson.encodeGetter bson.encodeInt64 (NewInt64 5 true).GetBSON.1) = (NewInt64 5 true, none) ∧
    String.zero.SetBSON (bson.UnmarshalString fun _ v => (v, some .bsonMismatch))
      (bson.encodeGetter bson.encodeString (NewString (ascii "hi") true).GetBSON.1)
        = (NewString (ascii "hi") true, none) :=
  ⟨bsonRoundTrip_valid.1 _ 5 Int64.zero (by decide) (by decide),
    bsonRoundTrip_valid.2.1 _ (ascii "hi") String.zero (by decide)⟩

end goptional

namespace goptional

/-- C15: for every prior state and every flag `s`, `Bool.Set(v, s)` stores false
when `v` is the boolean false, a zero of an integer or floating-point type, or
the empty string, and stores true when `v` is the boolean true, a non-zero
number or a non-empty string; the flag afterwards is `s`. -/
theorem Bool.set_coercion (b : Bool) (s : bool) :
    b.Set (.bool false) s = some (Bool.mk false s) ∧
    (∀ k : IntKind, b.Set (.integer k 0) s = some (Bool.mk false s)) ∧
    b.Set (.float32 0) s = some (Bool.mk false s) ∧
    b.Set (.float64 0) s = some (Bool.mk false s) ∧
    b.Set (.float32 0x80000000) s = some (Bool.mk false s) ∧
    b.Set (.float64 0x8000000000000000) s = some (Bool.mk false s) ∧
    b.Set (.string []) s = some (Bool.mk false s) ∧
    b.Set (.bool true) s = some (Bool.mk true s) ∧
    (∀ (k : IntKind) (n : int64), n ≠ 0 → b.Set (.integer k n) s = some (Bool.mk true s)) ∧
    (∀ f : Nat, f % 2 ^ 31 ≠ 0 → b.Set (.float32 f) s = some (Bool.mk true s)) ∧
    (∀ f : Nat, f % 2 ^ 63 ≠ 0 → b.Set (.float64 f) s = some (Bool.mk true s)) ∧
    (∀ (c : Nat) (cs : Bytes), b.Set (.string (c :: cs)) s = some (Bool.mk true s)) := by
  refine ⟨rfl, fun k => ?_, rfl, rfl, rfl, rfl, rfl, rfl, fun k n hn => ?_, fun f hf => ?_,
    fun f hf => ?_, fun c cs => ?_⟩
  · simp [Bool.Set, reflect.Zero, Any.eq, Any.orElse]
  · simp [Bool.Set, reflect.Zero, Any.eq, Any.orElse, hn]
  · have h0 : f ≠ 0 := by
      intro h; rw [h] at hf; exact hf rfl
    have he : math.float32Eq f 0 = false := by
      unfold math.float32Eq
      split
      · rfl
      · rw [if_neg (fun h => hf h.1)]
        simp [h0]
    simp [Bool.Set, reflect.Zero, Any.eq, Any.orElse, he]
  · have h0 : f ≠ 0 := by
      intro h; rw [h] at hf; exact hf rfl
    have he : math.float64Eq f 0 = false := by
      unfold math.float64Eq
      split
      · rfl
      · rw [if_neg (fun h => hf h.1)]
        simp [h0]
    simp [Bool.Set, reflect.Zero, Any.eq, Any.orElse, he]
  · simp [Bool.Set, reflect.Zero, Any.eq, Any.orElse]

/-- C15 at concrete inputs: the values the test suite passes, `int8(0)`, `-1`
and `"asd"`. -/
theorem Bool.set_coercion_witness :
    (Bool.mk false false).Set (.integer .int8 0) true = some (Bool.mk false true) ∧
    (Bool.mk false false).Set (.integer .int (-1)) true = some (Bool.mk true true) ∧
    (Bool.mk false false).Set (.string (ascii "asd")) true = some (Bool.mk true true) :=
  ⟨(Bool.set_coercion (Bool.mk false false) true).2.1 .int8,
    (Bool.set_coercion (Bool.mk false false) true).2.2.2.2.2.2.2.2.1 .int (-1) (by decide),
    (Bool.set_coercion (Bool.mk false false) true).2.2.2.2.2.2.2.2.2.2.2 97 [115, 100]⟩

/-- C16, the code at the failing inputs: `Bool.Set` panics on the nil interface
value (in `reflect.Value.Type`) and on a slice, a map or a function (in the
comparison with the zero value of a type that is not comparable); nothing is
stored. -/
theorem Bool.set_panics (b : Bool) (s : bool) :
    b.Set .nil s = none ∧
    (∀ n : Nat, b.Set (.slice n) s = none) ∧
    (∀ n : Nat, b.Set (.map n) s = none) ∧
    (∀ n : Nat, b.Set (.func n) s = none) :=
  ⟨rfl, fun _ => rfl, fun _ => rfl, fun _ => rfl⟩

/-- C17: for every Bool optional with stored value `b` and flag `s`, `GetInt()`
returns `(1, s)` when `b` is true and `(0, s)` when `b` is false.  The method
assigns nothing, so it is a function of the receiver alone. -/
theorem Bool.getInt_value (s : bool) :
    (Bool.mk true s).GetInt = (1, s) ∧ (Bool.mk false s).GetInt = (0, s) :=
  ⟨rfl, rfl⟩

/-- C18: for every kind, every value `v` and every flag `ok`, `NewK(v, ok).Get()`
returns `(v, ok)` and `NewK(v, ok).Ok()` returns `ok`. -/
theorem new_get_ok :
    (∀ (v : int) (ok : bool), (NewInt v ok).Get = (v, ok) ∧ (NewInt v ok).Ok = ok) ∧
    (∀ (v : int64) (ok : bool), (NewInt64 v ok).Get = (v, ok) ∧ (NewInt64 v ok).Ok = ok) ∧
    (∀ (v : string) (ok : bool), (NewString v ok).Get = (v, ok) ∧ (NewString v ok).Ok = ok) ∧
    (∀ (v : float64) (ok : bool), (NewFloat64 v ok).Get = (v, ok) ∧ (NewFloat64 v ok).Ok = ok) ∧
    (∀ (v : bool) (ok : bool), (NewBool v ok).Get = (v, ok) ∧ (NewBool v ok).Ok = ok) :=
  ⟨fun _ _ => ⟨rfl, rfl⟩, fun _ _ => ⟨rfl, rfl⟩, fun _ _ => ⟨rfl, rfl⟩, fun _ _ => ⟨rfl, rfl⟩,
    fun _ _ => ⟨rfl, rfl⟩⟩

/-- C19: for Int, Int64, String and Float64, every prior state, every value `v`
and every flag `b`, after `Set(v, b)` the method `Get()` returns `(v, b)` and
`Ok()` returns `b`. -/
theorem set_get_ok :
    (∀ (i : Int) (v : int) (b : bool), (i.Set v b).Get = (v, b) ∧ (i.Set v b).Ok = b) ∧
    (∀ (i : Int64) (v : int64) (b : bool), (i.Set v b).Get = (v, b) ∧ (i.Set v b).Ok = b) ∧
    (∀ (i : String) (v : string) (b : bool), (i.Set v b).Get = (v, b) ∧ (i.Set v b).Ok = b) ∧
    (∀ (f : Float64) (v : float64) (b : bool), (f.Set v b).Get = (v, b) ∧ (f.Set v b).Ok = b) :=
  ⟨fun _ _ _ => ⟨rfl, rfl⟩, fun _ _ _ => ⟨rfl, rfl⟩, fun _ _ _ => ⟨rfl, rfl⟩,
    fun _ _ _ => ⟨rfl, rfl⟩⟩

/-- C20: the zero value of every kind is invalid: `Ok()` is false and `Get()` is
the zero scalar with false; decoding the token `null` on it gives the same
optional back. -/
theorem zero_value_invalid :
    (Int.zero.Ok = false ∧ Int.zero.Get = (0, false) ∧
      (Int.zero.UnmarshalJSON (ascii "null")).1 = Int.zero) ∧
    (Int64.zero.Ok = false ∧ Int64.zero.Get = (0, false) ∧
      (Int64.zero.UnmarshalJSON (ascii "null")).1 = Int64.zero) ∧
    (String.zero.Ok = false ∧ String.zero.Get = ([], false) ∧
      (String.zero.UnmarshalJSON (ascii "null")).1 = String.zero) ∧
    (Float64.zero.Ok = false ∧ Float64.zero.Get = (0, false) ∧
      ∀ fc : strconv.FloatConv, (Float64.zero.UnmarshalJSON fc (ascii "null")).1 = Float64.zero) ∧
    (Bool.zero.Ok = false ∧ Bool.zero.Get = (false, false) ∧
      (Bool.zero.UnmarshalJSON (ascii "null")).1 = Bool.zero) :=
  ⟨⟨rfl, rfl, rfl⟩, ⟨rfl, rfl, rfl⟩, ⟨rfl, rfl, rfl⟩, ⟨rfl, rfl, fun _ => rfl⟩, ⟨rfl, rfl, rfl⟩⟩

end goptional

namespace goptional

/-- C21: for every kind and every state, running the body of `Ok`, `Get`,
`GetInt` (Bool), `MarshalJSON` or `GetBSON` (Int64, String) on an optional
returns the result of the method and leaves the stored value and the flag as
they were; `Ok()` equals the second component of `Get()`, and `Get()` is the
stored pair. -/
theorem read_methods_pure :
    (∀ i : Int, Int.Ok.body.run i = (i.Ok, i) ∧ Int.Get.body.run i = (i.Get, i) ∧
      Int.MarshalJSON.body.run i = (i.MarshalJSON, i) ∧
      i.Ok = i.Get.2 ∧ i.Get = (i.val, i.set)) ∧
    (∀ i : Int64, Int64.Ok.body.run i = (i.Ok, i) ∧ Int64.Get.body.run i = (i.Get, i) ∧
      Int64.MarshalJSON.body.run i = (i.MarshalJSON, i) ∧
      Int64.GetBSON.body.run i = (i.GetBSON, i) ∧
      i.Ok = i.Get.2 ∧ i.Get = (i.val, i.set)) ∧
    (∀ i : String, String.Ok.body.run i = (i.Ok, i) ∧ String.Get.body.run i = (i.Get, i) ∧
      String.MarshalJSON.body.run i = (i.MarshalJSON, i) ∧
      String.GetBSON.body.run i = (i.GetBSON, i) ∧
      i.Ok = i.Get.2 ∧ i.Get = (i.val, i.set)) ∧
    (∀ (fc : strconv.FloatConv) (f : Float64), Float64.Ok.body.run f = (f.Ok, f) ∧
      Float64.Get.body.run f = (f.Get, f) ∧
      (Float64.MarshalJSON.body fc).run f = (f.MarshalJSON fc, f) ∧
      f.Ok = f.Get.2 ∧ f.Get = (f.val, f.set)) ∧
    (∀ b : Bool, Bool.Ok.body.run b = (b.Ok, b) ∧ Bool.Get.body.run b = (b.Get, b) ∧
      Bool.GetInt.body.run b = (b.GetInt, b) ∧
      Bool.MarshalJSON.body.run b = (b.MarshalJSON, b) ∧
      b.Ok = b.Get.2 ∧ b.Ok = b.GetInt.2 ∧ b.Get = (b.val, b.set)) := by
  refine ⟨?_, ?_, ?_, ?_, ?_⟩
  · rintro ⟨v, _ | _⟩ <;> exact ⟨rfl, rfl, rfl, rfl, rfl⟩
  · rintro ⟨v, _ | _⟩ <;> exact ⟨rfl, rfl, rfl, rfl, rfl, rfl⟩
  · rintro ⟨v, _ | _⟩ <;> exact ⟨rfl, rfl, rfl, rfl, rfl, rfl⟩
  · rintro fc ⟨v, _ | _⟩ <;> exact ⟨rfl, rfl, rfl, rfl, rfl⟩
  · rintro ⟨_ | _, _ | _⟩ <;> exact ⟨rfl, rfl, rfl, rfl, rfl, rfl, rfl⟩

/-- C22: when `SetBSON` fails on a payload the host interpreter rejects, the
returned error is built by `fmt.Errorf` and its message is `Unable to unmarshal
data with kind <tag> to int64` for Int64 and `Unable to unmarshal data with kind
<tag> to string` for String, where `<tag>` is the kind of the raw element in
decimal. -/
theorem setBSON_error_message :
    (∀ (host : bson.Raw → int64 → int64 × error) (i : Int64) (raw : bson.Raw),
      raw.Kind ≠ 0x0A → (host raw i.val).2 ≠ none →
      (i.SetBSON host raw).2 = some (.errorf
        ("Unable to unmarshal data with kind " ++ toString raw.Kind ++ " to int64"))) ∧
    (∀ (host : bson.Raw → string → string × error) (i : String) (raw : bson.Raw),
      raw.Kind ≠ 0x0A → (host raw i.val).2 ≠ none →
      (i.SetBSON host raw).2 = some (.errorf
        ("Unable to unmarshal data with kind " ++ toString raw.Kind ++ " to string"))) ∧
    (∀ (other : bson.Raw → int64 → int64 × error) (i : Int64) (data : Bytes),
      (i.SetBSON (bson.UnmarshalInt64 other) { Kind := 0x02, Data := data }).2 =
        some (.errorf "Unable to unmarshal data with kind 2 to int64")) ∧
    (∀ (other : bson.Raw → string → string × error) (i : String) (data : Bytes),
      (i.SetBSON (bson.UnmarshalString other) { Kind := 0x12, Data := data }).2 =
        some (.errorf "Unable to unmarshal data with kind 18 to string")) := by
  have hI : ∀ (host : bson.Raw → int64 → int64 × error) (i : Int64) (raw : bson.Raw),
      raw.Kind ≠ 0x0A → (host raw i.val).2 ≠ none →
      (i.SetBSON host raw).2 = some (.errorf
        ("Unable to unmarshal data with kind " ++ toString raw.Kind ++ " to int64")) := by
    intro host i raw hk hf
    unfold Int64.SetBSON
    rw [if_neg hk]
    cases hr : (host raw i.val).2 with
    | none => exact absurd hr hf
    | some e => simp [hr]
  have hS : ∀ (host : bson.Raw → string → string × error) (i : String) (raw : bson.Raw),
      raw.Kind ≠ 0x0A → (host raw i.val).2 ≠ none →
      (i.SetBSON host raw).2 = some (.errorf
        ("Unable to unmarshal data with kind " ++ toString raw.Kind ++ " to string")) := by
    intro host i raw hk hf
    unfold String.SetBSON
    rw [if_neg hk]
    cases hr : (host raw i.val).2 with
    | none => exact absurd hr hf
    | some e => simp [hr]
  refine ⟨hI, hS, ?_, ?_⟩
  · intro other i data
    have hm : "Unable to unmarshal data with kind " ++ toString (0x02 : Nat) ++ " to int64"
        = "Unable to unmarshal data with kind 2 to int64" := by decide
    have hk : ¬ (0x02 : Nat) = 0x0A := by decide
    rw [hI (bson.UnmarshalInt64 other) i { Kind := 0x02, Data := data } hk
      (by simp [bson.UnmarshalInt64])]
    exact congrArg (fun m => some (GoError.errorf m)) hm
  · intro other i data
    have hm : "Unable to unmarshal data with kind " ++ toString (0x12 : Nat) ++ " to string"
        = "Unable to unmarshal data with kind 18 to string" := by decide
    have hk : ¬ (0x12 : Nat) = 0x0A := by decide
    rw [hS (bson.UnmarshalString other) i { Kind := 0x12, Data := data } hk
      (by simp [bson.UnmarshalString])]
    exact congrArg (fun m => some (GoError.errorf m)) hm

/-- C22 at a concrete input: an Int64 that decodes a string element. -/
theorem setBSON_error_message_witness :
    ((Int64.mk 1 true).SetBSON (bson.UnmarshalInt64 fun _ v => (v, none))
        { Kind := 0x02, Data := [2, 0, 0, 0, 97, 0] }).2 =
      some (.errorf ("Unable to unmarshal data with kind " ++ toString 2 ++ " to int64")) :=
  setBSON_error_message.1 (bson.UnmarshalInt64 fun _ v => (v, none)) (Int64.mk 1 true)
    { Kind := 0x02, Data := [2, 0, 0, 0, 97, 0] } (by decide) (by decide)

/-- C23: the decode paths that signal absence only clear the flag: for every
kind and every prior state `(v, s)`, `UnmarshalJSON` on the exact token `null`
leaves `Get() = (v, false)`; so does `Bool.UnmarshalJSON` on every token that is
not one of `1`, `true`, `0`, `false`, and `SetBSON` of Int64 and String on a
null-tagged element. -/
theorem absence_only_clears_flag :
    (∀ i : Int, (i.UnmarshalJSON (ascii "null")).1.Get = (i.val, false)) ∧
    (∀ i : Int64, (i.UnmarshalJSON (ascii "null")).1.Get = (i.val, false)) ∧
    (∀ i : String, (i.UnmarshalJSON (ascii "null")).1.Get = (i.val, false)) ∧
    (∀ (fc : strconv.FloatConv) (f : Float64),
      (f.UnmarshalJSON fc (ascii "null")).1.Get = (f.val, false)) ∧
    (∀ b : Bool, (b.UnmarshalJSON (ascii "null")).1.Get = (b.val, false)) ∧
    (∀ (b : Bool) (t : Bytes),
      t ≠ ascii "1" → t ≠ ascii "true" → t ≠ ascii "0" → t ≠ ascii "false" →
      (b.UnmarshalJSON t).1.Get = (b.val, false)) ∧
    (∀ (host : bson.Raw → int64 → int64 × error) (i : Int64) (data : Bytes),
      (i.SetBSON host { Kind := 0x0A, Data := data }).1.Get = (i.val, false)) ∧
    (∀ (host : bson.Raw → string → string × error) (i : String) (data : Bytes),
      (i.SetBSON host { Kind := 0x0A, Data := data }).1.Get = (i.val, false)) := by
  refine ⟨fun _ => rfl, fun _ => rfl, fun _ => rfl, fun _ _ => rfl, fun _ => rfl, ?_,
    fun _ _ _ => rfl, fun _ _ _ => rfl⟩
  intro b t h1 h2 h3 h4
  unfold Bool.UnmarshalJSON
  split
  · rfl
  · dsimp only
    rw [if_neg (by tauto), if_neg (by tauto)]
    rfl

/-- C23 at a concrete input: a valid Bool holding true decodes the token `2`. -/
theorem absence_only_clears_flag_witness :
    ((Bool.mk true true).UnmarshalJSON (ascii "2")).1.Get = (true, false) :=
  absence_only_clears_flag.2.2.2.2.2.1 (Bool.mk true true) (ascii "2")
    (by decide) (by decide) (by decide) (by decide)

/-- C24: the encoding of an invalid optional does not depend on its stored
value, in the text format for every kind and in `GetBSON` for Int64 and String;
so, for a stored value that is not the zero value, decoding the encoding of
`NewK(v, false)` into a default-constructed optional gives the zero value of the
kind, which is not the original optional. -/
theorem invalid_encoding_hides_value :
    (∀ v1 v2 : int, (NewInt v1 false).MarshalJSON = (NewInt v2 false).MarshalJSON) ∧
    (∀ v1 v2 : int64, (NewInt64 v1 false).MarshalJSON = (NewInt64 v2 false).MarshalJSON) ∧
    (∀ v1 v2 : string, (NewString v1 false).MarshalJSON = (NewString v2 false).MarshalJSON) ∧
    (∀ (fc : strconv.FloatConv) (v1 v2 : float64),
      (NewFloat64 v1 false).MarshalJSON fc = (NewFloat64 v2 false).MarshalJSON fc) ∧
    (∀ v1 v2 : bool, (NewBool v1 false).MarshalJSON = (NewBool v2 false).MarshalJSON) ∧
    (∀ v1 v2 : int64, (NewInt64 v1 false).GetBSON = (NewInt64 v2 false).GetBSON) ∧
    (∀ v1 v2 : string, (NewString v1 false).GetBSON = (NewString v2 false).GetBSON) ∧
    (∀ v : int, v ≠ 0 → ∃ bs, (NewInt v false).MarshalJSON = .ok bs ∧
      (Int.zero.UnmarshalJSON bs).1 = Int.zero ∧ (Int.zero.UnmarshalJSON bs).1 ≠ NewInt v false) ∧
    (∀ v : int64, v ≠ 0 → ∃ bs, (NewInt64 v false).MarshalJSON = .ok bs ∧
      (Int64.zero.UnmarshalJSON bs).1 = Int64.zero ∧
      (Int64.zero.UnmarshalJSON bs).1 ≠ NewInt64 v false) ∧
    (∀ v : string, v ≠ [] → ∃ bs, (NewString v false).MarshalJSON = .ok bs ∧
      (String.zero.UnmarshalJSON bs).1 = String.zero ∧
      (String.zero.UnmarshalJSON bs).1 ≠ NewString v false) ∧
    (∀ (fc : strconv.FloatConv) (v : float64), v % 2 ^ 63 ≠ 0 →
      ∃ bs, (NewFloat64 v false).MarshalJSON fc = .ok bs ∧
        (Float64.zero.UnmarshalJSON fc bs).1 = Float64.zero ∧
        (Float64.zero.UnmarshalJSON fc bs).1 ≠ NewFloat64 v false) ∧
    (∃ bs, (NewBool true false).MarshalJSON = .ok bs ∧
      (Bool.zero.UnmarshalJSON bs).1 = Bool.zero ∧
      (Bool.zero.UnmarshalJSON bs).1 ≠ NewBool true false) ∧
    (∀ (host : bson.Raw → int64 → int64 × error) (enc : int64 → bson.Raw) (v : int64), v ≠ 0 →
      (Int64.zero.SetBSON host (bson.encodeGetter enc (NewInt64 v false).GetBSON.1)).1
        = Int64.zero ∧
      (Int64.zero.SetBSON host (bson.encodeGetter enc (NewInt64 v false).GetBSON.1)).1
        ≠ NewInt64 v false) ∧
    (∀ (host : bson.Raw → string → string × error) (enc : string → bson.Raw) (v : string),
      v ≠ [] →
      (String.zero.SetBSON host (bson.encodeGetter enc (NewString v false).GetBSON.1)).1
        = String.zero ∧
      (String.zero.SetBSON host (bson.encodeGetter enc (NewString v false).GetBSON.1)).1
        ≠ NewString v false) := by
  refine ⟨fun _ _ => rfl, fun _ _ => rfl, fun _ _ => rfl, fun _ _ _ => rfl, fun _ _ => rfl,
    fun _ _ => rfl, fun _ _ => rfl, ?_, ?_, ?_, ?_, ?_, ?_, ?_⟩
  · intro v hv
    refine ⟨ascii "null", rfl, rfl, ?_⟩
    intro h
    have h1 : (0 : int) = v := congrArg Int.val h
    exact hv h1.symm
  · intro v hv
    refine ⟨ascii "null", rfl, rfl, ?_⟩
    intro h
    have h1 : (0 : int64) = v := congrArg Int64.val h
    exact hv h1.symm
  · intro v hv
    refine ⟨ascii "null", rfl, rfl, ?_⟩
    intro h
    have h1 : ([] : string) = v := congrArg String.val h
    exact hv h1.symm
  · intro fc v hv
    refine ⟨ascii "null", rfl, rfl, ?_⟩
    intro h
    have h1 : (0 : float64) = v := congrArg Float64.val h
    rw [← h1] at hv
    exact hv rfl
  · exact ⟨ascii "null", rfl, rfl, by decide⟩
  · intro host enc v hv
    refine ⟨rfl, ?_⟩
    intro h
    have h1 : (0 : int64) = v := congrArg Int64.val h
    exact hv h1.symm
  · intro host enc v hv
    refine ⟨rfl, ?_⟩
    intro h
    have h1 : ([] : string) = v := congrArg String.val h
    exact hv h1.symm

/-- C24 at a concrete input: the invalid Int64 that holds 5. -/
theorem invalid_encoding_hides_value_witness :
    ∃ bs, (NewInt64 5 false).MarshalJSON = .ok bs ∧
      (Int64.zero.UnmarshalJSON bs).1 = Int64.zero ∧
      (Int64.zero.UnmarshalJSON bs).1 ≠ NewInt64 5 false :=
  invalid_encoding_hides_value.2.2.2.2.2.2.2.2.1 5 (by decide)

/-- C25, as stated, fails: an Int64 holding 7 with the flag false that decodes
the token `null` with a space before it, or after it, ends with `Ok() = true`
and `Get() = (7, true)`; the same token without the space leaves the flag
false. -/
theorem unmarshalJSON_padded_null_counterexample :
    ((Int64.mk 7 false).UnmarshalJSON (ascii " null")).1.Ok = true ∧
    ((Int64.mk 7 false).UnmarshalJSON (ascii " null")).1.Get = (7, true) ∧
    ((Int64.mk 7 false).UnmarshalJSON (ascii "null ")).1.Ok = true ∧
    ((Int64.mk 7 false).UnmarshalJSON (ascii "null ")).1.Get = (7, true) ∧
    ((Int64.mk 7 false).UnmarshalJSON (ascii "null")).1.Get = (7, false) := by
  decide

/-- C25, amended: for Int, Int64, String and Float64 and every prior state, only
the exact four bytes `null` are treated as absence, leaving the flag false and
the stored value as it was; every other text that the host reads as the null
literal, such as `null` with white space around it, is handed to the host
decoder, which accepts it without storing anything, so that `UnmarshalJSON`
ends with the flag true and the stored value as it was, and returns no error. -/
theorem unmarshalJSON_null_exact_bytes :
    (∀ (i : Int) (t : Bytes), json.scan t = some .null →
      (t = ascii "null" → i.UnmarshalJSON t = (Int.mk i.val false, none)) ∧
      (t ≠ ascii "null" → i.UnmarshalJSON t = (Int.mk i.val true, none))) ∧
    (∀ (i : Int64) (t : Bytes), json.scan t = some .null →
      (t = ascii "null" → i.UnmarshalJSON t = (Int64.mk i.val false, none)) ∧
      (t ≠ ascii "null" → i.UnmarshalJSON t = (Int64.mk i.val true, none))) ∧
    (∀ (i : String) (t : Bytes), json.scan t = some .null →
      (t = ascii "null" → i.UnmarshalJSON t = (String.mk i.val false, none)) ∧
      (t ≠ ascii "null" → i.UnmarshalJSON t = (String.mk i.val true, none))) ∧
    (∀ (fc : strconv.FloatConv) (f : Float64) (t : Bytes), json.scan t = some .null →
      (t = ascii "null" → f.UnmarshalJSON fc t = (Float64.mk f.val false, none)) ∧
      (t ≠ ascii "null" → f.UnmarshalJSON fc t = (Float64.mk f.val true, none))) := by
  refine ⟨?_, ?_, ?_, ?_⟩
  · intro i t hs
    refine ⟨fun h => ?_, fun h => ?_⟩
    · unfold Int.UnmarshalJSON
      rw [if_pos h]
    · unfold Int.UnmarshalJSON
      rw [if_neg h]
      simp only [json.UnmarshalInt, hs]
  · intro i t hs
    refine ⟨fun h => ?_, fun h => ?_⟩
    · unfold Int64.UnmarshalJSON
      rw [if_pos h]
    · unfold Int64.UnmarshalJSON
      rw [if_neg h]
      simp only [json.UnmarshalInt, hs]
  · intro i t hs
    refine ⟨fun h => ?_, fun h => ?_⟩
    · unfold String.UnmarshalJSON
      rw [if_pos h]
    · unfold String.UnmarshalJSON
      rw [if_neg h]
      simp only [json.UnmarshalString, hs]
  · intro fc f t hs
    refine ⟨fun h => ?_, fun h => ?_⟩
    · unfold Float64.UnmarshalJSON
      rw [if_pos h]
    · unfold Float64.UnmarshalJSON
      rw [if_neg h]
      simp only [json.UnmarshalFloat, hs]

/-- The amended C25 at concrete inputs: an Int64 holding 7 with the flag false
decodes `null` with a space before it, and a String decodes `null` followed by a
line feed. -/
theorem unmarshalJSON_null_exact_bytes_witness :
    (json.scan (ascii " null") = some .null ∧ ascii " null" ≠ ascii "null" ∧
      (Int64.mk 7 false).UnmarshalJSON (ascii " null") = (Int64.mk 7 true, none)) ∧
    (json.scan (ascii "null\n") = some .null ∧ ascii "null\n" ≠ ascii "null" ∧
      (String.mk (ascii "x") false).UnmarshalJSON (ascii "null\n")
        = (String.mk (ascii "x") true, none)) :=
  ⟨⟨by decide, by decide,
    (unmarshalJSON_null_exact_bytes.2.1 (Int64.mk 7 false) (ascii " null") (by decide)).2
      (by decide)⟩,
    ⟨by decide, by decide,
    (unmarshalJSON_null_exact_bytes.2.2.1 (String.mk (ascii "x") false) (ascii "null\n")
      (by decide)).2 (by decide)⟩⟩

end goptional
